import Mathlib

/-!
# Verification of the `banco-imobiliario` game engine

Shallow embedding of `src/server/src/engine.ts` (class `GameEngine`) together
with the data model and constants of `src/shared/src/index.ts`.

Modelling conventions:
* TypeScript in-place mutation of `this.state` is modelled by a state monad
  `M` over `Eng`; a `throw` is modelled by `Res.err`, which carries the state
  at the moment of the throw, so that "no mutation before the throw" is a
  real theorem and not an artifact of the embedding.
* Randomness is externalized: the two die values are explicit arguments of
  `rollDice`, the freshly generated `nanoid` ids are explicit arguments, and
  the results of `shuffle(EVENT_CARDS)` performed when the draw deck is empty
  are taken from the `shufs` component of `Eng` (one list per reshuffle,
  falling back to `EVENT_CARDS` itself, which is one possible shuffle).
* Wall-clock timestamps (`Date.now()`) are modelled as `0`; they carry no
  game-relevant information.
* JavaScript truthiness tests on optional strings / numbers
  (`if (this.state.turn.awaitingPurchase)`, `if (card.effect.money)`, ...)
  are modelled by `truthyS` / `truthyN` (empty string and `0` are falsy).
* JavaScript `%` on integers is truncated remainder, modelled by `Int.tmod`.
* Out-of-range tile reads (`this.state.tiles[i]` with `i` out of bounds),
  which cannot occur for board-consistent states because `movePlayer` wraps
  positions into range, are modelled as no-ops.
-/

namespace Banco

/-- Tile kinds, from the `TileType` union of `src/shared/src/index.ts`. -/
inductive TileType where
  | start
  | property
  | tax
  | event
  | jail
  | goToJail
  | free
deriving DecidableEq, Repr

/-- A board tile.  The TypeScript source is a tagged union of records; the
fields of all variants are collected here, with the `type` tag selecting the
meaningful ones (`bonus` for `start`, `price`/`baseRent`/`color`/`ownerId`/
`level` for `property`, `amount` for `tax`). -/
structure Tile where
  id : String
  name : String
  index : Nat
  type : TileType
  bonus : Int := 0
  price : Int := 0
  baseRent : Int := 0
  color : String := ""
  ownerId : Option String := none
  level : Option Nat := none
  amount : Int := 0
deriving DecidableEq, Repr

/-- An event card (`EventCard` of the shared package).  The engine also reads
an optional `goToJail` flag from `card.effect`. -/
structure EventCard where
  id : String
  title : String
  description : String
  money : Option Int := none
  move : Option Int := none
  toPosition : Option Nat := none
  goToJail : Bool := false
deriving DecidableEq, Repr

/-- Per-player state (`PlayerState` of the shared package). -/
structure PlayerState where
  id : String
  name : String
  position : Nat
  money : Int
  inJailTurns : Nat
  bankrupt : Bool
  disconnected : Bool := false
deriving DecidableEq, Repr

/-- Game settings (`GameSettings` of the shared package); `winCondition` is
kept as a plain string. -/
structure GameSettings where
  startingCash : Int
  passStartBonus : Int
  maxPlayers : Nat
  boardName : String
  winCondition : String
deriving DecidableEq, Repr

/-- A dice roll; `timestamp` is modelled as `0`. -/
structure DiceRoll where
  values : Nat × Nat
  total : Nat
  timestamp : Int := 0
deriving DecidableEq, Repr

/-- Game status (`lobby → active → finished`). -/
inductive GameStatus where
  | lobby
  | active
  | finished
deriving DecidableEq, Repr

/-- Per-turn state (`TurnState` of the shared package, plus the
`awaitingUpgrade` field the engine uses). -/
structure TurnState where
  currentPlayerId : String
  dice : Option DiceRoll := none
  awaitingPurchase : Option String := none
  awaitingUpgrade : Option String := none
  rolled : Bool
  turnStartedAt : Int := 0
deriving DecidableEq, Repr

/-- The full game state (`GameState` of the shared package).  Log entries are
modelled by their message strings. -/
structure GameState where
  roomId : String
  hostId : String
  status : GameStatus
  turnNumber : Option Nat := some 1
  players : List PlayerState
  tiles : List Tile
  settings : GameSettings
  turn : TurnState
  log : List String
  deck : List EventCard
  winnerId : Option String := none
deriving DecidableEq, Repr

/-- The engine's mutable world: the game state plus the stream of results of
future `shuffle(EVENT_CARDS)` calls (externalized randomness). -/
structure Eng where
  game : GameState
  shufs : List (List EventCard)
deriving DecidableEq, Repr

/-- Result of running an engine method: either a value or a thrown error
message, in both cases together with the state at that moment. -/
inductive Res (α : Type) where
  | ok : α → Eng → Res α
  | err : String → Eng → Res α
deriving DecidableEq, Repr

/-- The engine monad: state passing with exceptions that keep the state. -/
def M (α : Type) : Type := Eng → Res α

instance : Monad M where
  pure a := fun e => .ok a e
  bind x f := fun e =>
    match x e with
    | .ok a e' => f a e'
    | .err msg e' => .err msg e'

/-- `throw new Error(msg)`. -/
def throwM {α : Type} (msg : String) : M α := fun e => .err msg e

/-- Read the current game state. -/
def getGame : M GameState := fun e => .ok e.game e

/-- Update the current game state. -/
def modifyGame (f : GameState → GameState) : M Unit :=
  fun e => .ok () { e with game := f e.game }

/-- Pop the next reshuffle result, falling back to the untouched
`EVENT_CARDS` order (one possible output of `shuffle`). -/
def popShuf (cards : List EventCard) : M (List EventCard) := fun e =>
  match e.shufs with
  | [] => .ok cards e
  | l :: rest => .ok l { e with shufs := rest }

@[simp] theorem pure_apply {α : Type} (a : α) (e : Eng) :
    (pure a : M α) e = .ok a e := rfl

@[simp] theorem bind_apply {α β : Type} (x : M α) (f : α → M β) (e : Eng) :
    (x >>= f) e =
      match x e with
      | .ok a e' => f a e'
      | .err msg e' => .err msg e' := rfl

@[simp] theorem throwM_apply {α : Type} (msg : String) (e : Eng) :
    (throwM msg : M α) e = .err msg e := rfl

@[simp] theorem getGame_apply (e : Eng) : getGame e = .ok e.game e := rfl

@[simp] theorem modifyGame_apply (f : GameState → GameState) (e : Eng) :
    modifyGame f e = .ok () { e with game := f e.game } := rfl

/-- Final state of a computation, whether it returned or threw. -/
def finalEng {α : Type} (m : M α) (e : Eng) : Eng :=
  match m e with
  | .ok _ e' => e'
  | .err _ e' => e'

/-- Final game state of running `m` on game `g` with reshuffle stream
`shufs`. -/
def stepGame {α : Type} (m : M α) (g : GameState) (shufs : List (List EventCard)) :
    GameState :=
  (finalEng m ⟨g, shufs⟩).game

/-- JavaScript truthiness of an optional string (`undefined` and `""` are
falsy). -/
def truthyS : Option String → Bool
  | some s => s ≠ ""
  | none => false

/-- JavaScript truthiness of an optional number (`undefined` and `0` are
falsy). -/
def truthyN : Option Int → Bool
  | some n => n ≠ 0
  | none => false

/-- Update the first list element satisfying `p` (TypeScript mutates the
object returned by `Array.prototype.find`). -/
def updateFirst {α : Type} (p : α → Bool) (f : α → α) : List α → List α
  | [] => []
  | a :: as => if p a then f a :: as else a :: updateFirst p f as

/-- `this.getPlayer(id)`: first player with the given id. -/
def GameState.getPlayer (g : GameState) (id : String) : Option PlayerState :=
  g.players.find? (fun p => p.id == id)

/-- `this.getProperty(id)`: first tile with the given id, if it is a
property. -/
def GameState.getProperty (g : GameState) (id : String) : Option Tile :=
  match g.tiles.find? (fun t => t.id == id) with
  | some t => if t.type == .property then some t else none
  | none => none

/-- Monadic read of a player. -/
def getPlayerM (id : String) : M (Option PlayerState) := do
  let g ← getGame
  pure (g.getPlayer id)

/-- Mutation through the object reference returned by `getPlayer`: update the
first player with the given id. -/
def updatePlayerM (id : String) (f : PlayerState → PlayerState) : M Unit :=
  modifyGame fun g =>
    { g with players := updateFirst (fun p => p.id == id) f g.players }

/-- Mutation through the tile reference at a board position. -/
def updateTileAtM (idx : Nat) (f : Tile → Tile) : M Unit :=
  modifyGame fun g =>
    { g with tiles := g.tiles.modify f idx }

/-- Mutation through the tile reference returned by `getProperty`: update the
first tile with the given id. -/
def updateTileByIdM (id : String) (f : Tile → Tile) : M Unit :=
  modifyGame fun g =>
    { g with tiles := updateFirst (fun t => t.id == id) f g.tiles }

/-- `this.log(message)`: append to the bounded ring of 200 entries. -/
def pushLog (msg : String) (log : List String) : List String :=
  let l := log ++ [msg]
  if l.length > 200 then l.drop 1 else l

/-- Monadic logging. -/
def logM (msg : String) : M Unit :=
  modifyGame fun g => { g with log := pushLog msg g.log }

/-! ## Constants of the shared package and of the engine -/

/-- `const BAIL_COST = 50`. -/
def BAIL_COST : Int := 50

/-- `const MAX_JAIL_TURNS = 3`. -/
def MAX_JAIL_TURNS : Nat := 3

/-- Modelled from the spec: `MAX_PROPERTY_LEVEL` is imported by the engine
from `@banco/shared` but its definition is not under `src/`; the spec only
says properties have a maximum level.  It is fixed here at 5. -/
def MAX_PROPERTY_LEVEL : Nat := 5

/-- The effective level of a property tile: `Math.max(1, tile.level ?? 1)`. -/
def tileLevel (t : Tile) : Nat := max 1 (t.level.getD 1)

/-- Modelled from the spec: `propertyUpgradeCost` is imported from
`@banco/shared` but its definition is not under `src/`.  Per the spec the
upgrade cost is `price × currentLevel`, and no upgrade is available (`null`)
at or above the maximum level. -/
def propertyUpgradeCost (t : Tile) : Option Int :=
  if MAX_PROPERTY_LEVEL ≤ tileLevel t then none
  else some (t.price * (tileLevel t : Int))

/-- Modelled from the spec: `propertyRent` is imported from `@banco/shared`
but its definition is not under `src/`.  Per the spec the rent is a function
of base rent and current level, monotonically increasing with level (exact
curve a policy constant); modelled as `baseRent × level`. -/
def propertyRent (t : Tile) : Int := t.baseRent * (tileLevel t : Int)

/-- Modelled from the spec: `propertyAssetValue` is imported from
`@banco/shared` but its definition is not under `src/`.  Per the spec the
asset value is a function of price and level, higher level raising the value
"mirroring upgrade cost sunk"; modelled as the purchase price plus the sum of
the upgrade costs `price × k` for `k = 1 .. level-1`. -/
def propertyAssetValue (t : Tile) : Int :=
  t.price + t.price * (((tileLevel t - 1) * tileLevel t / 2 : Nat) : Int)

/-- `EVENT_CARDS` of the shared package.  (Modelled from the spec where the
shared source is silent: none of the shared cards carries a `goToJail` or
`toPosition` effect.) -/
def EVENT_CARDS : List EventCard :=
  [ { id := "bonus-100", title := "Bônus inesperado", description := "Receba 100",
      money := some 100 },
    { id := "tax-100", title := "Imposto especial", description := "Pague 100",
      money := some (-100) },
    { id := "avanço-3", title := "Avance 3 casas", description := "Move 3 casas à frente",
      move := some 3 },
    { id := "volta-2", title := "Volte 2 casas", description := "Retrocede 2 casas",
      move := some (-2) } ]

/-- `DEFAULT_SETTINGS` of the shared package. -/
def DEFAULT_SETTINGS : GameSettings :=
  { startingCash := 1500, passStartBonus := 200, maxPlayers := 12,
    boardName := "Aurora", winCondition := "last-standing" }

/-- `DEFAULT_BOARD` of the shared package (20 tiles). -/
def DEFAULT_BOARD : List Tile :=
  [ { id := "start", name := "Início", index := 0, type := .start, bonus := 200 },
    { id := "p1", name := "Lago Azul", index := 1, type := .property, price := 100,
      baseRent := 25, color := "#5FB3B3" },
    { id := "p2", name := "Praça Solar", index := 2, type := .property, price := 120,
      baseRent := 30, color := "#5FB3B3" },
    { id := "tax1", name := "Imposto de Renda", index := 3, type := .tax, amount := 150 },
    { id := "event1", name := "Sorte/Reves", index := 4, type := .event },
    { id := "p3", name := "Vila Sombra", index := 5, type := .property, price := 140,
      baseRent := 35, color := "#E27D60" },
    { id := "p4", name := "Jardim Âmbar", index := 6, type := .property, price := 160,
      baseRent := 40, color := "#E27D60" },
    { id := "jail", name := "Prisao/Visita", index := 7, type := .jail },
    { id := "p5", name := "Mar Turquesa", index := 8, type := .property, price := 180,
      baseRent := 45, color := "#4D9DE0" },
    { id := "p6", name := "Orla Safira", index := 9, type := .property, price := 200,
      baseRent := 50, color := "#4D9DE0" },
    { id := "tax2", name := "Imposto de Luxo", index := 10, type := .tax, amount := 100 },
    { id := "event2", name := "Sorte/Reves", index := 11, type := .event },
    { id := "p7", name := "Vale Rubi", index := 12, type := .property, price := 220,
      baseRent := 55, color := "#C06C84" },
    { id := "p8", name := "Forte Carmim", index := 13, type := .property, price := 240,
      baseRent := 60, color := "#C06C84" },
    { id := "free", name := "Pausa Zen", index := 14, type := .free },
    { id := "p9", name := "Distrito Âmbar", index := 15, type := .property, price := 260,
      baseRent := 65, color := "#F67280" },
    { id := "p10", name := "Colina Coral", index := 16, type := .property, price := 280,
      baseRent := 70, color := "#F67280" },
    { id := "event3", name := "Sorte/Reves", index := 17, type := .event },
    { id := "p11", name := "Aurora Prime", index := 18, type := .property, price := 300,
      baseRent := 75, color := "#355C7D" },
    { id := "go-to-jail", name := "Vá para Prisão", index := 19, type := .goToJail } ]

/-- `clamp(value, min, max)` from `engine.ts`. -/
def clamp (value lo hi : Int) : Int := max lo (min hi value)

/-- `clamp` for the natural-valued `maxPlayers` field. -/
def clampNat (value lo hi : Nat) : Nat := max lo (min hi value)

/-- `sanitizeSettings` from `engine.ts`.  The merge of the partial override
with `DEFAULT_SETTINGS` is modelled by taking the merged record as input. -/
def sanitizeSettings (s : GameSettings) : GameSettings :=
  { s with
    startingCash := clamp s.startingCash 500 4000
    passStartBonus := clamp s.passStartBonus 100 500
    maxPlayers := clampNat s.maxPlayers 2 12 }

/-- `cloneBoard` from `engine.ts`.  Modelled from the spec where the shared
source is silent: the price multipliers `PROPERTY_PRICE_MULTIPLIER` and
`PROPERTY_RENT_MULTIPLIER` are not under `src/` and the spec describes the
game tiles as mutable copies of the board template, so both multipliers are
taken as 1 (`Math.round` is then the identity); property tiles get
`level := 0`. -/
def cloneBoard (board : List Tile) : List Tile :=
  board.map fun t =>
    if t.type == .property then { t with level := some 0 } else t

/-- The `GameEngine` constructor.  The host's `nanoid` id and the initial
`shuffle(EVENT_CARDS)` result are externalized as arguments. -/
def initGame (roomId hostName hostId : String) (settings : GameSettings)
    (deck0 : List EventCard) : GameState :=
  let merged := sanitizeSettings settings
  { roomId := roomId
    hostId := hostId
    status := .lobby
    players := [ { id := hostId, name := hostName, money := merged.startingCash,
                   position := 0, inJailTurns := 0, bankrupt := false } ]
    tiles := cloneBoard DEFAULT_BOARD
    settings := merged
    turnNumber := some 1
    turn := { currentPlayerId := hostId, rolled := false, turnStartedAt := 0 }
    log := pushLog ("Sala " ++ roomId ++ " criada por " ++ hostName) []
    deck := deck0 }

/-! ## Private engine helpers -/

/-- `ensureActivePlayer` (engine.ts, lines 402-409). -/
def ensureActivePlayer (playerId : String) : M Unit := do
  let g ← getGame
  if g.status ≠ .active then
    throwM "Partida não está ativa."
  else if g.turn.currentPlayerId ≠ playerId then
    throwM "Ação inválida: não é seu turno."
  else
    pure ()

/-- `checkVictory` (engine.ts, lines 424-432). -/
def checkVictory : M Unit := do
  let g ← getGame
  if g.status = .finished then
    pure ()
  else
    match g.players.filter (fun p => !p.bankrupt) with
    | [p] =>
      modifyGame (fun g => { g with status := .finished, winnerId := some p.id })
      logM (p.name ++ " venceu a partida!")
    | _ => pure ()

/-- `checkBankruptcy` (engine.ts, lines 411-422). -/
def checkBankruptcy (playerId : String) : M Unit := do
  let g ← getGame
  match g.getPlayer playerId with
  | none => pure ()
  | some p =>
    if 0 ≤ p.money ∨ p.bankrupt then
      pure ()
    else do
      updatePlayerM playerId (fun q => { q with bankrupt := true, inJailTurns := 0 })
      modifyGame fun g =>
        { g with tiles := g.tiles.map fun t =>
            if t.type == .property && t.ownerId == some playerId then
              { t with ownerId := none }
            else t }
      logM (p.name ++ " faliu e devolveu suas propriedades ao banco.")
      checkVictory

/-- `chargeBank` (engine.ts, lines 347-351). -/
def chargeBank (playerId : String) (amount : Int) (reason : String) : M Unit := do
  updatePlayerM playerId (fun q => { q with money := q.money - amount })
  logM reason
  checkBankruptcy playerId

/-- `movePlayer` (engine.ts, lines 353-364).  JavaScript `%` is the truncated
remainder `Int.tmod`; the negative-result adjustment follows the source. -/
def movePlayer (playerId : String) (steps : Int) : M Unit := do
  let g ← getGame
  match g.getPlayer playerId with
  | none => pure ()
  | some p =>
    let oldPos : Nat := p.position
    let tilesCount : Nat := g.tiles.length
    let raw : Int := ((oldPos : Int) + steps).tmod (tilesCount : Int)
    let newPos : Int := if raw < 0 then raw + (tilesCount : Int) else raw
    let passedStart : Bool :=
      decide ((tilesCount : Int) ≤ (oldPos : Int) + steps) ||
        (decide (newPos = 0) && decide (0 < steps) && decide (oldPos ≠ 0))
    updatePlayerM playerId (fun q => { q with position := newPos.toNat })
    if passedStart then do
      updatePlayerM playerId
        (fun q => { q with money := q.money + g.settings.passStartBonus })
      logM (p.name ++ " passou pelo início e recebeu " ++
        toString g.settings.passStartBonus)
    else
      pure ()

/-- `sendToJail` (engine.ts, lines 340-345). -/
def sendToJail (playerId : String) : M Unit := do
  let g ← getGame
  let jailIndex := g.tiles.findIdx? (fun t => t.type == .jail)
  match g.getPlayer playerId with
  | none => pure ()
  | some p => do
    updatePlayerM playerId
      (fun q => { q with position := jailIndex.getD q.position,
                         inJailTurns := MAX_JAIL_TURNS })
    logM (p.name ++ " foi para a prisão.")

/-- `nextAlivePlayer`'s scan loop (engine.ts, lines 385-388): try the
candidates at offsets `i, i+1, ...` while `rem` attempts remain. -/
def nextAliveLoop (order : List PlayerState) (idx : Nat) (cur : String) :
    Nat → Nat → String
  | _, 0 => cur
  | i, rem + 1 =>
    match order.get? ((idx + i) % order.length) with
    | some c => if c.bankrupt then nextAliveLoop order idx cur (i + 1) rem else c.id
    | none => nextAliveLoop order idx cur (i + 1) rem

/-- The pure part of `nextAlivePlayer` (engine.ts, lines 380-390). -/
def nextAlive (g : GameState) (currentId : String) : String :=
  let order := g.players
  let idx := (order.findIdx? (fun p => p.id == currentId)).getD 0
  nextAliveLoop order idx currentId 1 order.length

/-- `nextAlivePlayer` (engine.ts, lines 380-390), including its throw on an
empty player list. -/
def nextAlivePlayerM (currentId : String) : M String := do
  let g ← getGame
  if g.players.length = 0 then
    throwM "Sem jogadores"
  else
    pure (nextAlive g currentId)

/-- `advanceTurn` (engine.ts, lines 366-378). -/
def advanceTurn : M Unit := do
  let g ← getGame
  let next ← nextAlivePlayerM g.turn.currentPlayerId
  modifyGame fun g =>
    { g with
      turn := { currentPlayerId := next, rolled := false, turnStartedAt := 0 }
      turnNumber := some ((g.turnNumber.getD 1) + 1) }
  checkVictory

/-- `netWorth` (engine.ts, lines 434-441). -/
def netWorth (g : GameState) (playerId : String) : Int :=
  match g.getPlayer playerId with
  | none => 0
  | some p =>
    p.money +
      ((g.tiles.filter fun t => t.type == .property && t.ownerId == some playerId).map
        propertyAssetValue).sum

/-- `handleProperty` (engine.ts, lines 281-309).  The tile reference is
identified by its board index `idx`. -/
def handleProperty (pid : String) (idx : Nat) : M Unit := do
  modifyGame (fun g => { g with turn := { g.turn with awaitingUpgrade := none } })
  let g ← getGame
  match g.tiles.get? idx with
  | none => pure ()
  | some tile =>
  match g.getPlayer pid with
  | none => pure ()
  | some player =>
    if ¬ truthyS tile.ownerId then do
      modifyGame (fun g => { g with turn := { g.turn with awaitingPurchase := some tile.id } })
      logM (player.name ++ " caiu em " ++ tile.name ++ ". Pode comprar por " ++
        toString tile.price ++ ".")
    else if tile.ownerId = some pid then do
      updateTileAtM idx (fun t => { t with level := some (tileLevel t) })
      if tileLevel tile < MAX_PROPERTY_LEVEL then do
        modifyGame (fun g => { g with turn := { g.turn with awaitingUpgrade := some tile.id } })
        logM (player.name ++ " visitou " ++ tile.name ++ " (nível " ++
          toString (tileLevel tile) ++ "). Pode melhorar para o próximo nível.")
      else
        logM (player.name ++ " visitou sua própria propriedade (" ++ tile.name ++
          ") no nível máximo (" ++ toString (tileLevel tile) ++ ").")
    else
      match g.getPlayer (tile.ownerId.getD "") with
      | none => pure ()
      | some owner =>
        if owner.bankrupt then
          pure ()
        else do
          updateTileAtM idx (fun t => { t with level := some (tileLevel t) })
          let rent := propertyRent { tile with level := some (tileLevel tile) }
          updatePlayerM pid (fun q => { q with money := q.money - rent })
          updatePlayerM (tile.ownerId.getD "") (fun q => { q with money := q.money + rent })
          logM (player.name ++ " pagou " ++ toString rent ++ " de aluguel para " ++
            owner.name ++ " (" ++ tile.name ++ ").")
          checkBankruptcy pid

mutual

/-- `resolveTile` (engine.ts, lines 254-279), dispatching on the kind of the
tile at board index `idx`.  The `fuel` argument bounds the recursion through
event-card chains; with the default board and deck the bound is never hit. -/
def resolveTile (fuel : Nat) (pid : String) (idx : Nat) (cameFromEvent : Bool) :
    M Unit :=
  match fuel with
  | 0 => pure ()
  | fuel + 1 => do
    let g ← getGame
    match g.tiles.get? idx with
    | none => pure ()
    | some tile =>
    match g.getPlayer pid with
    | none => pure ()
    | some player =>
      match tile.type with
      | .start => pure ()
      | .property => handleProperty pid idx
      | .tax =>
        chargeBank pid tile.amount
          (player.name ++ " pagou imposto de " ++ toString tile.amount)
      | .event => handleEvent fuel pid
      | .jail => pure ()
      | .goToJail => sendToJail pid
      | .free =>
        if ¬ cameFromEvent then
          logM (player.name ++ " fez uma pausa em " ++ tile.name)
        else
          pure ()
termination_by 4 * fuel

/-- The card-effect application block of `handleEvent` (engine.ts, lines
317-337): money delta with bankruptcy check, jail transfer, relative move and
absolute teleport, each resolving the newly landed tile. -/
def applyCardEffect (fuel : Nat) (pid : String) (card : EventCard)
    (playerName : String) : M Unit := do
  if truthyN card.money then do
    updatePlayerM pid (fun q => { q with money := q.money + card.money.getD 0 })
    if 0 < card.money.getD 0 then
      logM (playerName ++ " recebeu " ++ toString (card.money.getD 0))
    else
      logM (playerName ++ " pagou " ++ toString (- card.money.getD 0))
    checkBankruptcy pid
  else
    pure ()
  if card.goToJail then
    sendToJail pid
  else do
    if truthyN card.move then do
      movePlayer pid (card.move.getD 0)
      resolveAtCurrent fuel pid true
    else
      pure ()
    match card.toPosition with
    | some tp => do
      updatePlayerM pid (fun q => { q with position := tp })
      resolveAtCurrent fuel pid true
    | none => pure ()
termination_by 4 * fuel + 2

/-- `handleEvent` (engine.ts, lines 311-338): reshuffle an empty deck, draw
the top card, apply its effect. -/
def handleEvent (fuel : Nat) (pid : String) : M Unit :=
  match fuel with
  | 0 => pure ()
  | fuel + 1 => do
    let g ← getGame
    if g.deck.isEmpty then do
      let fresh ← popShuf EVENT_CARDS
      modifyGame (fun g => { g with deck := fresh })
    else
      pure ()
    let g ← getGame
    match g.deck with
    | [] => pure ()
    | card :: rest =>
    match g.getPlayer pid with
    | none => pure ()
    | some player => do
      modifyGame (fun g => { g with deck := rest })
      logM (player.name ++ " puxou carta: " ++ card.title)
      applyCardEffect fuel pid card player.name
termination_by 4 * fuel + 3

/-- Resolve the tile at the player's current position
(`this.resolveTile(player, this.state.tiles[player.position], ...)`). -/
def resolveAtCurrent (fuel : Nat) (pid : String) (cameFromEvent : Bool) : M Unit := do
  let g ← getGame
  match g.getPlayer pid with
  | none => pure ()
  | some p => resolveTile fuel pid p.position cameFromEvent
termination_by 4 * fuel + 1

end

/-- Recursion budget for tile resolution inside `rollDice`; with the default
board and deck an event chain has depth at most 2, so 16 is never reached. -/
def RESOLVE_FUEL : Nat := 16

/-- The repeated tail of `rollDice`'s movement paths (engine.ts, lines
123-127, 139-143 and 154-158): move, log the roll, resolve the landed tile,
check victory. -/
def landAndResolve (pid : String) (rolledMsg : String) (total : Int) : M Unit := do
  movePlayer pid total
  logM rolledMsg
  resolveAtCurrent RESOLVE_FUEL pid false
  checkVictory

/-! ## Public engine operations -/

/-- `addPlayer` (engine.ts, lines 60-76); the fresh `nanoid` is the `id`
argument. -/
def addPlayer (name id : String) : M PlayerState := do
  let g ← getGame
  if g.settings.maxPlayers ≤ g.players.length then
    throwM "Sala cheia"
  else do
    let player : PlayerState :=
      { id := id, name := name, money := g.settings.startingCash,
        position := 0, inJailTurns := 0, bankrupt := false }
    modifyGame (fun g => { g with players := g.players ++ [player] })
    logM (name ++ " entrou na sala")
    pure player

/-- `startGame` (engine.ts, lines 78-92). -/
def startGame : M Unit := do
  let g ← getGame
  if g.status ≠ .lobby then
    throwM "Partida já iniciada"
  else if g.players.length < 2 then
    throwM "Precisa de pelo menos 2 jogadores"
  else do
    modifyGame (fun g => { g with status := .active })
    let g ← getGame
    let starting ←
      if (g.getPlayer g.hostId).map PlayerState.bankrupt = some false then
        pure g.hostId
      else
        nextAlivePlayerM g.hostId
    modifyGame (fun g =>
      { g with turn := { currentPlayerId := starting, rolled := false, turnStartedAt := 0 } })
    logM "Partida iniciada"

/-- `reconnect` (engine.ts, lines 94-99). -/
def reconnect (playerId : String) : M PlayerState := do
  let g ← getGame
  match g.getPlayer playerId with
  | none => throwM "Jogador desconhecido"
  | some p => do
    updatePlayerM playerId (fun q => { q with disconnected := false })
    pure { p with disconnected := false }

/-- `rollDice` (engine.ts, lines 101-160); the two die values are the
arguments `d1`, `d2`. -/
def rollDice (playerId : String) (d1 d2 : Nat) : M DiceRoll := do
  ensureActivePlayer playerId
  let g ← getGame
  match g.getPlayer playerId with
  | none => throwM "Jogador inválido"
  | some player =>
    if player.bankrupt then
      throwM "Jogador inválido"
    else if g.turn.rolled then
      throwM "Dados já foram rolados neste turno."
    else if truthyS g.turn.awaitingPurchase then
      throwM "Decida comprar ou passar a propriedade antes."
    else do
      let wasInJail := 0 < player.inJailTurns
      let roll : DiceRoll := { values := (d1, d2), total := d1 + d2 }
      modifyGame (fun g =>
        { g with turn := { g.turn with dice := some roll, rolled := true } })
      let isDouble := d1 = d2
      let rolledMsg := player.name ++ " rolou " ++ toString d1 ++ " + " ++
        toString d2 ++ " = " ++ toString (d1 + d2)
      if wasInJail then
        if isDouble then do
          updatePlayerM playerId (fun q => { q with inJailTurns := 0 })
          logM (player.name ++ " tirou duplo e saiu da prisão.")
          landAndResolve playerId rolledMsg (roll.total : Int)
          pure roll
        else if player.inJailTurns = 1 then do
          chargeBank playerId BAIL_COST
            (player.name ++ " pagou fiança (" ++ toString BAIL_COST ++ ") após " ++
              toString MAX_JAIL_TURNS ++ " turnos na prisão.")
          let g ← getGame
          if (g.getPlayer playerId).map PlayerState.bankrupt = some true then
            pure roll
          else do
            updatePlayerM playerId (fun q => { q with inJailTurns := 0 })
            landAndResolve playerId rolledMsg (roll.total : Int)
            pure roll
        else do
          updatePlayerM playerId (fun q => { q with inJailTurns := q.inJailTurns - 1 })
          logM (rolledMsg ++ ", não tirou duplo e segue preso (" ++
            toString (player.inJailTurns - 1) ++ " tentativas restantes).")
          pure roll
      else do
        landAndResolve playerId rolledMsg (roll.total : Int)
        pure roll

/-- `buyProperty` (engine.ts, lines 162-180). -/
def buyProperty (playerId propertyId : String) : M Unit := do
  ensureActivePlayer playerId
  let g ← getGame
  match g.getPlayer playerId with
  | none => throwM "Jogador não encontrado"
  | some player =>
    if g.turn.awaitingPurchase ≠ some propertyId then
      throwM "Nenhuma compra pendente para esta propriedade."
    else
      match g.getProperty propertyId with
      | none => throwM "Propriedade inválida"
      | some tile =>
        if truthyS tile.ownerId then
          throwM "Propriedade já possui dono"
        else if player.money < tile.price then
          throwM "Dinheiro insuficiente"
        else do
          updatePlayerM playerId (fun q => { q with money := q.money - tile.price })
          updateTileByIdM propertyId
            (fun t => { t with ownerId := some playerId, level := some 1 })
          modifyGame (fun g => { g with turn := { g.turn with awaitingPurchase := none } })
          logM (player.name ++ " comprou " ++ tile.name ++ " por " ++
            toString tile.price)
          checkVictory

/-- `passPurchase` (engine.ts, lines 182-187). -/
def passPurchase (playerId : String) : M Unit := do
  ensureActivePlayer playerId
  let g ← getGame
  if ¬ truthyS g.turn.awaitingPurchase then
    throwM "Nada a passar."
  else do
    modifyGame (fun g => { g with turn := { g.turn with awaitingPurchase := none } })
    logM "Compra recusada"

/-- `upgradeProperty` (engine.ts, lines 189-212). -/
def upgradeProperty (playerId propertyId : String) : M Unit := do
  ensureActivePlayer playerId
  let g ← getGame
  match g.getPlayer playerId with
  | none => throwM "Jogador não encontrado"
  | some player =>
    match g.getProperty propertyId with
    | none => throwM "Propriedade inválida"
    | some tile =>
      if tile.ownerId ≠ some playerId then
        throwM "Você não é o dono desta propriedade."
      else if g.turn.awaitingUpgrade ≠ some propertyId then
        throwM "Melhoria disponível apenas ao visitar esta propriedade neste turno."
      else if player.position ≠ tile.index then
        throwM "Você precisa estar na propriedade para melhorá-la."
      else if MAX_PROPERTY_LEVEL ≤ tileLevel tile then
        throwM "Propriedade já está no nível máximo."
      else
        match propertyUpgradeCost tile with
        | none => throwM "Nenhuma melhoria disponível."
        | some cost =>
          if player.money < cost then
            throwM "Dinheiro insuficiente para melhorar a propriedade."
          else do
            updatePlayerM playerId (fun q => { q with money := q.money - cost })
            updateTileByIdM propertyId (fun t => { t with level := some (tileLevel tile + 1) })
            modifyGame (fun g => { g with turn := { g.turn with awaitingUpgrade := none } })
            logM (player.name ++ " melhorou " ++ tile.name ++ " para o nível " ++
              toString (tileLevel tile + 1) ++ " por " ++ toString cost ++ ".")
            checkBankruptcy playerId

/-- `payBail` (engine.ts, lines 214-225). -/
def payBail (playerId : String) : M Unit := do
  ensureActivePlayer playerId
  let g ← getGame
  match g.getPlayer playerId with
  | none => throwM "Jogador inválido"
  | some player =>
    if player.inJailTurns = 0 then
      throwM "Você não está preso"
    else if g.turn.rolled then
      throwM "Fiança só pode ser paga no início do turno."
    else if player.money < BAIL_COST then
      throwM "Dinheiro insuficiente para pagar fiança"
    else do
      updatePlayerM playerId
        (fun q => { q with money := q.money - BAIL_COST, inJailTurns := 0 })
      logM (player.name ++ " pagou fiança (" ++ toString BAIL_COST ++ ") e está livre.")
      checkBankruptcy playerId

/-- `endTurn` (engine.ts, lines 227-242). -/
def endTurn (playerId : String) : M Unit := do
  ensureActivePlayer playerId
  let g ← getGame
  if truthyS g.turn.awaitingPurchase then
    throwM "Resolva a compra antes de finalizar o turno."
  else
    match g.getPlayer playerId with
    | none => throwM "Jogador inválido"
    | some player =>
      if ¬ g.turn.rolled then
        if 0 < player.inJailTurns then
          throwM "Tente sair da prisão (role os dados ou pague fiança) antes de finalizar o turno."
        else
          throwM "Role os dados antes de finalizar o turno."
      else
        advanceTurn

/-- Insertion of `x` into a descending-by-key sorted list, placing `x` before
the first element whose key is not larger; this is the unique stable
descending order, matching the stable `Array.prototype.sort` with comparator
`(a, b) => key(b) - key(a)`. -/
def insertByDesc {α : Type} (key : α → Int) (x : α) : List α → List α
  | [] => [x]
  | y :: ys => if key y ≤ key x then x :: y :: ys else y :: insertByDesc key x ys

/-- Stable descending sort by an integer key (the JS `sort` of
`finishByNetWorth`). -/
def sortByDesc {α : Type} (key : α → Int) : List α → List α
  | [] => []
  | x :: xs => insertByDesc key x (sortByDesc key xs)

/-- `finishByNetWorth` (engine.ts, lines 244-252). -/
def finishByNetWorth : M Unit := do
  let g ← getGame
  if g.status = .finished then
    pure ()
  else
    match (g.players.filter (fun p => !p.bankrupt)) with
    | [] => throwM "Sem jogadores ativos"
    | a :: l =>
      match sortByDesc (fun p => netWorth g p.id) (a :: l) with
      | [] => pure ()
      | richest :: _ => do
        modifyGame (fun g =>
          { g with status := .finished, winnerId := some richest.id })
        logM (richest.name ++ " venceu por maior patrimônio.")

/-! ## Arithmetic helpers -/

/-- Lower bound of the truncated remainder for a positive modulus. -/
theorem neg_lt_tmod (a b : Int) (h : 0 < b) : -b < a.tmod b := by
  rcases le_or_lt 0 a with ha | ha
  · have h0 := Int.tmod_nonneg b ha
    omega
  · obtain ⟨m, rfl⟩ : ∃ m : Nat, a = Int.negSucc m :=
      ⟨(-a - 1).toNat, by rw [Int.negSucc_eq]; omega⟩
    obtain ⟨n, rfl⟩ : ∃ n : Nat, b = (n : Int) := ⟨b.toNat, (Int.toNat_of_nonneg h.le).symm⟩
    have hdef : (Int.negSucc m).tmod (n : Int) = -(((m + 1) % n : Nat) : Int) := rfl
    have hlt : (m + 1) % n < n := Nat.mod_lt _ (by exact_mod_cast h)
    rw [hdef]
    omega

/-- The source's normalization of JavaScript `%` (`if newPos < 0 then newPos +
N`) computes the Euclidean remainder. -/
theorem tmod_normalize (x N : Int) (hN : 0 < N) :
    (if x.tmod N < 0 then x.tmod N + N else x.tmod N) = x % N := by
  have hx : x % N = x.tmod N % N := by
    conv_lhs => rw [← Int.tdiv_add_tmod x N]
    rw [Int.add_comm, Int.add_mul_emod_self_left]
  rw [hx]
  by_cases hneg : x.tmod N < 0
  · rw [if_pos hneg]
    have h1 : (0 : Int) ≤ x.tmod N + N := by have := neg_lt_tmod x N hN; omega
    have h2 : x.tmod N + N < N := by omega
    rw [← Int.emod_eq_of_lt h1 h2]
    simp [Int.add_emod]
  · rw [if_neg hneg]
    exact (Int.emod_eq_of_lt (by omega) (Int.tmod_lt_of_pos x hN)).symm

/-! ## List helpers for first-match updates -/

theorem find?_updateFirst_eq {α : Type} (p : α → Bool) (f : α → α)
    (hf : ∀ a, p (f a) = p a) (l : List α) :
    (updateFirst p f l).find? p = (l.find? p).map f := by
  induction l with
  | nil => rfl
  | cons a as ih =>
    by_cases h : p a
    · simp [updateFirst, h, List.find?_cons_of_pos, hf]
    · simp [updateFirst, h, List.find?_cons_of_neg, ih]

theorem find?_updateFirst_of_ne {α : Type} (p q : α → Bool) (f : α → α)
    (hq : ∀ a, q (f a) = q a) (hpq : ∀ a, p a = true → q a = false) (l : List α) :
    (updateFirst p f l).find? q = l.find? q := by
  induction l with
  | nil => rfl
  | cons a as ih =>
    by_cases h : p a
    · by_cases h2 : q a
      · exact absurd (hpq a h) (by simp [h2])
      · simp [updateFirst, h, List.find?_cons_of_neg, h2, hq, ih]
    · by_cases h2 : q a
      · simp [updateFirst, h, List.find?_cons_of_pos, h2]
      · simp [updateFirst, h, List.find?_cons_of_neg, h2, ih]

theorem getPlayer_update_self (g : GameState) (pid : String)
    (f : PlayerState → PlayerState) (hf : ∀ q, (f q).id = q.id) :
    GameState.getPlayer
      { g with players := updateFirst (fun x => x.id == pid) f g.players } pid =
      (g.getPlayer pid).map f := by
  unfold GameState.getPlayer
  exact find?_updateFirst_eq _ _ (by simp [hf]) _

/-! ## Characterization of `movePlayer` -/

/-- Full behaviour of `movePlayer` on an existing player: the new position is
the Euclidean remainder `(p + s) % N`, and the pass-start bonus is credited
exactly under the source's condition. -/
theorem movePlayer_spec (e : Eng) (pid : String) (s : Int) (pl : PlayerState)
    (hpl : e.game.getPlayer pid = some pl)
    (hN : 0 < e.game.tiles.length) :
    ∃ e', movePlayer pid s e = .ok () e' ∧
      ∃ pl', e'.game.getPlayer pid = some pl' ∧
        (pl'.position : Int) = ((pl.position : Int) + s) % (e.game.tiles.length : Int) ∧
        pl'.money = pl.money +
          (if (e.game.tiles.length : Int) ≤ (pl.position : Int) + s ∨
              (((pl.position : Int) + s) % (e.game.tiles.length : Int) = 0 ∧ 0 < s ∧
                pl.position ≠ 0)
            then e.game.settings.passStartBonus else 0) := by
  have hNZ : ((e.game.tiles.length : Int)) ≠ 0 := by exact_mod_cast hN.ne'
  have hNpos : (0 : Int) < (e.game.tiles.length : Int) := by exact_mod_cast hN
  have hnorm := tmod_normalize ((pl.position : Int) + s) (e.game.tiles.length : Int) hNpos
  have hmodnn : (0 : Int) ≤ ((pl.position : Int) + s) % (e.game.tiles.length : Int) :=
    Int.emod_nonneg _ hNZ
  simp only [movePlayer, bind_apply, getGame_apply]
  rw [hpl]
  simp only [updatePlayerM, modifyGame_apply, bind_apply, logM]
  rw [hnorm]
  by_cases hc : (e.game.tiles.length : Int) ≤ (pl.position : Int) + s ∨
      ((pl.position : Int) + s) % (e.game.tiles.length : Int) = 0 ∧ 0 < s ∧ pl.position ≠ 0
  · have hbool : (decide ((e.game.tiles.length : Int) ≤ (pl.position : Int) + s) ||
        (decide (((pl.position : Int) + s) % (e.game.tiles.length : Int) = 0) &&
          decide (0 < s) && decide (pl.position ≠ 0))) = true := by
      simp only [Bool.or_eq_true, Bool.and_eq_true, decide_eq_true_eq]
      tauto
    simp only [hbool, if_true, modifyGame_apply, bind_apply, pure_apply]
    refine ⟨_, rfl, ?_⟩
    have hfind : (updateFirst (fun x => x.id == pid)
          (fun q => { q with money := q.money + e.game.settings.passStartBonus })
          (updateFirst (fun x => x.id == pid)
            (fun q => { q with
              position := (((pl.position : Int) + s) % (e.game.tiles.length : Int)).toNat })
            e.game.players)).find? (fun x => x.id == pid) =
        some { pl with
          position := (((pl.position : Int) + s) % (e.game.tiles.length : Int)).toNat,
          money := pl.money + e.game.settings.passStartBonus } := by
      rw [find?_updateFirst_eq _ _ (by intro a; rfl), find?_updateFirst_eq _ _ (by intro a; rfl)]
      have hfd : e.game.players.find? (fun x => x.id == pid) = some pl := hpl
      rw [hfd]
      rfl
    refine ⟨{ pl with
        position := (((pl.position : Int) + s) % (e.game.tiles.length : Int)).toNat,
        money := pl.money + e.game.settings.passStartBonus }, ?_, ?_, ?_⟩
    · simpa [GameState.getPlayer] using hfind
    · exact Int.toNat_of_nonneg hmodnn
    · rw [if_pos hc]
  · have hbool : (decide ((e.game.tiles.length : Int) ≤ (pl.position : Int) + s) ||
        (decide (((pl.position : Int) + s) % (e.game.tiles.length : Int) = 0) &&
          decide (0 < s) && decide (pl.position ≠ 0))) = false := by
      simp only [Bool.or_eq_false_iff, Bool.and_eq_false_iff, decide_eq_false_iff_not]
      tauto
    simp only [hbool, if_false, Bool.false_eq_true, pure_apply]
    refine ⟨_, rfl, ?_⟩
    have hfind : (updateFirst (fun x => x.id == pid)
          (fun q => { q with
            position := (((pl.position : Int) + s) % (e.game.tiles.length : Int)).toNat })
          e.game.players).find? (fun x => x.id == pid) =
        some { pl with
          position := (((pl.position : Int) + s) % (e.game.tiles.length : Int)).toNat } := by
      rw [find?_updateFirst_eq _ _ (by intro a; rfl)]
      have hfd : e.game.players.find? (fun x => x.id == pid) = some pl := hpl
      rw [hfd]
      rfl
    refine ⟨{ pl with
        position := (((pl.position : Int) + s) % (e.game.tiles.length : Int)).toNat }, ?_, ?_, ?_⟩
    · simpa [GameState.getPlayer] using hfind
    · exact Int.toNat_of_nonneg hmodnn
    · rw [if_neg hc]; simp

/-! ## Sample states for witnesses -/

/-- A freshly constructed lobby game with host `"H"`. -/
def sampleLobby : GameState := initGame "r" "Host" "H" DEFAULT_SETTINGS EVENT_CARDS

/-- The host player of `sampleLobby`. -/
def sampleHost : PlayerState :=
  { id := "H", name := "Host", position := 0, money := 1500, inJailTurns := 0,
    bankrupt := false }

/-- `sampleLobby` after `addPlayer "Ana" "A"` and `startGame`: a two-player
active game with the host to move. -/
def sampleActive : GameState :=
  stepGame (do
    let _ ← addPlayer "Ana" "A"
    startGame) sampleLobby []

/-- C8 (claim): for a move of `s` steps from position `p` on a board of `N`
tiles, the new position is `(p + s) mod N` normalized into `[0, N)`, and the
pass-start bonus is added exactly when `p + s ≥ N`, or the new position is
`0` with `s > 0` and `p ≠ 0`; a single move grants the bonus at most once
(the single conditional credit), and a backward move that wraps below `0`
grants no bonus. -/
theorem claim_C8_passStart (e : Eng) (pid : String) (s : Int) (pl : PlayerState)
    (hpl : e.game.getPlayer pid = some pl)
    (hN : 0 < e.game.tiles.length)
    (hpos : pl.position < e.game.tiles.length) :
    ∃ e' pl', movePlayer pid s e = .ok () e' ∧
      e'.game.getPlayer pid = some pl' ∧
      (pl'.position : Int) = ((pl.position : Int) + s) % (e.game.tiles.length : Int) ∧
      pl'.position < e.game.tiles.length ∧
      pl'.money = pl.money +
        (if (e.game.tiles.length : Int) ≤ (pl.position : Int) + s ∨
            (((pl.position : Int) + s) % (e.game.tiles.length : Int) = 0 ∧ 0 < s ∧
              pl.position ≠ 0)
          then e.game.settings.passStartBonus else 0) ∧
      (s < 0 → pl'.money = pl.money) := by
  obtain ⟨e', hrun, pl', hget, hposeq, hmoney⟩ := movePlayer_spec e pid s pl hpl hN
  have hNpos : (0 : Int) < (e.game.tiles.length : Int) := by exact_mod_cast hN
  have hlt : ((pl.position : Int) + s) % (e.game.tiles.length : Int) <
      (e.game.tiles.length : Int) := Int.emod_lt_of_pos _ hNpos
  refine ⟨e', pl', hrun, hget, hposeq, ?_, hmoney, ?_⟩
  · have : (pl'.position : Int) < (e.game.tiles.length : Int) := hposeq ▸ hlt
    exact_mod_cast this
  · intro hs
    have hnc : ¬((e.game.tiles.length : Int) ≤ (pl.position : Int) + s ∨
        (((pl.position : Int) + s) % (e.game.tiles.length : Int) = 0 ∧ 0 < s ∧
          pl.position ≠ 0)) := by
      push_neg
      constructor
      · have : (pl.position : Int) < e.game.tiles.length := by exact_mod_cast hpos
        omega
      · intro _ hs2
        omega
    rw [hmoney, if_neg hnc, add_zero]

/-- Witness for C8 at a concrete input: the host of a fresh lobby moved by 3
steps from position 0 ends on tile 3 with no bonus. -/
theorem claim_C8_passStart_witness :
    (sampleLobby.getPlayer "H" = some sampleHost ∧
      0 < sampleLobby.tiles.length ∧ sampleHost.position < sampleLobby.tiles.length) ∧
    (∃ e' pl', movePlayer "H" 3 ⟨sampleLobby, []⟩ = .ok () e' ∧
      e'.game.getPlayer "H" = some pl' ∧
      (pl'.position : Int) =
        ((sampleHost.position : Int) + 3) % (sampleLobby.tiles.length : Int) ∧
      pl'.position < sampleLobby.tiles.length ∧
      pl'.money = sampleHost.money +
        (if (sampleLobby.tiles.length : Int) ≤ (sampleHost.position : Int) + 3 ∨
            (((sampleHost.position : Int) + 3) % (sampleLobby.tiles.length : Int) = 0 ∧
              (0 : Int) < 3 ∧ sampleHost.position ≠ 0)
          then sampleLobby.settings.passStartBonus else 0) ∧
      ((3 : Int) < 0 → pl'.money = sampleHost.money)) :=
  ⟨⟨by decide, by decide, by decide⟩,
    claim_C8_passStart ⟨sampleLobby, []⟩ "H" 3 sampleHost (by decide) (by decide) (by decide)⟩

/-! ## Error-freedom of the mutation phase

Every throw in the engine happens during the validation prefix of an
operation; the helpers below show that the mutation phase itself cannot
throw, which is the substance of atomic rejection. -/

/-- The result is a normal return, not a throw. -/
def ResOk {α : Type} : Res α → Prop
  | .ok _ _ => True
  | .err _ _ => False

theorem ResOk.ne_err {α : Type} {r : Res α} (h : ResOk r) (msg : String) (e' : Eng) :
    r ≠ .err msg e' := by
  cases r with
  | ok a e2 => simp
  | err m e2 => exact h.elim

theorem resOk_bind {α β : Type} {m : M α} {k : α → M β} {e : Eng}
    (hm : ResOk (m e)) (hk : ∀ a e', m e = .ok a e' → ResOk (k a e')) :
    ResOk ((m >>= k) e) := by
  rw [bind_apply]
  cases h : m e with
  | ok a e' => exact hk a e' h
  | err msg e' => rw [h] at hm; exact hm.elim

theorem ok_checkVictory (e : Eng) : ResOk (checkVictory e) := by
  unfold checkVictory
  simp only [bind_apply, getGame_apply]
  split
  · trivial
  · cases hf : e.game.players.filter (fun p => !p.bankrupt) with
    | nil => trivial
    | cons p tl =>
      cases tl with
      | nil =>
        simp only [bind_apply, modifyGame_apply, logM]
        trivial
      | cons q tl2 => trivial

theorem ok_checkBankruptcy (pid : String) (e : Eng) : ResOk (checkBankruptcy pid e) := by
  unfold checkBankruptcy
  simp only [bind_apply, getGame_apply]
  cases hp : e.game.getPlayer pid with
  | none => trivial
  | some p =>
    simp only []
    split
    · trivial
    · simp only [updatePlayerM, bind_apply, modifyGame_apply, logM]
      exact ok_checkVictory _

theorem ok_chargeBank (pid : String) (amount : Int) (reason : String) (e : Eng) :
    ResOk (chargeBank pid amount reason e) := by
  unfold chargeBank
  simp only [updatePlayerM, bind_apply, modifyGame_apply, logM]
  exact ok_checkBankruptcy _ _

theorem ok_movePlayer (pid : String) (steps : Int) (e : Eng) :
    ResOk (movePlayer pid steps e) := by
  unfold movePlayer
  simp only [bind_apply, getGame_apply]
  cases hp : e.game.getPlayer pid with
  | none => trivial
  | some p =>
    simp only [updatePlayerM, bind_apply, modifyGame_apply, logM]
    split <;> split <;> trivial

theorem ok_sendToJail (pid : String) (e : Eng) : ResOk (sendToJail pid e) := by
  unfold sendToJail
  simp only [bind_apply, getGame_apply]
  cases hp : e.game.getPlayer pid with
  | none => trivial
  | some p =>
    simp only [updatePlayerM, bind_apply, modifyGame_apply, logM]
    trivial

theorem ok_handleProperty (pid : String) (idx : Nat) (e : Eng) :
    ResOk (handleProperty pid idx e) := by
  unfold handleProperty
  simp only [bind_apply, modifyGame_apply, getGame_apply]
  cases ht : GameState.tiles { e.game with
      turn := { e.game.turn with awaitingUpgrade := none } } |>.get? idx with
  | none => trivial
  | some tile =>
    simp only []
    cases hpq : GameState.getPlayer { e.game with
        turn := { e.game.turn with awaitingUpgrade := none } } pid with
    | none => trivial
    | some player =>
      simp only []
      split
      · simp only [bind_apply, modifyGame_apply, logM]
        trivial
      · split
        · simp only [updateTileAtM, bind_apply, modifyGame_apply, logM]
          split
          · trivial
          · trivial
        · cases ho : GameState.getPlayer { e.game with
              turn := { e.game.turn with awaitingUpgrade := none } }
              (tile.ownerId.getD "") with
          | none => trivial
          | some owner =>
            simp only []
            split
            · trivial
            · simp only [updateTileAtM, updatePlayerM, bind_apply, modifyGame_apply, logM]
              exact ok_checkBankruptcy _ _

theorem ok_resolve (fuel : Nat) :
    (∀ pid idx cfe e, ResOk (resolveTile fuel pid idx cfe e)) ∧
    (∀ pid cfe e, ResOk (resolveAtCurrent fuel pid cfe e)) ∧
    (∀ pid card pn e, ResOk (applyCardEffect fuel pid card pn e)) ∧
    (∀ pid e, ResOk (handleEvent fuel pid e)) := by
  induction fuel with
  | zero =>
    have h1 : ∀ pid idx cfe e, ResOk (resolveTile 0 pid idx cfe e) := by
      intro pid idx cfe e
      unfold resolveTile
      trivial
    have h2 : ∀ pid cfe e, ResOk (resolveAtCurrent 0 pid cfe e) := by
      intro pid cfe e
      unfold resolveAtCurrent
      simp only [bind_apply, getGame_apply]
      cases hp : e.game.getPlayer pid with
      | none => trivial
      | some p => simp only []; exact h1 _ _ _ _
    have h3 : ∀ pid card pn e, ResOk (applyCardEffect 0 pid card pn e) := by
      intro pid card pn e
      unfold applyCardEffect
      have hrest : ∀ e2 : Eng, ResOk
          ((if card.goToJail = true then sendToJail pid
            else do
              if truthyN card.move then do
                movePlayer pid (card.move.getD 0)
                resolveAtCurrent 0 pid true
              else
                pure ()
              match card.toPosition with
              | some tp => do
                updatePlayerM pid (fun q => { q with position := tp })
                resolveAtCurrent 0 pid true
              | none => pure ()) e2) := by
        intro e2
        split
        · exact ok_sendToJail _ _
        · simp only []
          split
          · refine resOk_bind (ok_movePlayer _ _ _) ?_
            intro b e3 he3
            refine resOk_bind (h2 _ _ _) ?_
            intro c e4 he4
            cases htp : card.toPosition with
            | some tp =>
              simp only [updatePlayerM, bind_apply, modifyGame_apply]
              exact h2 _ _ _
            | none => trivial
          · simp only [bind_apply, pure_apply]
            cases htp : card.toPosition with
            | some tp =>
              simp only [updatePlayerM, bind_apply, modifyGame_apply]
              exact h2 _ _ _
            | none => trivial
      simp only []
      split
      · simp only [updatePlayerM, bind_apply, modifyGame_apply, logM]
        split <;>
          exact resOk_bind (by trivial)
            (fun a0 e0 he0 => resOk_bind (ok_checkBankruptcy _ _) (fun a e1 he1 => hrest e1))
      · simp only [bind_apply, pure_apply]
        exact hrest e
    refine ⟨h1, h2, h3, ?_⟩
    intro pid e
    unfold handleEvent
    trivial
  | succ f ih =>
    have h1 : ∀ pid idx cfe e, ResOk (resolveTile (f + 1) pid idx cfe e) := by
      intro pid idx cfe e
      unfold resolveTile
      simp only [bind_apply, getGame_apply]
      cases ht : e.game.tiles.get? idx with
      | none => trivial
      | some tile =>
        simp only []
        cases hp : e.game.getPlayer pid with
        | none => trivial
        | some player =>
          simp only []
          cases htt : tile.type
          · trivial
          · exact ok_handleProperty _ _ _
          · exact ok_chargeBank _ _ _ _
          · exact ih.2.2.2 _ _
          · trivial
          · exact ok_sendToJail _ _
          · simp only []
            split
            · simp only [logM, modifyGame_apply]; trivial
            · trivial
    have h2 : ∀ pid cfe e, ResOk (resolveAtCurrent (f + 1) pid cfe e) := by
      intro pid cfe e
      unfold resolveAtCurrent
      simp only [bind_apply, getGame_apply]
      cases hp : e.game.getPlayer pid with
      | none => trivial
      | some p => simp only []; exact h1 _ _ _ _
    have h3 : ∀ pid card pn e, ResOk (applyCardEffect (f + 1) pid card pn e) := by
      intro pid card pn e
      unfold applyCardEffect
      have hrest : ∀ e2 : Eng, ResOk
          ((if card.goToJail = true then sendToJail pid
            else do
              if truthyN card.move then do
                movePlayer pid (card.move.getD 0)
                resolveAtCurrent (f + 1) pid true
              else
                pure ()
              match card.toPosition with
              | some tp => do
                updatePlayerM pid (fun q => { q with position := tp })
                resolveAtCurrent (f + 1) pid true
              | none => pure ()) e2) := by
        intro e2
        split
        · exact ok_sendToJail _ _
        · simp only []
          split
          · refine resOk_bind (ok_movePlayer _ _ _) ?_
            intro b e3 he3
            refine resOk_bind (h2 _ _ _) ?_
            intro c e4 he4
            cases htp : card.toPosition with
            | some tp =>
              simp only [updatePlayerM, bind_apply, modifyGame_apply]
              exact h2 _ _ _
            | none => trivial
          · simp only [bind_apply, pure_apply]
            cases htp : card.toPosition with
            | some tp =>
              simp only [updatePlayerM, bind_apply, modifyGame_apply]
              exact h2 _ _ _
            | none => trivial
      simp only []
      split
      · simp only [updatePlayerM, bind_apply, modifyGame_apply, logM]
        split <;>
          exact resOk_bind (by trivial)
            (fun a0 e0 he0 => resOk_bind (ok_checkBankruptcy _ _) (fun a e1 he1 => hrest e1))
      · simp only [bind_apply, pure_apply]
        exact hrest e
    refine ⟨h1, h2, h3, ?_⟩
    intro pid e
    have hdraw : ∀ e1 : Eng, ResOk ((do
        let g ← getGame
        match g.deck with
        | [] => pure ()
        | card :: rest =>
        match g.getPlayer pid with
        | none => pure ()
        | some player => do
          modifyGame (fun g => { g with deck := rest })
          logM (player.name ++ " puxou carta: " ++ card.title)
          applyCardEffect f pid card player.name) e1) := by
      intro e1
      simp only [bind_apply, getGame_apply]
      cases hd : e1.game.deck with
      | nil => trivial
      | cons card rest =>
        simp only []
        cases hp : e1.game.getPlayer pid with
        | none => trivial
        | some player =>
          simp only [bind_apply, modifyGame_apply, logM]
          exact ih.2.2.1 _ _ _ _
    unfold handleEvent
    simp only [bind_apply, getGame_apply]
    split
    · refine resOk_bind (α := List EventCard) ?_ ?_
      · unfold popShuf
        cases hs : e.shufs <;> trivial
      · intro fresh e1 hf
        refine resOk_bind (α := Unit) (by trivial) ?_
        intro a e2 h2e
        exact hdraw e2
    · simp only [bind_apply, pure_apply]
      exact hdraw e

theorem ok_resolveAtCurrent (fuel : Nat) (pid : String) (cfe : Bool) (e : Eng) :
    ResOk (resolveAtCurrent fuel pid cfe e) := (ok_resolve fuel).2.1 pid cfe e

theorem ok_landAndResolve (pid : String) (msg : String) (total : Int) (e : Eng) :
    ResOk (landAndResolve pid msg total e) := by
  unfold landAndResolve
  refine resOk_bind (ok_movePlayer _ _ _) ?_
  intro a e1 h1
  simp only [bind_apply, logM, modifyGame_apply]
  refine resOk_bind (ok_resolveAtCurrent _ _ _ _) ?_
  intro b e2 h2
  exact ok_checkVictory _

theorem nextAlivePlayerM_run (currentId : String) (e : Eng)
    (h : e.game.players.length ≠ 0) :
    nextAlivePlayerM currentId e = .ok (nextAlive e.game currentId) e := by
  unfold nextAlivePlayerM
  simp only [bind_apply, getGame_apply]
  rw [if_neg h]
  rfl

theorem ok_advanceTurn (e : Eng) (h : e.game.players.length ≠ 0) :
    ResOk (advanceTurn e) := by
  unfold advanceTurn
  simp only [bind_apply, getGame_apply]
  rw [nextAlivePlayerM_run _ _ h]
  simp only [bind_apply, modifyGame_apply]
  exact ok_checkVictory _

/-! ## Atomic rejection: an operation that throws leaves the state intact -/

theorem getPlayer_some_players_ne {g : GameState} {pid : String} {p : PlayerState}
    (h : g.getPlayer pid = some p) : g.players.length ≠ 0 := by
  unfold GameState.getPlayer at h
  cases hl : g.players with
  | nil => rw [hl] at h; simp [List.find?] at h
  | cons a as => simp [hl]

/-- The shared turn guard either succeeds without touching the state or
throws without touching the state. -/
theorem ensureActivePlayer_split (pid : String) (e : Eng) :
    (e.game.status = .active ∧ e.game.turn.currentPlayerId = pid ∧
      ensureActivePlayer pid e = .ok () e) ∨
    (∃ m, ensureActivePlayer pid e = .err m e) := by
  unfold ensureActivePlayer
  simp only [bind_apply, getGame_apply]
  split
  · right; exact ⟨_, rfl⟩
  · split
    · right; exact ⟨_, rfl⟩
    · left
      refine ⟨?_, ?_, rfl⟩
      · by_contra hne
        simp_all
      · by_contra hne
        simp_all

theorem addPlayer_err (name id : String) (e : Eng) {msg : String} {e' : Eng}
    (h : addPlayer name id e = .err msg e') : e' = e := by
  unfold addPlayer at h
  simp only [bind_apply, getGame_apply] at h
  split at h
  · simp only [throwM_apply, Res.err.injEq] at h
    exact h.2.symm
  · simp only [bind_apply, modifyGame_apply, logM, pure_apply] at h
    exact Res.noConfusion h

theorem startGame_err (e : Eng) {msg : String} {e' : Eng}
    (h : startGame e = .err msg e') : e' = e := by
  unfold startGame at h
  simp only [bind_apply, getGame_apply] at h
  split at h
  · simp only [throwM_apply, Res.err.injEq] at h
    exact h.2.symm
  · split at h
    · simp only [throwM_apply, Res.err.injEq] at h
      exact h.2.symm
    · rename_i hlobby hlen
      refine absurd h (ResOk.ne_err ?_ _ _)
      simp only [bind_apply, modifyGame_apply, getGame_apply]
      split
      · simp only [bind_apply, pure_apply, modifyGame_apply, logM]
        trivial
      · refine resOk_bind (α := String) ?_ ?_
        · rw [nextAlivePlayerM_run _ _ (by simp only []; omega)]
          trivial
        · intro y ey hy
          simp only [bind_apply, modifyGame_apply, logM]
          trivial

theorem reconnect_err (pid : String) (e : Eng) {msg : String} {e' : Eng}
    (h : reconnect pid e = .err msg e') : e' = e := by
  unfold reconnect at h
  simp only [bind_apply, getGame_apply] at h
  rcases hp : e.game.getPlayer pid with _ | p <;> rw [hp] at h
  · simp only [throwM_apply, Res.err.injEq] at h
    exact h.2.symm
  · simp only [updatePlayerM, bind_apply, modifyGame_apply, pure_apply] at h
    exact Res.noConfusion h

theorem rollDice_err (pid : String) (d1 d2 : Nat) (e : Eng) {msg : String} {e' : Eng}
    (h : rollDice pid d1 d2 e = .err msg e') : e' = e := by
  unfold rollDice at h
  rcases ensureActivePlayer_split pid e with ⟨_, _, hok⟩ | ⟨m, herr⟩
  · simp only [bind_apply, hok, getGame_apply] at h
    rcases hp : e.game.getPlayer pid with _ | player <;> rw [hp] at h
    · simp only [throwM_apply, Res.err.injEq] at h
      exact h.2.symm
    · simp only [] at h
      split at h
      · simp only [throwM_apply, Res.err.injEq] at h
        exact h.2.symm
      · split at h
        · simp only [throwM_apply, Res.err.injEq] at h
          exact h.2.symm
        · split at h
          · simp only [throwM_apply, Res.err.injEq] at h
            exact h.2.symm
          · simp only [bind_apply, modifyGame_apply] at h
            split at h
            · split at h
              · refine absurd h (ResOk.ne_err ?_ _ _)
                simp only [updatePlayerM, bind_apply, modifyGame_apply, logM]
                exact resOk_bind (ok_landAndResolve _ _ _ _) (fun a e2 _ => by trivial)
              · split at h
                · refine absurd h (ResOk.ne_err ?_ _ _)
                  refine resOk_bind (ok_chargeBank _ _ _ _) ?_
                  intro a e2 h2
                  simp only [bind_apply, getGame_apply]
                  split
                  · trivial
                  · simp only [updatePlayerM, bind_apply, modifyGame_apply]
                    exact resOk_bind (ok_landAndResolve _ _ _ _) (fun b e3 _ => by trivial)
                · simp only [updatePlayerM, bind_apply, modifyGame_apply, logM,
                    pure_apply] at h
                  exact Res.noConfusion h
            · refine absurd h (ResOk.ne_err ?_ _ _)
              exact resOk_bind (ok_landAndResolve _ _ _ _) (fun a e2 _ => by trivial)
  · simp only [bind_apply, herr] at h
    simp only [Res.err.injEq] at h
    exact h.2.symm

theorem buyProperty_err (pid tid : String) (e : Eng) {msg : String} {e' : Eng}
    (h : buyProperty pid tid e = .err msg e') : e' = e := by
  unfold buyProperty at h
  rcases ensureActivePlayer_split pid e with ⟨_, _, hok⟩ | ⟨m, herr⟩
  · simp only [bind_apply, hok, getGame_apply] at h
    rcases hp : e.game.getPlayer pid with _ | player <;> rw [hp] at h
    · simp only [throwM_apply, Res.err.injEq] at h
      exact h.2.symm
    · simp only [] at h
      split at h
      · simp only [throwM_apply, Res.err.injEq] at h
        exact h.2.symm
      · rcases ht : e.game.getProperty tid with _ | tile <;> rw [ht] at h
        · simp only [throwM_apply, Res.err.injEq] at h
          exact h.2.symm
        · simp only [] at h
          split at h
          · simp only [throwM_apply, Res.err.injEq] at h
            exact h.2.symm
          · split at h
            · simp only [throwM_apply, Res.err.injEq] at h
              exact h.2.symm
            · refine absurd h (ResOk.ne_err ?_ _ _)
              simp only [updatePlayerM, updateTileByIdM, bind_apply, modifyGame_apply,
                logM]
              exact ok_checkVictory _
  · simp only [bind_apply, herr, Res.err.injEq] at h
    exact h.2.symm

theorem passPurchase_err (pid : String) (e : Eng) {msg : String} {e' : Eng}
    (h : passPurchase pid e = .err msg e') : e' = e := by
  unfold passPurchase at h
  rcases ensureActivePlayer_split pid e with ⟨_, _, hok⟩ | ⟨m, herr⟩
  · simp only [bind_apply, hok, getGame_apply] at h
    split at h
    · simp only [throwM_apply, Res.err.injEq] at h
      exact h.2.symm
    · simp only [bind_apply, modifyGame_apply, logM, pure_apply] at h
      exact Res.noConfusion h
  · simp only [bind_apply, herr, Res.err.injEq] at h
    exact h.2.symm

theorem upgradeProperty_err (pid tid : String) (e : Eng) {msg : String} {e' : Eng}
    (h : upgradeProperty pid tid e = .err msg e') : e' = e := by
  unfold upgradeProperty at h
  rcases ensureActivePlayer_split pid e with ⟨_, _, hok⟩ | ⟨m, herr⟩
  · simp only [bind_apply, hok, getGame_apply] at h
    rcases hp : e.game.getPlayer pid with _ | player <;> rw [hp] at h
    · simp only [throwM_apply, Res.err.injEq] at h
      exact h.2.symm
    · simp only [] at h
      rcases ht : e.game.getProperty tid with _ | tile <;> rw [ht] at h
      · simp only [throwM_apply, Res.err.injEq] at h
        exact h.2.symm
      · simp only [] at h
        split at h
        · simp only [throwM_apply, Res.err.injEq] at h
          exact h.2.symm
        · split at h
          · simp only [throwM_apply, Res.err.injEq] at h
            exact h.2.symm
          · split at h
            · simp only [throwM_apply, Res.err.injEq] at h
              exact h.2.symm
            · split at h
              · simp only [throwM_apply, Res.err.injEq] at h
                exact h.2.symm
              · rcases hc : propertyUpgradeCost tile with _ | cost <;> rw [hc] at h
                · simp only [throwM_apply, Res.err.injEq] at h
                  exact h.2.symm
                · simp only [] at h
                  split at h
                  · simp only [throwM_apply, Res.err.injEq] at h
                    exact h.2.symm
                  · refine absurd h (ResOk.ne_err ?_ _ _)
                    simp only [updatePlayerM, updateTileByIdM, bind_apply,
                      modifyGame_apply, logM]
                    exact ok_checkBankruptcy _ _
  · simp only [bind_apply, herr, Res.err.injEq] at h
    exact h.2.symm

theorem payBail_err (pid : String) (e : Eng) {msg : String} {e' : Eng}
    (h : payBail pid e = .err msg e') : e' = e := by
  unfold payBail at h
  rcases ensureActivePlayer_split pid e with ⟨_, _, hok⟩ | ⟨m, herr⟩
  · simp only [bind_apply, hok, getGame_apply] at h
    rcases hp : e.game.getPlayer pid with _ | player <;> rw [hp] at h
    · simp only [throwM_apply, Res.err.injEq] at h
      exact h.2.symm
    · simp only [] at h
      split at h
      · simp only [throwM_apply, Res.err.injEq] at h
        exact h.2.symm
      · split at h
        · simp only [throwM_apply, Res.err.injEq] at h
          exact h.2.symm
        · split at h
          · simp only [throwM_apply, Res.err.injEq] at h
            exact h.2.symm
          · refine absurd h (ResOk.ne_err ?_ _ _)
            simp only [updatePlayerM, bind_apply, modifyGame_apply, logM]
            exact ok_checkBankruptcy _ _
  · simp only [bind_apply, herr, Res.err.injEq] at h
    exact h.2.symm

theorem endTurn_err (pid : String) (e : Eng) {msg : String} {e' : Eng}
    (h : endTurn pid e = .err msg e') : e' = e := by
  unfold endTurn at h
  rcases ensureActivePlayer_split pid e with ⟨_, _, hok⟩ | ⟨m, herr⟩
  · simp only [bind_apply, hok, getGame_apply] at h
    split at h
    · simp only [throwM_apply, Res.err.injEq] at h
      exact h.2.symm
    · rcases hp : e.game.getPlayer pid with _ | player <;> rw [hp] at h
      · simp only [throwM_apply, Res.err.injEq] at h
        exact h.2.symm
      · simp only [] at h
        split at h
        · split at h
          · simp only [throwM_apply, Res.err.injEq] at h
            exact h.2.symm
          · simp only [throwM_apply, Res.err.injEq] at h
            exact h.2.symm
        · exact absurd h
            (ResOk.ne_err (ok_advanceTurn e (getPlayer_some_players_ne hp)) _ _)
  · simp only [bind_apply, herr, Res.err.injEq] at h
    exact h.2.symm

theorem finishByNetWorth_err (e : Eng) {msg : String} {e' : Eng}
    (h : finishByNetWorth e = .err msg e') : e' = e := by
  unfold finishByNetWorth at h
  simp only [bind_apply, getGame_apply] at h
  split at h
  · exact Res.noConfusion h
  · rcases hf : e.game.players.filter (fun p => !p.bankrupt) with _ | ⟨a, l⟩ <;>
      rw [hf] at h
    · simp only [throwM_apply, Res.err.injEq] at h
      exact h.2.symm
    · simp only [] at h
      rcases hs : sortByDesc (fun p => netWorth e.game p.id) (a :: l) with _ | ⟨r, rs⟩ <;>
        rw [hs] at h
      · exact Res.noConfusion h
      · simp only [bind_apply, modifyGame_apply, logM, pure_apply] at h
        exact Res.noConfusion h

/-- C1 (claim): for every public engine operation (`addPlayer`, `startGame`,
`rollDice`, `buyProperty`, `passPurchase`, `upgradeProperty`, `payBail`,
`endTurn`, `finishByNetWorth`, `reconnect`) and every state: if the call
throws, the state after the call equals the state before it — no field of
players, tiles, turn, status, deck, or settings is mutated by a failing
call. -/
theorem claim_C1_atomicRejection (e : Eng) (msg : String) (e' : Eng) :
    (∀ name id, addPlayer name id e = .err msg e' → e' = e) ∧
    (startGame e = .err msg e' → e' = e) ∧
    (∀ pid d1 d2, rollDice pid d1 d2 e = .err msg e' → e' = e) ∧
    (∀ pid tid, buyProperty pid tid e = .err msg e' → e' = e) ∧
    (∀ pid, passPurchase pid e = .err msg e' → e' = e) ∧
    (∀ pid tid, upgradeProperty pid tid e = .err msg e' → e' = e) ∧
    (∀ pid, payBail pid e = .err msg e' → e' = e) ∧
    (∀ pid, endTurn pid e = .err msg e' → e' = e) ∧
    (finishByNetWorth e = .err msg e' → e' = e) ∧
    (∀ pid, reconnect pid e = .err msg e' → e' = e) :=
  ⟨fun name id h => addPlayer_err name id e h,
    fun h => startGame_err e h,
    fun pid d1 d2 h => rollDice_err pid d1 d2 e h,
    fun pid tid h => buyProperty_err pid tid e h,
    fun pid h => passPurchase_err pid e h,
    fun pid tid h => upgradeProperty_err pid tid e h,
    fun pid h => payBail_err pid e h,
    fun pid h => endTurn_err pid e h,
    fun h => finishByNetWorth_err e h,
    fun pid h => reconnect_err pid e h⟩

/-- Witness for C1 at a concrete input: `endTurn` in a lobby (not yet
active) throws and leaves the state untouched. -/
theorem claim_C1_atomicRejection_witness :
    endTurn "H" ⟨sampleLobby, []⟩ =
      .err "Partida não está ativa." ⟨sampleLobby, []⟩ ∧
    (⟨sampleLobby, []⟩ : Eng) = ⟨sampleLobby, []⟩ :=
  ⟨by decide,
    (claim_C1_atomicRejection ⟨sampleLobby, []⟩ "Partida não está ativa."
      ⟨sampleLobby, []⟩).2.2.2.2.2.2.2.1 "H" (by decide)⟩

theorem truthyS_eq_true {o : Option String} :
    truthyS o = true ↔ o.isSome = true ∧ o ≠ some "" := by
  cases o with
  | none => simp [truthyS]
  | some s => simp [truthyS]

/-- C5 (claim): for every active game and current player, `endTurn` always
throws while a purchase decision is pending, and always throws while the
dice have not been rolled this turn; in both cases the state — in particular
the current player, turn number and per-turn fields — is unchanged. -/
theorem claim_C5_endTurnGuards (e : Eng) (pid : String)
    (hact : e.game.status = .active)
    (hcur : e.game.turn.currentPlayerId = pid)
    (hcond : (e.game.turn.awaitingPurchase.isSome = true ∧
        e.game.turn.awaitingPurchase ≠ some "") ∨
      e.game.turn.rolled = false) :
    ∃ m, endTurn pid e = .err m e := by
  rcases ensureActivePlayer_split pid e with ⟨_, _, hok⟩ | ⟨m, herr⟩
  · unfold endTurn
    simp only [bind_apply, hok, getGame_apply]
    by_cases hp : truthyS e.game.turn.awaitingPurchase = true
    · simp only [hp, if_true]
      exact ⟨_, rfl⟩
    · have hrolled : e.game.turn.rolled = false := by
        rcases hcond with hs | hr
        · exact absurd (truthyS_eq_true.2 hs) hp
        · exact hr
      simp only [hp, if_false, Bool.false_eq_true]
      rcases hgp : e.game.getPlayer pid with _ | player
      · exact ⟨_, rfl⟩
      · simp only []
        split
        · split
          · exact ⟨_, rfl⟩
          · exact ⟨_, rfl⟩
        · rename_i hcontra
          rw [hrolled] at hcontra
          simp at hcontra
  · exact ⟨m, by unfold endTurn; simp only [bind_apply, herr]⟩

/-- Witness for C5 at a concrete input: in the fresh two-player active game
the host has not rolled yet, and `endTurn` throws with the state intact. -/
theorem claim_C5_endTurnGuards_witness :
    (sampleActive.status = .active ∧ sampleActive.turn.currentPlayerId = "H" ∧
      sampleActive.turn.rolled = false) ∧
    (∃ m, endTurn "H" ⟨sampleActive, []⟩ = .err m ⟨sampleActive, []⟩) :=
  ⟨⟨by decide, by decide, by decide⟩,
    claim_C5_endTurnGuards ⟨sampleActive, []⟩ "H" (by decide) (by decide)
      (Or.inr (by decide))⟩

/-- Counterexample for C6 as stated: the engine's `addPlayer` does not check
the game status.  In the two-player game that has already started (status
`active`), `addPlayer` succeeds and appends a third player; the lobby-only
rejection claimed for `addPlayer` is enforced by the transport layer's
`joinRoom` handler, not by the engine operation. -/
theorem claim_C6_addPlayer_counterexample :
    sampleActive.status = .active ∧
    (∃ p e', addPlayer "Bob" "B" ⟨sampleActive, []⟩ = .ok p e' ∧
      e'.game.players.length = 3) := by
  exact ⟨by decide, ⟨_, _, rfl, by decide⟩⟩

/-- C6 (amended): `addPlayer(name)` throws `RoomFull` exactly when the
player count is at least `settings.maxPlayers`, leaving the state unchanged,
and otherwise appends a new player with money equal to `startingCash`,
position 0, `inJailTurns` 0 and `bankrupt` false — in any game status; the
lobby-only rejection lives in the transport layer, not in `addPlayer`. -/
theorem claim_C6_addPlayer_amended (e : Eng) (name id : String) :
    (e.game.settings.maxPlayers ≤ e.game.players.length →
      addPlayer name id e = .err "Sala cheia" e) ∧
    (e.game.players.length < e.game.settings.maxPlayers →
      ∃ e', addPlayer name id e = .ok
          { id := id, name := name, position := 0,
            money := e.game.settings.startingCash,
            inJailTurns := 0, bankrupt := false } e' ∧
        e'.game.players = e.game.players ++
          [{ id := id, name := name, position := 0,
             money := e.game.settings.startingCash,
             inJailTurns := 0, bankrupt := false }] ∧
        e'.game.status = e.game.status ∧
        e'.game.tiles = e.game.tiles ∧
        e'.game.turn = e.game.turn) := by
  constructor
  · intro hfull
    unfold addPlayer
    simp only [bind_apply, getGame_apply]
    rw [if_pos hfull]
    rfl
  · intro hroom
    unfold addPlayer
    simp only [bind_apply, getGame_apply]
    rw [if_neg (by omega)]
    simp only [bind_apply, modifyGame_apply, logM, pure_apply]
    exact ⟨_, rfl, rfl, rfl, rfl, rfl⟩

/-- Witness for the amended C6 at a concrete input: joining the fresh lobby
appends the second player with default starting cash. -/
theorem claim_C6_addPlayer_amended_witness :
    sampleLobby.players.length < sampleLobby.settings.maxPlayers ∧
    (∃ e', addPlayer "Ana" "A" ⟨sampleLobby, []⟩ = .ok
        { id := "A", name := "Ana", position := 0,
          money := sampleLobby.settings.startingCash,
          inJailTurns := 0, bankrupt := false } e' ∧
      e'.game.players = sampleLobby.players ++
        [{ id := "A", name := "Ana", position := 0,
           money := sampleLobby.settings.startingCash,
           inJailTurns := 0, bankrupt := false }] ∧
      e'.game.status = sampleLobby.status ∧
      e'.game.tiles = sampleLobby.tiles ∧
      e'.game.turn = sampleLobby.turn) :=
  ⟨by decide,
    (claim_C6_addPlayer_amended ⟨sampleLobby, []⟩ "Ana" "A").2 (by decide)⟩

/-! ## The winner picked by `finishByNetWorth` -/

/-- The first element of `a :: l` attaining the maximal key: the element a
stable descending sort puts first.  This is the specification-side
characterization of the JS `sort(...)[0]` selection. -/
def firstMaxBy {α : Type} (key : α → Int) : α → List α → α
  | a, [] => a
  | a, x :: xs =>
    if key (firstMaxBy key x xs) ≤ key a then a else firstMaxBy key x xs

theorem head_insertByDesc {α : Type} (key : α → Int) (a y : α) (ys : List α) :
    (insertByDesc key a (y :: ys)).head? = some (if key y ≤ key a then a else y) := by
  unfold insertByDesc
  split <;> simp_all

theorem head_sortByDesc {α : Type} (key : α → Int) :
    ∀ (l : List α) (a : α),
      (sortByDesc key (a :: l)).head? = some (firstMaxBy key a l) := by
  intro l
  induction l with
  | nil => intro a; rfl
  | cons x xs ih =>
    intro a
    have hx := ih x
    cases hs : sortByDesc key (x :: xs) with
    | nil => rw [hs] at hx; exact Option.noConfusion hx
    | cons h t =>
      rw [hs] at hx
      simp only [List.head?] at hx
      have hh : h = firstMaxBy key x xs := by injection hx
      show (insertByDesc key a (sortByDesc key (x :: xs))).head? = _
      rw [hs, head_insertByDesc, hh]
      rfl

theorem firstMaxBy_mem {α : Type} (key : α → Int) :
    ∀ (l : List α) (a : α), firstMaxBy key a l ∈ a :: l := by
  intro l
  induction l with
  | nil => intro a; simp [firstMaxBy]
  | cons x xs ih =>
    intro a
    unfold firstMaxBy
    split
    · simp
    · have := ih x
      simp only [List.mem_cons] at this ⊢
      tauto

theorem firstMaxBy_le {α : Type} (key : α → Int) :
    ∀ (l : List α) (a : α), ∀ q ∈ a :: l, key q ≤ key (firstMaxBy key a l) := by
  intro l
  induction l with
  | nil =>
    intro a q hq
    simp only [List.mem_singleton] at hq
    subst hq
    simp [firstMaxBy]
  | cons x xs ih =>
    intro a q hq
    unfold firstMaxBy
    have hq2 : q = a ∨ q ∈ x :: xs := by simpa using hq
    split
    · rename_i hle
      rcases hq2 with rfl | hmem
      · exact le_refl _
      · exact (ih x q hmem).trans hle
    · rename_i hlt
      rcases hq2 with rfl | hmem
      · omega
      · exact ih x q hmem

theorem firstMaxBy_earliest {α : Type} (key : α → Int) :
    ∀ (l : List α) (a : α), ∃ i,
      (a :: l).get? i = some (firstMaxBy key a l) ∧
      ∀ j, j < i → ∀ q, (a :: l).get? j = some q →
        key q < key (firstMaxBy key a l) := by
  intro l
  induction l with
  | nil =>
    intro a
    exact ⟨0, rfl, by omega⟩
  | cons x xs ih =>
    intro a
    obtain ⟨i, hi, hlt⟩ := ih x
    unfold firstMaxBy
    split
    · exact ⟨0, rfl, by omega⟩
    · rename_i hgt
      refine ⟨i + 1, by simpa using hi, ?_⟩
      intro j hj q hq
      cases j with
      | zero =>
        simp only [List.get?] at hq
        injection hq with hq
        subst hq
        omega
      | succ j2 =>
        exact hlt j2 (by omega) q (by simpa using hq)

/-- Counterexample for C7 as stated: `finishByNetWorth` does not require an
active game.  In a fresh lobby (status `lobby`, never started) it succeeds
and finishes the game, declaring the host winner. -/
theorem claim_C7_finishByNetWorth_counterexample :
    sampleLobby.status = .lobby ∧
    (∃ e', finishByNetWorth ⟨sampleLobby, []⟩ = .ok () e' ∧
      e'.game.status = .finished ∧ e'.game.winnerId = some "H") :=
  ⟨by decide, ⟨_, rfl, by decide, by decide⟩⟩

/-- C7 (amended): `finishByNetWorth` is a no-op once status is `finished`;
whenever the game is not finished (it does not require `active`: the lobby
is accepted too) it throws `NoActivePlayers` if every player is bankrupt,
and otherwise finishes the game recording as winner the non-bankrupt player
with the highest net worth (cash plus asset value of owned properties),
ties broken in favor of the earliest player in the list. -/
theorem claim_C7_finishByNetWorth_amended (e : Eng) :
    (e.game.status = .finished → finishByNetWorth e = .ok () e) ∧
    (e.game.status ≠ .finished →
      e.game.players.filter (fun p => !p.bankrupt) = [] →
      finishByNetWorth e = .err "Sem jogadores ativos" e) ∧
    (∀ a l, e.game.status ≠ .finished →
      e.game.players.filter (fun p => !p.bankrupt) = a :: l →
      ∃ e', finishByNetWorth e = .ok () e' ∧
        e'.game.status = .finished ∧
        e'.game.winnerId =
          some (firstMaxBy (fun p => netWorth e.game p.id) a l).id ∧
        firstMaxBy (fun p => netWorth e.game p.id) a l ∈ a :: l ∧
        (∀ q ∈ a :: l, netWorth e.game q.id ≤
          netWorth e.game (firstMaxBy (fun p => netWorth e.game p.id) a l).id) ∧
        (∃ i, (a :: l).get? i =
            some (firstMaxBy (fun p => netWorth e.game p.id) a l) ∧
          ∀ j, j < i → ∀ q, (a :: l).get? j = some q →
            netWorth e.game q.id <
              netWorth e.game (firstMaxBy (fun p => netWorth e.game p.id) a l).id)) := by
  refine ⟨?_, ?_, ?_⟩
  · intro hfin
    unfold finishByNetWorth
    simp only [bind_apply, getGame_apply]
    rw [if_pos hfin]
    rfl
  · intro hfin hempty
    unfold finishByNetWorth
    simp only [bind_apply, getGame_apply]
    rw [if_neg hfin, hempty]
    rfl
  · intro a l hfin hfilter
    unfold finishByNetWorth
    simp only [bind_apply, getGame_apply]
    rw [if_neg hfin, hfilter]
    simp only []
    have hhead := head_sortByDesc (fun p => netWorth e.game p.id) l a
    cases hs : sortByDesc (fun p => netWorth e.game p.id) (a :: l) with
    | nil => rw [hs] at hhead; exact Option.noConfusion hhead
    | cons r t =>
      rw [hs] at hhead
      simp only [List.head?] at hhead
      have hr : r = firstMaxBy (fun p => netWorth e.game p.id) a l := by injection hhead
      simp only [bind_apply, modifyGame_apply, logM, pure_apply]
      subst hr
      refine ⟨_, rfl, rfl, rfl, firstMaxBy_mem _ _ _,
        fun q hq => ?_, ?_⟩
      · have h1 := firstMaxBy_le (fun p => netWorth e.game p.id) l a q hq
        exact h1
      · obtain ⟨i, hi, hlt⟩ := firstMaxBy_earliest (fun p => netWorth e.game p.id) l a
        exact ⟨i, hi, hlt⟩

/-- Witness for the amended C7 at a concrete input: finishing the fresh
one-player lobby declares the host (the unique alive player, hence the
first maximal one) the winner. -/
theorem claim_C7_finishByNetWorth_amended_witness :
    (sampleLobby.status ≠ .finished ∧
      sampleLobby.players.filter (fun p => !p.bankrupt) = [sampleHost]) ∧
    (∃ e', finishByNetWorth ⟨sampleLobby, []⟩ = .ok () e' ∧
      e'.game.status = .finished ∧
      e'.game.winnerId =
        some (firstMaxBy (fun p => netWorth sampleLobby p.id) sampleHost []).id ∧
      firstMaxBy (fun p => netWorth sampleLobby p.id) sampleHost [] ∈ [sampleHost] ∧
      (∀ q ∈ [sampleHost], netWorth sampleLobby q.id ≤
        netWorth sampleLobby
          (firstMaxBy (fun p => netWorth sampleLobby p.id) sampleHost []).id) ∧
      (∃ i, [sampleHost].get? i =
          some (firstMaxBy (fun p => netWorth sampleLobby p.id) sampleHost []) ∧
        ∀ j, j < i → ∀ q, [sampleHost].get? j = some q →
          netWorth sampleLobby q.id <
            netWorth sampleLobby
              (firstMaxBy (fun p => netWorth sampleLobby p.id) sampleHost []).id)) :=
  ⟨⟨by decide, by decide⟩,
    (claim_C7_finishByNetWorth_amended ⟨sampleLobby, []⟩).2.2 sampleHost []
      (by decide) (by decide)⟩

/-! ## The third-attempt forced bail in `rollDice` -/

theorem ensureActivePlayer_ok {pid : String} {e : Eng}
    (h1 : e.game.status = .active) (h2 : e.game.turn.currentPlayerId = pid) :
    ensureActivePlayer pid e = .ok () e := by
  unfold ensureActivePlayer
  simp only [bind_apply, getGame_apply]
  rw [if_neg (by simp [h1]), if_neg (by simp [h2])]
  rfl

/-- Running `chargeBank` when the charge leaves the player solvent: money is
deducted, the reason is logged, and the bankruptcy check is a no-op. -/
theorem chargeBank_run_solvent (pid : String) (amt : Int) (reason : String)
    (e : Eng) (p : PlayerState) (hp : e.game.getPlayer pid = some p)
    (hs : 0 ≤ p.money - amt) :
    chargeBank pid amt reason e = .ok ()
      ⟨{ e.game with
          players := updateFirst (fun x => x.id == pid)
            (fun q => { q with money := q.money - amt }) e.game.players,
          log := pushLog reason e.game.log }, e.shufs⟩ := by
  unfold chargeBank checkBankruptcy
  simp only [updatePlayerM, bind_apply, modifyGame_apply, logM, getGame_apply]
  have hup : GameState.getPlayer
      { e.game with
        players := updateFirst (fun x => x.id == pid)
          (fun q => { q with money := q.money - amt }) e.game.players,
        log := pushLog reason e.game.log } pid =
      some { p with money := p.money - amt } := by
    show (updateFirst (fun x => x.id == pid)
        (fun q => { q with money := q.money - amt }) e.game.players).find?
        (fun x => x.id == pid) = _
    rw [find?_updateFirst_eq _ _ (by intro a; rfl)]
    have hfd : e.game.players.find? (fun x => x.id == pid) = some p := hp
    rw [hfd]
    rfl
  rw [hup]
  simp only []
  rw [if_pos (Or.inl hs)]
  rfl

def sampleAna : PlayerState :=
  { id := "A", name := "Ana", position := 0, money := 1500, inJailTurns := 0,
    bankrupt := false }

/-- A started game where the host sits in jail at position 7 with the last
escape attempt (`inJailTurns = 1`) left and no money for the forced bail. -/
def sampleBailBroke : GameState :=
  { sampleActive with players :=
      [{ sampleHost with money := 0, inJailTurns := 1, position := 7 }, sampleAna] }

/-- A started game where the host sits in jail at position 7 with the last
escape attempt left and enough money for the forced bail. -/
def sampleBailSolvent : GameState :=
  { sampleActive with players :=
      [{ sampleHost with money := 100, inJailTurns := 1, position := 7 }, sampleAna] }

/-- Counterexample for C4 as stated: with `inJailTurns = 1` and a non-double
roll, a player who cannot afford the 50 bail is charged anyway, goes
bankrupt, and does **not** move — the claimed move by the roll total (from
7 to 10) does not happen. -/
theorem claim_C4_jailThirdRoll_counterexample :
    (sampleBailBroke.getPlayer "H").map PlayerState.inJailTurns = some 1 ∧
    (1 : Nat) ≠ 2 ∧
    (∃ r e', rollDice "H" 1 2 ⟨sampleBailBroke, []⟩ = .ok r e' ∧
      (e'.game.getPlayer "H").map PlayerState.position = some 7 ∧
      (e'.game.getPlayer "H").map PlayerState.money = some (-50) ∧
      (e'.game.getPlayer "H").map PlayerState.bankrupt = some true) ∧
    (7 : Nat) ≠ (7 + (1 + 2)) % 20 :=
  ⟨by decide, by decide, ⟨_, _, rfl, by decide, by decide, by decide⟩, by decide⟩

/-- C4 (amended): if the current player has `inJailTurns = 1`, rolls a
non-double, and can afford the bail (money is at least 50), then within that
single `rollDice` call the 50 bail is deducted, `inJailTurns` is reset to 0,
and the player then moves by the roll total and resolves the landed tile
(the `landAndResolve` tail applied to the charged state); if the charge
bankrupts the player, they are bankrupted in place without moving. -/
theorem claim_C4_jailThirdRoll_amended (e : Eng) (pid : String) (d1 d2 : Nat)
    (pl : PlayerState)
    (hact : e.game.status = .active)
    (hcur : e.game.turn.currentPlayerId = pid)
    (hp : e.game.getPlayer pid = some pl)
    (hnb : pl.bankrupt = false)
    (hrolled : e.game.turn.rolled = false)
    (hpur : e.game.turn.awaitingPurchase = none)
    (hjail : pl.inJailTurns = 1)
    (hd : d1 ≠ d2)
    (hmoney : BAIL_COST ≤ pl.money) :
    (let roll : DiceRoll := { values := (d1, d2), total := d1 + d2 }
     let rolledMsg := pl.name ++ " rolou " ++ toString d1 ++ " + " ++
       toString d2 ++ " = " ++ toString (d1 + d2)
     let bailMsg := pl.name ++ " pagou fiança (" ++ toString BAIL_COST ++
       ") após " ++ toString MAX_JAIL_TURNS ++ " turnos na prisão."
     let eCharged : Eng :=
       ⟨{ e.game with
           turn := { e.game.turn with dice := some roll, rolled := true },
           players := updateFirst (fun x => x.id == pid)
             (fun q => { q with inJailTurns := 0 })
             (updateFirst (fun x => x.id == pid)
               (fun q => { q with money := q.money - BAIL_COST })
               e.game.players),
           log := pushLog bailMsg e.game.log }, e.shufs⟩
     rollDice pid d1 d2 e = (do
         landAndResolve pid rolledMsg ((d1 + d2 : Nat) : Int)
         pure roll) eCharged ∧
       eCharged.game.getPlayer pid =
         some { pl with money := pl.money - BAIL_COST, inJailTurns := 0 }) := by
  simp only []
  have hget2 : GameState.getPlayer
      { e.game with
        turn := { e.game.turn with
          dice := some { values := (d1, d2), total := d1 + d2 }, rolled := true } }
      pid = some pl := hp
  constructor
  · unfold rollDice
    simp only [bind_apply, ensureActivePlayer_ok hact hcur, getGame_apply]
    rw [hp]
    simp only []
    rw [if_neg (by rw [hnb]; simp)]
    rw [if_neg (by rw [hrolled]; simp)]
    rw [if_neg (by rw [hpur]; simp [truthyS])]
    simp only [bind_apply, modifyGame_apply]
    rw [if_pos (by rw [hjail]; norm_num)]
    rw [if_neg hd]
    rw [if_pos hjail]
    simp only [bind_apply]
    rw [chargeBank_run_solvent pid BAIL_COST
      (pl.name ++ " pagou fiança (" ++ toString BAIL_COST ++ ") após " ++
        toString MAX_JAIL_TURNS ++ " turnos na prisão.")
      ⟨{ e.game with turn := { e.game.turn with
          dice := some { values := (d1, d2), total := d1 + d2 }, rolled := true } },
        e.shufs⟩ pl hget2
      (by unfold BAIL_COST at hmoney ⊢; omega)]
    simp only []
    simp only [bind_apply, getGame_apply]
    have hget3 : GameState.getPlayer
        { e.game with
          turn := { e.game.turn with
            dice := some { values := (d1, d2), total := d1 + d2 }, rolled := true },
          players := updateFirst (fun x => x.id == pid)
            (fun q => { q with money := q.money - BAIL_COST }) e.game.players,
          log := pushLog (pl.name ++ " pagou fiança (" ++ toString BAIL_COST ++
            ") após " ++ toString MAX_JAIL_TURNS ++ " turnos na prisão.") e.game.log }
        pid = some { pl with money := pl.money - BAIL_COST } := by
      show (updateFirst (fun x => x.id == pid)
          (fun q => { q with money := q.money - BAIL_COST }) e.game.players).find?
          (fun x => x.id == pid) = _
      rw [find?_updateFirst_eq _ _ (by intro a; rfl)]
      have hfd : e.game.players.find? (fun x => x.id == pid) = some pl := hp
      rw [hfd]
      rfl
    rw [hget3]
    rw [if_neg (by simp [hnb])]
    simp only [updatePlayerM, bind_apply, modifyGame_apply]
  · show (updateFirst (fun x => x.id == pid) (fun q => { q with inJailTurns := 0 })
        (updateFirst (fun x => x.id == pid)
          (fun q => { q with money := q.money - BAIL_COST })
          e.game.players)).find? (fun x => x.id == pid) = _
    rw [find?_updateFirst_eq _ _ (by intro a; rfl),
      find?_updateFirst_eq _ _ (by intro a; rfl)]
    have hfd : e.game.players.find? (fun x => x.id == pid) = some pl := hp
    rw [hfd]
    rfl

/-- The state reached inside `rollDice` on `sampleBailSolvent` right after
the forced bail: dice recorded, 50 deducted, jail cleared, charge logged. -/
def sampleBailChargedEng : Eng :=
  ⟨{ sampleBailSolvent with
      turn := { sampleBailSolvent.turn with
        dice := some { values := (1, 2), total := 3 }, rolled := true },
      players := updateFirst (fun x => x.id == "H")
        (fun q => { q with inJailTurns := 0 })
        (updateFirst (fun x => x.id == "H")
          (fun q => { q with money := q.money - BAIL_COST })
          sampleBailSolvent.players),
      log := pushLog ("Host pagou fiança (" ++ toString BAIL_COST ++ ") após " ++
        toString MAX_JAIL_TURNS ++ " turnos na prisão.") sampleBailSolvent.log },
    []⟩

/-- Witness for the amended C4 at a concrete input: the solvent jailed host
rolls 1+2; the call reduces to the move-and-resolve tail applied to the
bail-charged state. -/
theorem claim_C4_jailThirdRoll_amended_witness :
    (sampleBailSolvent.getPlayer "H" =
        some { id := "H", name := "Host", position := 7, money := 100,
               inJailTurns := 1, bankrupt := false } ∧
      (1 : Nat) ≠ 2 ∧ BAIL_COST ≤ (100 : Int)) ∧
    (rollDice "H" 1 2 ⟨sampleBailSolvent, []⟩ = (do
        landAndResolve "H" ("Host rolou 1 + 2 = 3") ((1 + 2 : Nat) : Int)
        pure ({ values := (1, 2), total := 1 + 2 } : DiceRoll)) sampleBailChargedEng ∧
      sampleBailChargedEng.game.getPlayer "H" =
        some { id := "H", name := "Host", position := 7, money := 100 - BAIL_COST,
               inJailTurns := 0, bankrupt := false }) :=
  ⟨⟨by decide, by decide, by decide⟩,
    claim_C4_jailThirdRoll_amended ⟨sampleBailSolvent, []⟩ "H" 1 2
      { id := "H", name := "Host", position := 7, money := 100,
        inJailTurns := 1, bankrupt := false }
      (by decide) (by decide) (by decide) (by decide) (by decide) (by decide)
      (by decide) (by decide) (by decide)⟩

/-! ## C10: preservation of the board-position invariant -/

/-- The state a computation ended in, for either outcome. -/
def Res.state {α : Type} : Res α → Eng
  | .ok _ e => e
  | .err _ e => e

@[simp] theorem state_ok {α : Type} (a : α) (e : Eng) : (Res.ok a e).state = e := rfl

@[simp] theorem state_err {α : Type} (m : String) (e : Eng) :
    (Res.err m e : Res α).state = e := rfl

/-- The position invariant of C10: the board keeps its 20 tiles, every
player's position is a legal board index, and the deck and every pending
reshuffle hold only the default event cards. -/
def PosOK (e : Eng) : Prop :=
  e.game.tiles.length = 20 ∧
  (∀ p ∈ e.game.players, p.position < e.game.tiles.length) ∧
  (∀ c ∈ e.game.deck, c ∈ EVENT_CARDS) ∧
  (∀ l ∈ e.shufs, ∀ c ∈ l, c ∈ EVENT_CARDS)

instance (e : Eng) : Decidable (PosOK e) := by
  unfold PosOK
  infer_instance

/-- None of the default event cards teleports. -/
theorem eventCards_toPosition : ∀ c ∈ EVENT_CARDS, c.toPosition = none := by decide

theorem length_updateFirst {α : Type} (p : α → Bool) (f : α → α) :
    ∀ l : List α, (updateFirst p f l).length = l.length := by
  intro l
  induction l with
  | nil => rfl
  | cons x xs ih =>
    rw [updateFirst]
    split
    · rfl
    · simp [ih]

theorem mem_updateFirst {α : Type} (P : α → Prop) (p : α → Bool) (f : α → α) :
    ∀ l : List α, (∀ a ∈ l, P a) → (∀ a, P a → P (f a)) →
      ∀ a ∈ updateFirst p f l, P a := by
  intro l
  induction l with
  | nil => intro _ _ a ha; simp [updateFirst] at ha
  | cons x xs ih =>
    intro hl hf a ha
    rw [updateFirst] at ha
    split at ha
    · rcases List.mem_cons.mp ha with rfl | hmem
      · exact hf x (hl x (List.mem_cons_self x xs))
      · exact hl a (List.mem_cons_of_mem x hmem)
    · rcases List.mem_cons.mp ha with rfl | hmem
      · exact hl _ (List.mem_cons_self _ _)
      · exact ih (fun b hb => hl b (List.mem_cons_of_mem x hb)) hf a hmem

theorem findIdx?_lt_length {α : Type} (p : α → Bool) :
    ∀ (l : List α) (s i : Nat), List.findIdx? p l s = some i → i < s + l.length := by
  intro l
  induction l with
  | nil => intro s i h; simp [List.findIdx?] at h
  | cons x xs ih =>
    intro s i h
    rw [List.findIdx?_cons] at h
    split at h
    · simp only [Option.some.injEq] at h
      simp only [List.length_cons]
      omega
    · have hlt := ih (s + 1) i h
      simp only [List.length_cons]
      omega

theorem posOK_bind {α β : Type} {m : M α} {k : α → M β} {e : Eng}
    (hm : PosOK (Res.state (m e)))
    (hk : ∀ a e', m e = .ok a e' → PosOK e' → PosOK (Res.state (k a e'))) :
    PosOK (Res.state ((m >>= k) e)) := by
  rw [bind_apply]
  cases h : m e with
  | ok a e' =>
    rw [h] at hm
    exact hk a e' h hm
  | err msg e' =>
    rw [h] at hm
    exact hm

theorem posOK_bind_getGame {β : Type} {k : GameState → M β} {e : Eng}
    (hk : PosOK e → PosOK (Res.state (k e.game e))) (h : PosOK e) :
    PosOK (Res.state ((getGame >>= k) e)) := by
  rw [bind_apply, getGame_apply]
  exact hk h

theorem posOK_logM (msg : String) (e : Eng) (h : PosOK e) :
    PosOK (Res.state (logM msg e)) := h

theorem posOK_updatePlayerM (pid : String) (f : PlayerState → PlayerState) (e : Eng)
    (hf : ∀ q, q.position < e.game.tiles.length → (f q).position < e.game.tiles.length)
    (h : PosOK e) : PosOK (Res.state (updatePlayerM pid f e)) := by
  simp only [updatePlayerM, modifyGame_apply, state_ok]
  obtain ⟨h1, h2, h3, h4⟩ := h
  exact ⟨h1,
    mem_updateFirst (fun q => q.position < e.game.tiles.length) _ f e.game.players h2 hf,
    h3, h4⟩

theorem posOK_updateTileAtM (idx : Nat) (f : Tile → Tile) (e : Eng) (h : PosOK e) :
    PosOK (Res.state (updateTileAtM idx f e)) := by
  obtain ⟨h1, h2, h3, h4⟩ := h
  refine ⟨?_, ?_, h3, h4⟩
  · show (e.game.tiles.modify f idx).length = 20
    simp [List.length_modify, h1]
  · show ∀ p ∈ e.game.players, p.position < (e.game.tiles.modify f idx).length
    simpa [List.length_modify] using h2

theorem posOK_updateTileByIdM (tid : String) (f : Tile → Tile) (e : Eng) (h : PosOK e) :
    PosOK (Res.state (updateTileByIdM tid f e)) := by
  obtain ⟨h1, h2, h3, h4⟩ := h
  refine ⟨?_, ?_, h3, h4⟩
  · show (updateFirst (fun t => t.id == tid) f e.game.tiles).length = 20
    rw [length_updateFirst]
    exact h1
  · show ∀ p ∈ e.game.players,
      p.position < (updateFirst (fun t => t.id == tid) f e.game.tiles).length
    rw [length_updateFirst]
    exact h2

theorem posOK_checkVictory (e : Eng) (h : PosOK e) :
    PosOK (Res.state (checkVictory e)) := by
  unfold checkVictory
  refine posOK_bind_getGame (fun h0 => ?_) h
  split
  · exact h0
  · cases hf : e.game.players.filter (fun p => !p.bankrupt) with
    | nil => exact h0
    | cons p tl =>
      cases tl with
      | nil =>
        simp only []
        refine posOK_bind ?_ ?_
        · exact h0
        · intro a e1 he1 h1
          exact posOK_logM _ _ h1
      | cons q tl2 => exact h0

theorem posOK_checkBankruptcy (pid : String) (e : Eng) (h : PosOK e) :
    PosOK (Res.state (checkBankruptcy pid e)) := by
  unfold checkBankruptcy
  refine posOK_bind_getGame (fun h0 => ?_) h
  cases hp : e.game.getPlayer pid with
  | none => exact h0
  | some p =>
    simp only []
    split
    · exact h0
    · refine posOK_bind (posOK_updatePlayerM _ _ _ (fun q hq => hq) h0) ?_
      intro a e1 he1 h1
      refine posOK_bind ?_ ?_
      · obtain ⟨h11, h12, h13, h14⟩ := h1
        refine ⟨?_, ?_, h13, h14⟩
        · show (e1.game.tiles.map _).length = 20
          simpa using h11
        · show ∀ q ∈ e1.game.players, q.position < (e1.game.tiles.map _).length
          simpa using h12
      · intro b e2 he2 h2
        refine posOK_bind (posOK_logM _ _ h2) ?_
        intro c e3 he3 h3
        exact posOK_checkVictory _ h3

theorem posOK_chargeBank (pid : String) (amount : Int) (reason : String) (e : Eng)
    (h : PosOK e) : PosOK (Res.state (chargeBank pid amount reason e)) := by
  unfold chargeBank
  refine posOK_bind (posOK_updatePlayerM _ _ _ (fun q hq => hq) h) ?_
  intro a e1 he1 h1
  refine posOK_bind (posOK_logM _ _ h1) ?_
  intro b e2 he2 h2
  exact posOK_checkBankruptcy _ _ h2

theorem posOK_movePlayer (pid : String) (steps : Int) (e : Eng) (h : PosOK e) :
    PosOK (Res.state (movePlayer pid steps e)) := by
  unfold movePlayer
  refine posOK_bind_getGame (fun h0 => ?_) h
  cases hp : e.game.getPlayer pid with
  | none => exact h0
  | some p =>
    simp only []
    have hN : (0 : Int) < (e.game.tiles.length : Int) := by
      have h20 := h0.1
      omega
    rw [tmod_normalize _ _ hN]
    refine posOK_bind (posOK_updatePlayerM _ _ _ ?_ h0) ?_
    · intro q hq
      show (((p.position : Int) + steps) % (e.game.tiles.length : Int)).toNat <
          e.game.tiles.length
      have hNe : (e.game.tiles.length : Int) ≠ 0 := by omega
      have h1 := Int.emod_nonneg ((p.position : Int) + steps) hNe
      have h2 := Int.emod_lt_of_pos ((p.position : Int) + steps) hN
      omega
    · intro a e1 he1 h1
      split
      · refine posOK_bind (posOK_updatePlayerM _ _ _ (fun q hq => hq) h1) ?_
        intro b e2 he2 h2
        exact posOK_logM _ _ h2
      · exact h1

theorem posOK_sendToJail (pid : String) (e : Eng) (h : PosOK e) :
    PosOK (Res.state (sendToJail pid e)) := by
  unfold sendToJail
  refine posOK_bind_getGame (fun h0 => ?_) h
  cases hp : e.game.getPlayer pid with
  | none => exact h0
  | some p =>
    simp only []
    refine posOK_bind (posOK_updatePlayerM _ _ _ ?_ h0) ?_
    · intro q hq
      show (List.findIdx? (fun t => t.type == TileType.jail) e.game.tiles 0).getD q.position <
          e.game.tiles.length
      cases hj : List.findIdx? (fun t => t.type == TileType.jail) e.game.tiles 0 with
      | none => simpa using hq
      | some i =>
        have := findIdx?_lt_length _ _ 0 i hj
        simpa using this
    · intro a e1 he1 h1
      exact posOK_logM _ _ h1

theorem posOK_advanceTurn (e : Eng) (h : PosOK e) :
    PosOK (Res.state (advanceTurn e)) := by
  unfold advanceTurn
  refine posOK_bind_getGame (fun h0 => ?_) h
  refine posOK_bind ?_ ?_
  · unfold nextAlivePlayerM
    refine posOK_bind_getGame (fun h1 => ?_) h0
    split
    · exact h0
    · exact h0
  · intro a e1 he1 h1
    refine posOK_bind ?_ ?_
    · exact h1
    · intro b e2 he2 h2
      exact posOK_checkVictory _ h2

theorem posOK_handleProperty (pid : String) (idx : Nat) (e : Eng) (h : PosOK e) :
    PosOK (Res.state (handleProperty pid idx e)) := by
  unfold handleProperty
  refine posOK_bind ?_ ?_
  · exact h
  · intro a e1 he1 h1
    refine posOK_bind_getGame (fun h2 => ?_) h1
    cases ht : e1.game.tiles.get? idx with
    | none => exact h2
    | some tile =>
      simp only []
      cases hp : e1.game.getPlayer pid with
      | none => exact h2
      | some player =>
        simp only []
        split
        · refine posOK_bind ?_ ?_
          · exact h2
          · intro b e2 he2 h3
            exact posOK_logM _ _ h3
        · split
          · refine posOK_bind (posOK_updateTileAtM _ _ _ h2) ?_
            intro b e2 he2 h3
            split
            · refine posOK_bind ?_ ?_
              · exact h3
              · intro c e3 he3 h4
                exact posOK_logM _ _ h4
            · exact posOK_logM _ _ h3
          · cases ho : e1.game.getPlayer (tile.ownerId.getD "") with
            | none => exact h2
            | some owner =>
              simp only []
              split
              · exact h2
              · refine posOK_bind (posOK_updateTileAtM _ _ _ h2) ?_
                intro b e2 he2 h3
                refine posOK_bind (posOK_updatePlayerM _ _ _ (fun q hq => hq) h3) ?_
                intro c e3 he3 h4
                refine posOK_bind (posOK_updatePlayerM _ _ _ (fun q hq => hq) h4) ?_
                intro d e4 he4 h5
                refine posOK_bind (posOK_logM _ _ h5) ?_
                intro x e5 he5 h6
                exact posOK_checkBankruptcy _ _ h6

theorem popShuf_cases (cards : List EventCard) (e : Eng) :
    (e.shufs = [] ∧ popShuf cards e = .ok cards e) ∨
    (∃ l rest, e.shufs = l :: rest ∧ popShuf cards e = .ok l { e with shufs := rest }) := by
  unfold popShuf
  cases hs : e.shufs with
  | nil => left; exact ⟨rfl, rfl⟩
  | cons l rest => right; exact ⟨l, rest, rfl, rfl⟩

theorem posOK_resolve (fuel : Nat) :
    (∀ pid idx cfe e, PosOK e → PosOK (Res.state (resolveTile fuel pid idx cfe e))) ∧
    (∀ pid cfe e, PosOK e → PosOK (Res.state (resolveAtCurrent fuel pid cfe e))) ∧
    (∀ pid card pn e, card.toPosition = none → PosOK e →
      PosOK (Res.state (applyCardEffect fuel pid card pn e))) ∧
    (∀ pid e, PosOK e → PosOK (Res.state (handleEvent fuel pid e))) := by
  induction fuel with
  | zero =>
    have h1 : ∀ pid idx cfe e, PosOK e → PosOK (Res.state (resolveTile 0 pid idx cfe e)) := by
      intro pid idx cfe e h
      unfold resolveTile
      exact h
    have h2 : ∀ pid cfe e, PosOK e → PosOK (Res.state (resolveAtCurrent 0 pid cfe e)) := by
      intro pid cfe e h
      unfold resolveAtCurrent
      refine posOK_bind_getGame (fun h0 => ?_) h
      cases hp : e.game.getPlayer pid with
      | none => exact h0
      | some p =>
        simp only []
        exact h1 _ _ _ _ h0
    have h3 : ∀ pid card pn e, card.toPosition = none → PosOK e →
        PosOK (Res.state (applyCardEffect 0 pid card pn e)) := by
      intro pid card pn e htp h
      unfold applyCardEffect
      have hrest : ∀ e2 : Eng, PosOK e2 → PosOK
          (Res.state ((if card.goToJail = true then sendToJail pid
            else do
              if truthyN card.move then do
                movePlayer pid (card.move.getD 0)
                resolveAtCurrent 0 pid true
              else
                pure ()
              match card.toPosition with
              | some tp => do
                updatePlayerM pid (fun q => { q with position := tp })
                resolveAtCurrent 0 pid true
              | none => pure ()) e2)) := by
        intro e2 hok
        split
        · exact posOK_sendToJail _ _ hok
        · rw [htp]
          simp only []
          split
          · refine posOK_bind (posOK_movePlayer _ _ _ hok) ?_
            intro a e3 he3 hok3
            refine posOK_bind (h2 _ _ _ hok3) ?_
            intro b e4 he4 hok4
            exact hok4
          · exact hok
      simp only []
      split
      · refine posOK_bind (posOK_updatePlayerM _ _ _ (fun q hq => hq) h) ?_
        intro a e1 he1 hok1
        split
        · refine posOK_bind (posOK_logM _ _ hok1) ?_
          intro b e2 he2 hok2
          refine posOK_bind (posOK_checkBankruptcy _ _ hok2) ?_
          intro c e3 he3 hok3
          exact hrest e3 hok3
        · refine posOK_bind (posOK_logM _ _ hok1) ?_
          intro b e2 he2 hok2
          refine posOK_bind (posOK_checkBankruptcy _ _ hok2) ?_
          intro c e3 he3 hok3
          exact hrest e3 hok3
      · exact hrest e h
    refine ⟨h1, h2, h3, ?_⟩
    intro pid e h
    unfold handleEvent
    exact h
  | succ f ih =>
    have h1 : ∀ pid idx cfe e, PosOK e →
        PosOK (Res.state (resolveTile (f + 1) pid idx cfe e)) := by
      intro pid idx cfe e h
      unfold resolveTile
      refine posOK_bind_getGame (fun h0 => ?_) h
      cases ht : e.game.tiles.get? idx with
      | none => exact h0
      | some tile =>
        simp only []
        cases hp : e.game.getPlayer pid with
        | none => exact h0
        | some player =>
          simp only []
          cases htt : tile.type
          · exact h0
          · exact posOK_handleProperty _ _ _ h0
          · exact posOK_chargeBank _ _ _ _ h0
          · exact ih.2.2.2 _ _ h0
          · exact h0
          · exact posOK_sendToJail _ _ h0
          · split
            · exact posOK_logM _ _ h0
            · exact h0
    have h2 : ∀ pid cfe e, PosOK e →
        PosOK (Res.state (resolveAtCurrent (f + 1) pid cfe e)) := by
      intro pid cfe e h
      unfold resolveAtCurrent
      refine posOK_bind_getGame (fun h0 => ?_) h
      cases hp : e.game.getPlayer pid with
      | none => exact h0
      | some p =>
        simp only []
        exact h1 _ _ _ _ h0
    have h3 : ∀ pid card pn e, card.toPosition = none → PosOK e →
        PosOK (Res.state (applyCardEffect (f + 1) pid card pn e)) := by
      intro pid card pn e htp h
      unfold applyCardEffect
      have hrest : ∀ e2 : Eng, PosOK e2 → PosOK
          (Res.state ((if card.goToJail = true then sendToJail pid
            else do
              if truthyN card.move then do
                movePlayer pid (card.move.getD 0)
                resolveAtCurrent (f + 1) pid true
              else
                pure ()
              match card.toPosition with
              | some tp => do
                updatePlayerM pid (fun q => { q with position := tp })
                resolveAtCurrent (f + 1) pid true
              | none => pure ()) e2)) := by
        intro e2 hok
        split
        · exact posOK_sendToJail _ _ hok
        · rw [htp]
          simp only []
          split
          · refine posOK_bind (posOK_movePlayer _ _ _ hok) ?_
            intro a e3 he3 hok3
            refine posOK_bind (h2 _ _ _ hok3) ?_
            intro b e4 he4 hok4
            exact hok4
          · exact hok
      simp only []
      split
      · refine posOK_bind (posOK_updatePlayerM _ _ _ (fun q hq => hq) h) ?_
        intro a e1 he1 hok1
        split
        · refine posOK_bind (posOK_logM _ _ hok1) ?_
          intro b e2 he2 hok2
          refine posOK_bind (posOK_checkBankruptcy _ _ hok2) ?_
          intro c e3 he3 hok3
          exact hrest e3 hok3
        · refine posOK_bind (posOK_logM _ _ hok1) ?_
          intro b e2 he2 hok2
          refine posOK_bind (posOK_checkBankruptcy _ _ hok2) ?_
          intro c e3 he3 hok3
          exact hrest e3 hok3
      · exact hrest e h
    refine ⟨h1, h2, h3, ?_⟩
    intro pid e h
    have hdraw : ∀ e1 : Eng, PosOK e1 → PosOK (Res.state ((do
        let g ← getGame
        match g.deck with
        | [] => pure ()
        | card :: rest =>
        match g.getPlayer pid with
        | none => pure ()
        | some player => do
          modifyGame (fun g => { g with deck := rest })
          logM (player.name ++ " puxou carta: " ++ card.title)
          applyCardEffect f pid card player.name) e1)) := by
      intro e1 hok1
      refine posOK_bind_getGame (fun h2 => ?_) hok1
      cases hd : e1.game.deck with
      | nil => exact h2
      | cons card rest =>
        simp only []
        cases hp : e1.game.getPlayer pid with
        | none => exact h2
        | some player =>
          simp only []
          have hcard : card ∈ EVENT_CARDS :=
            h2.2.2.1 card (by rw [hd]; exact List.mem_cons_self _ _)
          refine posOK_bind ?_ ?_
          · exact ⟨h2.1, h2.2.1,
              fun c hc => h2.2.2.1 c (by rw [hd]; exact List.mem_cons_of_mem _ hc),
              h2.2.2.2⟩
          · intro a e2 he2 h3
            refine posOK_bind (posOK_logM _ _ h3) ?_
            intro b e3 he3 h4
            exact ih.2.2.1 pid card player.name e3 (eventCards_toPosition card hcard) h4
    unfold handleEvent
    refine posOK_bind_getGame (fun h0 => ?_) h
    split
    · refine posOK_bind ?_ ?_
      · rcases popShuf_cases EVENT_CARDS e with ⟨hs, heq⟩ | ⟨l, rest, hs, heq⟩ <;> rw [heq]
        · exact h0
        · exact ⟨h0.1, h0.2.1, h0.2.2.1,
            fun l2 hl2 => h0.2.2.2 l2 (by rw [hs]; exact List.mem_cons_of_mem _ hl2)⟩
      · intro fresh e1 he1 h1
        have hfresh : ∀ c ∈ fresh, c ∈ EVENT_CARDS := by
          rcases popShuf_cases EVENT_CARDS e with ⟨hs, heq⟩ | ⟨l, rest, hs, heq⟩ <;>
            rw [heq] at he1
          · injection he1 with hfe hee
            subst hfe
            intro c hc
            exact hc
          · injection he1 with hfe hee
            subst hfe
            exact h0.2.2.2 _ (by rw [hs]; exact List.mem_cons_self _ _)
        refine posOK_bind ?_ ?_
        · exact ⟨h1.1, h1.2.1, hfresh, h1.2.2.2⟩
        · intro a e2 he2 h2
          exact hdraw e2 h2
    · exact hdraw e h0

theorem posOK_landAndResolve (pid rolledMsg : String) (total : Int) (e : Eng)
    (h : PosOK e) : PosOK (Res.state (landAndResolve pid rolledMsg total e)) := by
  unfold landAndResolve
  refine posOK_bind (posOK_movePlayer _ _ _ h) ?_
  intro a e1 he1 h1
  refine posOK_bind (posOK_logM _ _ h1) ?_
  intro b e2 he2 h2
  refine posOK_bind ((posOK_resolve RESOLVE_FUEL).2.1 _ _ _ h2) ?_
  intro c e3 he3 h3
  exact posOK_checkVictory _ h3

theorem posOK_addPlayer (name id : String) (e : Eng) (h : PosOK e) :
    PosOK (Res.state (addPlayer name id e)) := by
  unfold addPlayer
  refine posOK_bind_getGame (fun h0 => ?_) h
  split
  · exact h0
  · simp only []
    refine posOK_bind ?_ ?_
    · obtain ⟨h1, h2, h3, h4⟩ := h0
      refine ⟨h1, ?_, h3, h4⟩
      intro q hq
      rcases List.mem_append.mp hq with hmem | hmem
      · exact h2 q hmem
      · rcases List.mem_singleton.mp hmem with rfl
        show (0 : Nat) < e.game.tiles.length
        omega
    · intro a e1 he1 h1
      refine posOK_bind (posOK_logM _ _ h1) ?_
      intro b e2 he2 h2
      exact h2

theorem posOK_startGame (e : Eng) (h : PosOK e) :
    PosOK (Res.state (startGame e)) := by
  unfold startGame
  refine posOK_bind_getGame (fun h0 => ?_) h
  split
  · exact h0
  · split
    · exact h0
    · refine posOK_bind ?_ ?_
      · exact h0
      · intro a e1 he1 h1
        refine posOK_bind_getGame (fun h2 => ?_) h1
        split
        · refine posOK_bind ?_ ?_
          · exact h2
          · intro starting e2 he2 h3
            refine posOK_bind ?_ ?_
            · exact h3
            · intro b e3 he3 h4
              exact posOK_logM _ _ h4
        · refine posOK_bind ?_ ?_
          · unfold nextAlivePlayerM
            refine posOK_bind_getGame (fun h3 => ?_) h2
            split
            · exact h2
            · exact h2
          · intro starting e2 he2 h3
            refine posOK_bind ?_ ?_
            · exact h3
            · intro b e3 he3 h4
              exact posOK_logM _ _ h4

theorem posOK_reconnect (pid : String) (e : Eng) (h : PosOK e) :
    PosOK (Res.state (reconnect pid e)) := by
  unfold reconnect
  refine posOK_bind_getGame (fun h0 => ?_) h
  cases hp : e.game.getPlayer pid with
  | none => exact h0
  | some p =>
    simp only []
    refine posOK_bind (posOK_updatePlayerM _ _ _ (fun q hq => hq) h0) ?_
    intro a e1 he1 h1
    exact h1

theorem posOK_rollDice (pid : String) (d1 d2 : Nat) (e : Eng) (h : PosOK e) :
    PosOK (Res.state (rollDice pid d1 d2 e)) := by
  unfold rollDice
  refine posOK_bind ?_ ?_
  · rcases ensureActivePlayer_split pid e with ⟨_, _, hok⟩ | ⟨m, herr⟩
    · rw [hok]; exact h
    · rw [herr]; exact h
  · intro a e0 he0 h0
    refine posOK_bind_getGame (fun h1 => ?_) h0
    cases hp : e0.game.getPlayer pid with
    | none => exact h1
    | some player =>
      simp only []
      split
      · exact h1
      · split
        · exact h1
        · split
          · exact h1
          · refine posOK_bind ?_ ?_
            · exact h1
            · intro b e1 he1 h2
              split
              · split
                · refine posOK_bind (posOK_updatePlayerM _ _ _ (fun q hq => hq) h2) ?_
                  intro c e2 he2 h3
                  refine posOK_bind (posOK_logM _ _ h3) ?_
                  intro d e3 he3 h4
                  refine posOK_bind (posOK_landAndResolve _ _ _ _ h4) ?_
                  intro x e4 he4 h5
                  exact h5
                · split
                  · refine posOK_bind (posOK_chargeBank _ _ _ _ h2) ?_
                    intro c e2 he2 h3
                    refine posOK_bind_getGame (fun h4 => ?_) h3
                    split
                    · exact h4
                    · refine posOK_bind (posOK_updatePlayerM _ _ _ (fun q hq => hq) h4) ?_
                      intro d e3 he3 h5
                      refine posOK_bind (posOK_landAndResolve _ _ _ _ h5) ?_
                      intro x e4 he4 h6
                      exact h6
                  · refine posOK_bind (posOK_updatePlayerM _ _ _ (fun q hq => hq) h2) ?_
                    intro c e2 he2 h3
                    refine posOK_bind (posOK_logM _ _ h3) ?_
                    intro d e3 he3 h4
                    exact h4
              · refine posOK_bind (posOK_landAndResolve _ _ _ _ h2) ?_
                intro c e2 he2 h3
                exact h3

theorem posOK_buyProperty (pid tid : String) (e : Eng) (h : PosOK e) :
    PosOK (Res.state (buyProperty pid tid e)) := by
  unfold buyProperty
  refine posOK_bind ?_ ?_
  · rcases ensureActivePlayer_split pid e with ⟨_, _, hok⟩ | ⟨m, herr⟩
    · rw [hok]; exact h
    · rw [herr]; exact h
  · intro a e0 he0 h0
    refine posOK_bind_getGame (fun h1 => ?_) h0
    cases hp : e0.game.getPlayer pid with
    | none => exact h1
    | some player =>
      simp only []
      split
      · exact h1
      · cases hq : e0.game.getProperty tid with
        | none => exact h1
        | some tile =>
          simp only []
          split
          · exact h1
          · split
            · exact h1
            · refine posOK_bind (posOK_updatePlayerM _ _ _ (fun q hq => hq) h1) ?_
              intro b e1 he1 h2
              refine posOK_bind (posOK_updateTileByIdM _ _ _ h2) ?_
              intro c e2 he2 h3
              refine posOK_bind ?_ ?_
              · exact h3
              · intro d e3 he3 h4
                refine posOK_bind (posOK_logM _ _ h4) ?_
                intro x e4 he4 h5
                exact posOK_checkVictory _ h5

theorem posOK_passPurchase (pid : String) (e : Eng) (h : PosOK e) :
    PosOK (Res.state (passPurchase pid e)) := by
  unfold passPurchase
  refine posOK_bind ?_ ?_
  · rcases ensureActivePlayer_split pid e with ⟨_, _, hok⟩ | ⟨m, herr⟩
    · rw [hok]; exact h
    · rw [herr]; exact h
  · intro a e0 he0 h0
    refine posOK_bind_getGame (fun h1 => ?_) h0
    split
    · exact h1
    · refine posOK_bind ?_ ?_
      · exact h1
      · intro b e1 he1 h2
        exact posOK_logM _ _ h2

theorem posOK_upgradeProperty (pid tid : String) (e : Eng) (h : PosOK e) :
    PosOK (Res.state (upgradeProperty pid tid e)) := by
  unfold upgradeProperty
  refine posOK_bind ?_ ?_
  · rcases ensureActivePlayer_split pid e with ⟨_, _, hok⟩ | ⟨m, herr⟩
    · rw [hok]; exact h
    · rw [herr]; exact h
  · intro a e0 he0 h0
    refine posOK_bind_getGame (fun h1 => ?_) h0
    cases hp : e0.game.getPlayer pid with
    | none => exact h1
    | some player =>
      simp only []
      cases hq : e0.game.getProperty tid with
      | none => exact h1
      | some tile =>
        simp only []
        split
        · exact h1
        · split
          · exact h1
          · split
            · exact h1
            · split
              · exact h1
              · cases hc : propertyUpgradeCost tile with
                | none => exact h1
                | some cost =>
                  simp only []
                  split
                  · exact h1
                  · refine posOK_bind (posOK_updatePlayerM _ _ _ (fun q hq => hq) h1) ?_
                    intro b e1 he1 h2
                    refine posOK_bind (posOK_updateTileByIdM _ _ _ h2) ?_
                    intro c e2 he2 h3
                    refine posOK_bind ?_ ?_
                    · exact h3
                    · intro d e3 he3 h4
                      refine posOK_bind (posOK_logM _ _ h4) ?_
                      intro x e4 he4 h5
                      exact posOK_checkBankruptcy _ _ h5

theorem posOK_payBail (pid : String) (e : Eng) (h : PosOK e) :
    PosOK (Res.state (payBail pid e)) := by
  unfold payBail
  refine posOK_bind ?_ ?_
  · rcases ensureActivePlayer_split pid e with ⟨_, _, hok⟩ | ⟨m, herr⟩
    · rw [hok]; exact h
    · rw [herr]; exact h
  · intro a e0 he0 h0
    refine posOK_bind_getGame (fun h1 => ?_) h0
    cases hp : e0.game.getPlayer pid with
    | none => exact h1
    | some player =>
      simp only []
      split
      · exact h1
      · split
        · exact h1
        · split
          · exact h1
          · refine posOK_bind (posOK_updatePlayerM _ _ _ (fun q hq => hq) h1) ?_
            intro b e1 he1 h2
            refine posOK_bind (posOK_logM _ _ h2) ?_
            intro c e2 he2 h3
            exact posOK_checkBankruptcy _ _ h3

theorem posOK_endTurn (pid : String) (e : Eng) (h : PosOK e) :
    PosOK (Res.state (endTurn pid e)) := by
  unfold endTurn
  refine posOK_bind ?_ ?_
  · rcases ensureActivePlayer_split pid e with ⟨_, _, hok⟩ | ⟨m, herr⟩
    · rw [hok]; exact h
    · rw [herr]; exact h
  · intro a e0 he0 h0
    refine posOK_bind_getGame (fun h1 => ?_) h0
    split
    · exact h1
    · cases hp : e0.game.getPlayer pid with
      | none => exact h1
      | some player =>
        simp only []
        split
        · split
          · exact h1
          · exact h1
        · exact posOK_advanceTurn _ h1

theorem posOK_finishByNetWorth (e : Eng) (h : PosOK e) :
    PosOK (Res.state (finishByNetWorth e)) := by
  unfold finishByNetWorth
  refine posOK_bind_getGame (fun h0 => ?_) h
  split
  · exact h0
  · cases hf : e.game.players.filter (fun p => !p.bankrupt) with
    | nil => exact h0
    | cons a l =>
      simp only []
      cases hs : sortByDesc (fun p => netWorth e.game p.id) (a :: l) with
      | nil => exact h0
      | cons richest tl =>
        simp only []
        refine posOK_bind ?_ ?_
        · exact h0
        · intro b e1 he1 h1
          exact posOK_logM _ _ h1

/-- **C10.**  Every public engine operation preserves the invariant that each
player's position is an integer in `[0, N-1]`, where `N` is the board length
(20 for the default board), given the default board and a deck and reshuffle
stream holding only the default event cards — the invariant `PosOK`.  The
preservation holds for the state the operation ends in, whether it returns
or throws. -/
theorem claim_C10_positionInvariant (e : Eng) (h : PosOK e) :
    (∀ name id, PosOK (Res.state (addPlayer name id e))) ∧
    PosOK (Res.state (startGame e)) ∧
    (∀ pid, PosOK (Res.state (reconnect pid e))) ∧
    (∀ pid d1 d2, PosOK (Res.state (rollDice pid d1 d2 e))) ∧
    (∀ pid tid, PosOK (Res.state (buyProperty pid tid e))) ∧
    (∀ pid, PosOK (Res.state (passPurchase pid e))) ∧
    (∀ pid tid, PosOK (Res.state (upgradeProperty pid tid e))) ∧
    (∀ pid, PosOK (Res.state (payBail pid e))) ∧
    (∀ pid, PosOK (Res.state (endTurn pid e))) ∧
    PosOK (Res.state (finishByNetWorth e)) :=
  ⟨fun name id => posOK_addPlayer name id e h,
   posOK_startGame e h,
   fun pid => posOK_reconnect pid e h,
   fun pid d1 d2 => posOK_rollDice pid d1 d2 e h,
   fun pid tid => posOK_buyProperty pid tid e h,
   fun pid => posOK_passPurchase pid e h,
   fun pid tid => posOK_upgradeProperty pid tid e h,
   fun pid => posOK_payBail pid e h,
   fun pid => posOK_endTurn pid e h,
   posOK_finishByNetWorth e h⟩

/-- Witness for C10 at a concrete state: the two-player active game
satisfies the invariant, and it is preserved across a full `rollDice`. -/
theorem claim_C10_positionInvariant_witness :
    PosOK ⟨sampleActive, []⟩ ∧
    PosOK (Res.state (rollDice "H" 2 3 ⟨sampleActive, []⟩)) :=
  ⟨by decide,
   (claim_C10_positionInvariant ⟨sampleActive, []⟩ (by decide)).2.2.2.1 "H" 2 3⟩

/-! ## Reachability invariants: list infrastructure -/

theorem updateFirst_updateFirst {α : Type} (p : α → Bool) (f g : α → α)
    (hf : ∀ a, p (f a) = p a) :
    ∀ l : List α, updateFirst p g (updateFirst p f l) =
      updateFirst p (fun a => g (f a)) l := by
  intro l
  induction l with
  | nil => rfl
  | cons x xs ih =>
    rw [updateFirst]
    by_cases hx : p x = true
    · rw [if_pos hx, updateFirst, if_pos (by rw [hf]; exact hx), updateFirst, if_pos hx]
    · rw [if_neg hx, updateFirst, if_neg hx, updateFirst, if_neg hx, ih]

theorem mem_updateFirst_cases {α : Type} (p : α → Bool) (f : α → α) :
    ∀ (l : List α) (a : α), a ∈ updateFirst p f l →
      a ∈ l ∨ ∃ b, l.find? p = some b ∧ a = f b := by
  intro l
  induction l with
  | nil => intro a ha; simp [updateFirst] at ha
  | cons x xs ih =>
    intro a ha
    rw [updateFirst] at ha
    by_cases hx : p x = true
    · rw [if_pos hx] at ha
      rcases List.mem_cons.mp ha with rfl | hmem
      · right
        exact ⟨x, by rw [List.find?_cons_of_pos _ hx], rfl⟩
      · left
        exact List.mem_cons_of_mem x hmem
    · rw [if_neg hx] at ha
      rcases List.mem_cons.mp ha with rfl | hmem
      · left
        exact List.mem_cons_self _ _
      · rcases ih a hmem with hin | ⟨b, hb, rfl⟩
        · exact Or.inl (List.mem_cons_of_mem x hin)
        · right
          exact ⟨b, by rw [List.find?_cons_of_neg _ (by simpa using hx)]; exact hb, rfl⟩

theorem find?_id_cons_pos (pid : String) (a : PlayerState) (l : List PlayerState)
    (h : (a.id == pid) = true) :
    (a :: l).find? (fun y => y.id == pid) = some a :=
  List.find?_cons_of_pos l h

theorem find?_id_cons_neg (pid : String) (a : PlayerState) (l : List PlayerState)
    (h : ¬(a.id == pid) = true) :
    (a :: l).find? (fun y => y.id == pid) = l.find? (fun y => y.id == pid) :=
  List.find?_cons_of_neg l (by simpa using h)

theorem find?_bankrupt_updateFirst (p : PlayerState → Bool) (f : PlayerState → PlayerState)
    (pid : String) (hid : ∀ q, (f q).id = q.id) (hb : ∀ q, (f q).bankrupt = q.bankrupt) :
    ∀ l : List PlayerState,
      ((updateFirst p f l).find? (fun x => x.id == pid)).map PlayerState.bankrupt =
        (l.find? (fun x => x.id == pid)).map PlayerState.bankrupt := by
  intro l
  induction l with
  | nil => rfl
  | cons x xs ih =>
    rw [updateFirst]
    by_cases hx : p x = true
    · rw [if_pos hx]
      by_cases hm : (x.id == pid) = true
      · rw [find?_id_cons_pos pid (f x) xs (by rw [hid]; exact hm),
          find?_id_cons_pos pid x xs hm]
        simp [hb]
      · rw [find?_id_cons_neg pid (f x) xs (by rw [hid]; exact hm),
          find?_id_cons_neg pid x xs hm]
    · rw [if_neg hx]
      by_cases hm : (x.id == pid) = true
      · rw [find?_id_cons_pos pid x (updateFirst p f xs) hm,
          find?_id_cons_pos pid x xs hm]
      · rw [find?_id_cons_neg pid x (updateFirst p f xs) hm,
          find?_id_cons_neg pid x xs hm]
        exact ih

theorem forall₂_updateFirst {α : Type} (R : α → α → Prop) (p : α → Bool) (f : α → α)
    (hRf : ∀ a, R a (f a)) (hRr : ∀ a, R a a) :
    ∀ l : List α, List.Forall₂ R l (updateFirst p f l) := by
  intro l
  induction l with
  | nil => exact List.Forall₂.nil
  | cons x xs ih =>
    rw [updateFirst]
    by_cases hx : p x = true
    · rw [if_pos hx]
      exact List.Forall₂.cons (hRf x) (List.forall₂_same.mpr fun a _ => hRr a)
    · rw [if_neg hx]
      exact List.Forall₂.cons (hRr x) ih

theorem forall₂_trans_comp {α : Type} {R S T : α → α → Prop}
    (hcomp : ∀ a b c, R a b → S b c → T a c) :
    ∀ {l₁ l₂ l₃ : List α}, List.Forall₂ R l₁ l₂ → List.Forall₂ S l₂ l₃ →
      List.Forall₂ T l₁ l₃ := by
  intro l₁ l₂ l₃ h1 h2
  induction h1 generalizing l₃ with
  | nil =>
    cases h2
    exact List.Forall₂.nil
  | cons hab h ih =>
    cases h2 with
    | cons hbc h2tl => exact List.Forall₂.cons (hcomp _ _ _ hab hbc) (ih h2tl)

/-- The relation preserved by every player-list mutation of the engine:
ids are stable and the bankrupt flag is never cleared (new players may be
appended at the end). -/
def PlayersMono (l l' : List PlayerState) : Prop :=
  ∃ l₀ ext, l' = l₀ ++ ext ∧
    List.Forall₂ (fun p q => p.id = q.id ∧ (p.bankrupt = true → q.bankrupt = true)) l l₀

theorem playersMono_refl (l : List PlayerState) : PlayersMono l l :=
  ⟨l, [], by simp, List.forall₂_same.mpr fun a _ => ⟨rfl, fun h => h⟩⟩

theorem forall₂_append_split {α : Type} {R : α → α → Prop} :
    ∀ {l₁ l₂ l : List α}, List.Forall₂ R (l₁ ++ l₂) l →
      ∃ m₁ m₂, l = m₁ ++ m₂ ∧ List.Forall₂ R l₁ m₁ ∧ List.Forall₂ R l₂ m₂ := by
  intro l₁
  induction l₁ with
  | nil =>
    intro l₂ l h
    exact ⟨[], l, rfl, List.Forall₂.nil, by simpa using h⟩
  | cons x xs ih =>
    intro l₂ l h
    cases h with
    | cons hxy htl =>
      obtain ⟨m₁, m₂, rfl, h1, h2⟩ := ih htl
      exact ⟨_ :: m₁, m₂, rfl, List.Forall₂.cons hxy h1, h2⟩

theorem playersMono_trans {l₁ l₂ l₃ : List PlayerState}
    (h1 : PlayersMono l₁ l₂) (h2 : PlayersMono l₂ l₃) : PlayersMono l₁ l₃ := by
  obtain ⟨a₀, aext, rfl, hfa⟩ := h1
  obtain ⟨b₀, bext, rfl, hfb⟩ := h2
  rcases forall₂_append_split hfb with ⟨c₀, c₁, rfl, hfc, _⟩
  refine ⟨c₀, c₁ ++ bext, by simp, ?_⟩
  exact forall₂_trans_comp
    (fun a b c hab hbc => ⟨hab.1.trans hbc.1, fun h => hbc.2 (hab.2 h)⟩) hfa hfc

theorem playersMono_updateFirst (p : PlayerState → Bool) (f : PlayerState → PlayerState)
    (hid : ∀ q, (f q).id = q.id) (hb : ∀ q, q.bankrupt = true → (f q).bankrupt = true)
    (l : List PlayerState) : PlayersMono l (updateFirst p f l) :=
  ⟨updateFirst p f l, [], by simp,
    forall₂_updateFirst _ p f (fun a => ⟨(hid a).symm, hb a⟩) (fun a => ⟨rfl, fun h => h⟩) l⟩

theorem playersMono_append (l ext : List PlayerState) : PlayersMono l (l ++ ext) :=
  ⟨l, ext, rfl, List.forall₂_same.mpr fun a _ => ⟨rfl, fun h => h⟩⟩

theorem forall₂_filter_bankrupt {l l' : List PlayerState}
    (h : List.Forall₂ (fun a b => a.id = b.id ∧ a.bankrupt = b.bankrupt) l l') :
    List.Forall₂ (fun a b => a.id = b.id ∧ a.bankrupt = b.bankrupt)
      (l.filter (fun p => !p.bankrupt)) (l'.filter (fun p => !p.bankrupt)) := by
  induction h with
  | nil => exact List.Forall₂.nil
  | cons hab htl ih =>
    rename_i a b l₁ l₂
    rw [List.filter_cons, List.filter_cons]
    by_cases hb : (!a.bankrupt) = true
    · rw [if_pos hb, if_pos (by rw [← hab.2]; exact hb)]
      exact List.Forall₂.cons hab ih
    · rw [if_neg hb, if_neg (by rw [← hab.2]; exact hb)]
      exact ih

theorem forall₂_singleton_right {α : Type} {R : α → α → Prop} {l : List α} {q : α}
    (h : List.Forall₂ R l [q]) : ∃ p, l = [p] ∧ R p q := by
  cases h with
  | cons hab htl =>
    cases htl
    exact ⟨_, rfl, hab⟩

theorem mem_modify_cases {α : Type} (f : α → α) (l : List α) (i : Nat) (a : α)
    (ha : a ∈ l.modify f i) : a ∈ l ∨ ∃ b, b ∈ l ∧ a = f b := by
  rw [List.mem_iff_getElem?] at ha
  obtain ⟨j, hj⟩ := ha
  rw [List.getElem?_modify] at hj
  cases hl : l[j]? with
  | none => rw [hl] at hj; simp at hj
  | some b =>
    rw [hl] at hj
    simp only [Option.map_some] at hj
    by_cases hij : i = j
    · rw [if_pos hij] at hj
      right
      refine ⟨b, List.mem_iff_getElem?.mpr ⟨j, hl⟩, ?_⟩
      injection hj with hj2
      exact hj2.symm
    · rw [if_neg hij] at hj
      left
      have hba : b = a := by injection hj
      exact hba ▸ List.mem_iff_getElem?.mpr ⟨j, hl⟩

theorem length_filter_updateFirst_flip (pid : String) :
    ∀ (l : List PlayerState) (p : PlayerState),
      l.find? (fun x => x.id == pid) = some p → p.bankrupt = false →
      ((updateFirst (fun x => x.id == pid)
          (fun q => { q with bankrupt := true, inJailTurns := 0 }) l).filter
        (fun x => !x.bankrupt)).length + 1 =
      (l.filter (fun x => !x.bankrupt)).length := by
  intro l
  induction l with
  | nil => intro p hfind _; simp [List.find?] at hfind
  | cons a as ih =>
    intro p hfind hal
    by_cases ha : (a.id == pid) = true
    · rw [find?_id_cons_pos pid a as ha] at hfind
      injection hfind with hpa
      subst hpa
      rw [updateFirst, if_pos ha, List.filter_cons, List.filter_cons]
      simp [hal]
    · rw [find?_id_cons_neg pid a as ha] at hfind
      have ihh := ih p hfind hal
      rw [updateFirst, if_neg ha, List.filter_cons, List.filter_cons]
      by_cases hb : (!a.bankrupt) = true
      · rw [if_pos hb, if_pos hb]
        simp only [List.length_cons]
        omega
      · rw [if_neg hb, if_neg hb]
        exact ihh

/-! ## The master reachability invariant -/

/-- The local (per-player-independent) part of the master invariant of
reachable engine states (claims C2, C3, C9): the deck and reshuffle stream
hold default event cards; player ids are distinct (every `nanoid` is fresh);
an active game has at least two non-bankrupt players; a finished game has a
non-bankrupt player, and a single non-bankrupt player is the recorded
winner; at most one turn flag is truthy; before the roll both flags are
clear; in the lobby nobody is bankrupt; sanitized settings and the board
keep cash bonuses and rents non-negative. -/
structure InvCore (e : Eng) : Prop where
  deckOK : ∀ c ∈ e.game.deck, c ∈ EVENT_CARDS
  shufsOK : ∀ l ∈ e.shufs, ∀ c ∈ l, c ∈ EVENT_CARDS
  idsNodup : (e.game.players.map PlayerState.id).Nodup
  activeTwo : e.game.status = .active →
    2 ≤ (e.game.players.filter (fun p => !p.bankrupt)).length
  finishedAlive : e.game.status = .finished →
    e.game.players.filter (fun p => !p.bankrupt) ≠ []
  finishedWinner : ∀ q, e.game.status = .finished →
    e.game.players.filter (fun p => !p.bankrupt) = [q] →
    e.game.winnerId = some q.id
  mutex : ¬(truthyS e.game.turn.awaitingPurchase = true ∧
    truthyS e.game.turn.awaitingUpgrade = true)
  rolledFlags : e.game.turn.rolled = false →
    e.game.turn.awaitingPurchase = none ∧ e.game.turn.awaitingUpgrade = none
  lobbyClean : e.game.status = .lobby → ∀ p ∈ e.game.players, p.bankrupt = false
  settingsOK : 0 ≤ e.game.settings.startingCash ∧ 0 ≤ e.game.settings.passStartBonus
  rentOK : ∀ t ∈ e.game.tiles, 0 ≤ t.baseRent

/-- A player whose money is negative is bankrupt. -/
def MoneyOK (e : Eng) : Prop :=
  ∀ p ∈ e.game.players, p.money < 0 → p.bankrupt = true

/-- The full master invariant. -/
def Inv (e : Eng) : Prop := InvCore e ∧ MoneyOK e

/-- Mid-chain safety for the acting player `pid`: the game did not start in
the lobby, and if it has finished mid-chain the acting player is the one who
went bankrupt. -/
def FinSafe (pid : String) (e : Eng) : Prop :=
  e.game.status ≠ .lobby ∧
  (e.game.status = .finished →
    ∀ p0, e.game.getPlayer pid = some p0 → p0.bankrupt = true)

/-- What a chain step guarantees: the invariant again, monotone bankruptcy,
mid-chain safety, and a preserved `rolled` flag. -/
def ChainOut (pid : String) (e e' : Eng) : Prop :=
  Inv e' ∧ PlayersMono e.game.players e'.game.players ∧ FinSafe pid e' ∧
  e'.game.turn.rolled = e.game.turn.rolled

theorem chainOut_trans {pid : String} {e1 e2 e3 : Eng}
    (h1 : ChainOut pid e1 e2) (h2 : ChainOut pid e2 e3) : ChainOut pid e1 e3 :=
  ⟨h2.1, playersMono_trans h1.2.1 h2.2.1, h2.2.2.1, h2.2.2.2.trans h1.2.2.2⟩

theorem chainOut_refl {pid : String} {e : Eng} (h : Inv e) (hf : FinSafe pid e) :
    ChainOut pid e e :=
  ⟨h, playersMono_refl _, hf, rfl⟩

theorem chainOut_bind {pid : String} {α β : Type} {m : M α} {k : α → M β} {e : Eng}
    (hm : ChainOut pid e (Res.state (m e)))
    (hk : ∀ a e', m e = .ok a e' → ChainOut pid e e' →
      ChainOut pid e' (Res.state (k a e'))) :
    ChainOut pid e (Res.state ((m >>= k) e)) := by
  rw [bind_apply]
  cases h : m e with
  | ok a e' =>
    rw [h] at hm
    exact chainOut_trans hm (hk a e' h hm)
  | err msg e' =>
    rw [h] at hm
    exact hm

theorem chainOut_bind_getGame {pid : String} {β : Type} {k : GameState → M β} {e : Eng}
    (hk : ChainOut pid e (Res.state (k e.game e))) :
    ChainOut pid e (Res.state ((getGame >>= k) e)) := by
  rw [bind_apply, getGame_apply]
  exact hk

theorem map_id_updateFirst (p : PlayerState → Bool) (f : PlayerState → PlayerState)
    (hid : ∀ q, (f q).id = q.id) :
    ∀ l : List PlayerState,
      (updateFirst p f l).map PlayerState.id = l.map PlayerState.id := by
  intro l
  induction l with
  | nil => rfl
  | cons x xs ih =>
    rw [updateFirst]
    split
    · simp [hid]
    · simp [ih]

theorem checkVictory_finished_noop (e : Eng) (hf : e.game.status = .finished) :
    checkVictory e = .ok () e := by
  unfold checkVictory
  simp only [bind_apply, getGame_apply]
  rw [if_pos hf]
  rfl

theorem checkVictory_noop (e : Eng) (h : Inv e) (hs : e.game.status ≠ .lobby) :
    checkVictory e = .ok () e := by
  by_cases hf : e.game.status = .finished
  · exact checkVictory_finished_noop e hf
  · have hact : e.game.status = .active := by
      cases hstatus : e.game.status
      · exact absurd hstatus hs
      · rfl
      · exact absurd hstatus hf
    have h2 := h.1.activeTwo hact
    unfold checkVictory
    simp only [bind_apply, getGame_apply]
    rw [if_neg hf]
    cases hfl : e.game.players.filter (fun p => !p.bankrupt) with
    | nil => rfl
    | cons q tl =>
      cases tl with
      | nil =>
        rw [hfl] at h2
        simp at h2
      | cons r tl2 => rfl

theorem chainOut_updatePlayerM (pid target : String) (f : PlayerState → PlayerState)
    (e : Eng) (h : Inv e) (hfs : FinSafe pid e)
    (hid : ∀ q, (f q).id = q.id)
    (hb : ∀ q, (f q).bankrupt = q.bankrupt)
    (hB : ∀ b, e.game.players.find? (fun x => x.id == target) = some b →
      (f b).money < 0 → b.money < 0) :
    ChainOut pid e (Res.state (updatePlayerM target f e)) := by
  have hfa : List.Forall₂ (fun a b => a.id = b.id ∧ a.bankrupt = b.bankrupt)
      e.game.players (updateFirst (fun x => x.id == target) f e.game.players) :=
    forall₂_updateFirst _ _ f (fun q => ⟨(hid q).symm, (hb q).symm⟩)
      (fun q => ⟨rfl, rfl⟩) e.game.players
  have hff := forall₂_filter_bankrupt hfa
  have hlen := List.Forall₂.length_eq hff
  refine ⟨⟨?_, ?_⟩, ?_, ⟨?_, ?_⟩, rfl⟩
  · constructor
    · exact h.1.deckOK
    · exact h.1.shufsOK
    · show ((updateFirst (fun x => x.id == target) f e.game.players).map
        PlayerState.id).Nodup
      rw [map_id_updateFirst _ f hid]
      exact h.1.idsNodup
    · intro hs'
      show 2 ≤ ((updateFirst (fun x => x.id == target) f e.game.players).filter
        (fun p => !p.bankrupt)).length
      rw [← hlen]
      exact h.1.activeTwo hs'
    · intro hs' heq
      have : (e.game.players.filter (fun p => !p.bankrupt)).length = 0 := by
        rw [hlen]
        rw [show ((updateFirst (fun x => x.id == target) f e.game.players).filter
          (fun p => !p.bankrupt)) = [] from heq]
        rfl
      exact h.1.finishedAlive hs' (List.length_eq_zero.mp this)
    · intro q hs' hsing
      have hsing2 : List.Forall₂ (fun a b => a.id = b.id ∧ a.bankrupt = b.bankrupt)
          (e.game.players.filter (fun p => !p.bankrupt)) [q] := by
        rw [← show ((updateFirst (fun x => x.id == target) f e.game.players).filter
          (fun p => !p.bankrupt)) = [q] from hsing]
        exact hff
      obtain ⟨p0, hp0, hrel⟩ := forall₂_singleton_right hsing2
      have hw := h.1.finishedWinner p0 hs' hp0
      show e.game.winnerId = some q.id
      rw [hw, hrel.1]
    · exact h.1.mutex
    · exact h.1.rolledFlags
    · intro hlob a hmem
      rcases mem_updateFirst_cases _ f e.game.players a hmem with hin | ⟨b, hbfind, rfl⟩
      · exact h.1.lobbyClean hlob a hin
      · rw [hb b]
        exact h.1.lobbyClean hlob b (List.mem_of_find?_eq_some hbfind)
    · exact h.1.settingsOK
    · exact h.1.rentOK
  · intro a hmem hneg
    rcases mem_updateFirst_cases _ f e.game.players a hmem with hin | ⟨b, hbfind, rfl⟩
    · exact h.2 a hin hneg
    · rw [hb b]
      exact h.2 b (List.mem_of_find?_eq_some hbfind) (hB b hbfind hneg)
  · exact playersMono_updateFirst _ f hid (fun q hq => by rw [hb q]; exact hq) _
  · exact hfs.1
  · intro hfin p0 hp0
    have hmap := find?_bankrupt_updateFirst (fun x => x.id == target) f pid hid hb
      e.game.players
    rw [show ((updateFirst (fun x => x.id == target) f e.game.players).find?
      (fun x => x.id == pid)) = some p0 from hp0] at hmap
    cases hfp : e.game.players.find? (fun x => x.id == pid) with
    | none =>
      rw [hfp] at hmap
      simp at hmap
    | some p1 =>
      rw [hfp] at hmap
      have hmap2 : p0.bankrupt = p1.bankrupt := by simpa using hmap
      rw [hmap2]
      exact hfs.2 hfin p1 hfp

theorem mem_updateFirst_of_id (pid : String) (f : PlayerState → PlayerState) :
    ∀ l : List PlayerState, (l.map PlayerState.id).Nodup →
      ∀ a ∈ updateFirst (fun x => x.id == pid) f l, a.id = pid →
      ∀ b, l.find? (fun x => x.id == pid) = some b → a = f b := by
  intro l
  induction l with
  | nil => intro _ a ha; simp [updateFirst] at ha
  | cons x xs ih =>
    intro hnd a ha haid b hfind
    have hnd2 : (x.id :: xs.map PlayerState.id).Nodup := by simpa using hnd
    by_cases hx : (x.id == pid) = true
    · rw [find?_id_cons_pos pid x xs hx] at hfind
      injection hfind with hbx
      subst hbx
      rw [updateFirst, if_pos hx] at ha
      rcases List.mem_cons.mp ha with rfl | hmem
      · rfl
      · exfalso
        have hxid : x.id = pid := by simpa using hx
        have hamem : a.id ∈ xs.map PlayerState.id := List.mem_map_of_mem _ hmem
        rw [haid, ← hxid] at hamem
        exact (List.nodup_cons.mp hnd2).1 hamem
    · rw [find?_id_cons_neg pid x xs hx] at hfind
      rw [updateFirst, if_neg hx] at ha
      rcases List.mem_cons.mp ha with rfl | hmem
      · exact absurd (by simp [haid]) hx
      · exact ih (List.nodup_cons.mp hnd2).2 a hmem haid b hfind

theorem inv_frame {e e' : Eng} (h : Inv e)
    (hpl : e'.game.players = e.game.players)
    (hst : e'.game.status = e.game.status)
    (hwin : e'.game.winnerId = e.game.winnerId)
    (htr : e'.game.turn = e.game.turn)
    (hdk : e'.game.deck = e.game.deck)
    (hsh : e'.shufs = e.shufs)
    (hset : e'.game.settings = e.game.settings)
    (hrent : ∀ t ∈ e'.game.tiles, 0 ≤ t.baseRent) : Inv e' := by
  obtain ⟨hc, hB⟩ := h
  refine ⟨⟨?_, ?_, ?_, ?_, ?_, ?_, ?_, ?_, ?_, ?_, ?_⟩, ?_⟩
  · rw [hdk]; exact hc.deckOK
  · rw [hsh]; exact hc.shufsOK
  · rw [hpl]; exact hc.idsNodup
  · rw [hst, hpl]; exact hc.activeTwo
  · rw [hst, hpl]; exact hc.finishedAlive
  · intro q; rw [hst, hpl, hwin]; exact hc.finishedWinner q
  · rw [htr]; exact hc.mutex
  · rw [htr]; exact hc.rolledFlags
  · rw [hst, hpl]; exact hc.lobbyClean
  · rw [hset]; exact hc.settingsOK
  · exact hrent
  · intro p hp
    rw [hpl] at hp
    exact hB p hp

theorem finSafe_frame {pid : String} {e e' : Eng} (hfs : FinSafe pid e)
    (hpl : e'.game.players = e.game.players)
    (hst : e'.game.status = e.game.status) : FinSafe pid e' := by
  refine ⟨?_, ?_⟩
  · rw [hst]; exact hfs.1
  · intro hfin p0 hp0
    rw [hst] at hfin
    refine hfs.2 hfin p0 ?_
    unfold GameState.getPlayer at hp0 ⊢
    rw [← hpl]
    exact hp0

theorem chainOut_frame {pid : String} {e e' : Eng} (h : Inv e) (hfs : FinSafe pid e)
    (hpl : e'.game.players = e.game.players)
    (hst : e'.game.status = e.game.status)
    (hwin : e'.game.winnerId = e.game.winnerId)
    (htr : e'.game.turn = e.game.turn)
    (hdk : e'.game.deck = e.game.deck)
    (hsh : e'.shufs = e.shufs)
    (hset : e'.game.settings = e.game.settings)
    (hrent : ∀ t ∈ e'.game.tiles, 0 ≤ t.baseRent) : ChainOut pid e e' := by
  refine ⟨inv_frame h hpl hst hwin htr hdk hsh hset hrent, ?_,
    finSafe_frame hfs hpl hst, ?_⟩
  · rw [hpl]
    exact playersMono_refl _
  · rw [htr]

theorem chainOut_logM (pid msg : String) (e : Eng) (h : Inv e) (hfs : FinSafe pid e) :
    ChainOut pid e (Res.state (logM msg e)) :=
  chainOut_frame h hfs rfl rfl rfl rfl rfl rfl rfl h.1.rentOK

theorem chainOut_updateTileAtM (pid : String) (idx : Nat) (f : Tile → Tile) (e : Eng)
    (h : Inv e) (hfs : FinSafe pid e) (hrent : ∀ t, (f t).baseRent = t.baseRent) :
    ChainOut pid e (Res.state (updateTileAtM idx f e)) := by
  refine chainOut_frame h hfs rfl rfl rfl rfl rfl rfl rfl ?_
  intro t ht
  rcases mem_modify_cases f e.game.tiles idx t ht with hin | ⟨b, hbmem, rfl⟩
  · exact h.1.rentOK t hin
  · rw [hrent b]
    exact h.1.rentOK b hbmem

theorem chainOut_updateTileByIdM (pid tid : String) (f : Tile → Tile) (e : Eng)
    (h : Inv e) (hfs : FinSafe pid e) (hrent : ∀ t, (f t).baseRent = t.baseRent) :
    ChainOut pid e (Res.state (updateTileByIdM tid f e)) := by
  refine chainOut_frame h hfs rfl rfl rfl rfl rfl rfl rfl ?_
  intro t ht
  rcases mem_updateFirst_cases _ f e.game.tiles t ht with hin | ⟨b, hbfind, rfl⟩
  · exact h.1.rentOK t hin
  · rw [hrent b]
    exact h.1.rentOK b (List.mem_of_find?_eq_some hbfind)

theorem chainOut_checkBankruptcy (pid : String) (e : Eng)
    (hc : InvCore e) (hfs : FinSafe pid e)
    (hB : ∀ p ∈ e.game.players, p.money < 0 → p.bankrupt = true ∨
      e.game.players.find? (fun x => x.id == pid) = some p) :
    ChainOut pid e (Res.state (checkBankruptcy pid e)) := by
  unfold checkBankruptcy
  refine chainOut_bind_getGame ?_
  cases hp : e.game.getPlayer pid with
  | none =>
    refine chainOut_refl ⟨hc, ?_⟩ hfs
    intro q hq hm
    rcases hB q hq hm with hb | hfind
    · exact hb
    · exfalso
      have h2 : e.game.getPlayer pid = some q := hfind
      rw [hp] at h2
      exact Option.noConfusion h2
  | some p =>
    simp only []
    split
    · rename_i hcond
      refine chainOut_refl ⟨hc, ?_⟩ hfs
      intro q hq hm
      rcases hB q hq hm with hb | hfind
      · exact hb
      · have hqp : q = p := by
          have h2 : e.game.getPlayer pid = some q := hfind
          rw [hp] at h2
          injection h2 with h3
          exact h3.symm
        subst hqp
        rcases hcond with hmon | hbk
        · omega
        · exact hbk
    · rename_i hcond
      have hm : p.money < 0 := by
        by_contra hx
        exact hcond (Or.inl (by omega))
      have hbf : p.bankrupt = false := by
        by_contra hx
        exact hcond (Or.inr (by simpa using hx))
      have hfind : e.game.players.find? (fun x => x.id == pid) = some p := hp
      cases hstat : e.game.status with
      | lobby => exact absurd hstat hfs.1
      | finished =>
        have hbk := hfs.2 hstat p hp
        rw [hbk] at hbf
        exact Bool.noConfusion hbf
      | active =>
        have hmono2 : PlayersMono e.game.players
            (updateFirst (fun x => x.id == pid)
              (fun q => { q with bankrupt := true, inJailTurns := 0 }) e.game.players) :=
          playersMono_updateFirst (fun x => x.id == pid)
            (fun q => { q with bankrupt := true, inJailTurns := 0 })
            (fun q => rfl) (fun q hq => rfl) e.game.players
        have hnodup2 : ((updateFirst (fun x => x.id == pid)
            (fun q => { q with bankrupt := true, inJailTurns := 0 })
            e.game.players).map PlayerState.id).Nodup := by
          rw [map_id_updateFirst (fun x => x.id == pid)
            (fun q => { q with bankrupt := true, inJailTurns := 0 }) (fun q => rfl)]
          exact hc.idsNodup
        have hB2 : ∀ a ∈ updateFirst (fun x => x.id == pid)
            (fun q => { q with bankrupt := true, inJailTurns := 0 }) e.game.players,
            a.money < 0 → a.bankrupt = true := by
          intro a hmem hneg
          rcases mem_updateFirst_cases _ _ e.game.players a hmem with hin | ⟨b, hbfind, rfl⟩
          · rcases hB a hin hneg with hb | hfind2
            · exact hb
            · have hap : a = p := by
                rw [hfind2] at hfind
                injection hfind
              have haid : a.id = pid := by
                have := List.find?_some hfind2
                simpa using this
              have := mem_updateFirst_of_id pid _ e.game.players hc.idsNodup a hmem
                haid p hfind
              rw [this]
          · rfl
        have hfindP2 : (updateFirst (fun x => x.id == pid)
            (fun q => { q with bankrupt := true, inJailTurns := 0 })
            e.game.players).find? (fun x => x.id == pid) =
            some { p with bankrupt := true, inJailTurns := 0 } := by
          rw [find?_updateFirst_eq (fun x : PlayerState => x.id == pid)
            (fun q : PlayerState => { q with bankrupt := true, inJailTurns := 0 })
            (fun a => rfl), hfind]
          rfl
        have hcount := length_filter_updateFirst_flip pid e.game.players p hfind hbf
        have htwo := hc.activeTwo hstat
        have hrent2 : ∀ t ∈ e.game.tiles.map (fun t =>
            if t.type == TileType.property && t.ownerId == some pid then
              { t with ownerId := none } else t), 0 ≤ t.baseRent := by
          intro t ht
          rcases List.mem_map.mp ht with ⟨b, hbmem, rfl⟩
          by_cases hcnd : (b.type == TileType.property && b.ownerId == some pid) = true
          · rw [if_pos hcnd]
            exact hc.rentOK b hbmem
          · rw [if_neg hcnd]
            exact hc.rentOK b hbmem
        simp only [updatePlayerM, bind_apply, modifyGame_apply, logM]
        unfold checkVictory
        simp only [bind_apply, getGame_apply]
        rw [if_neg (show ¬(e.game.status = GameStatus.finished) by rw [hstat]; simp)]
        cases hfl : (updateFirst (fun x => x.id == pid)
            (fun q => { q with bankrupt := true, inJailTurns := 0 })
            e.game.players).filter (fun p => !p.bankrupt) with
        | nil =>
          exfalso
          rw [hfl] at hcount
          simp only [List.length_nil] at hcount
          omega
        | cons q tl =>
          cases tl with
          | cons r tl2 =>
            refine ⟨⟨⟨hc.deckOK, hc.shufsOK, hnodup2, ?_, ?_, ?_, hc.mutex,
              hc.rolledFlags, ?_, hc.settingsOK, hrent2⟩, hB2⟩, hmono2, ⟨?_, ?_⟩, rfl⟩
            · intro _
              show 2 ≤ ((updateFirst (fun x => x.id == pid)
                (fun q => { q with bankrupt := true, inJailTurns := 0 })
                e.game.players).filter (fun p => !p.bankrupt)).length
              rw [hfl]
              simp only [List.length_cons]
              omega
            · intro hfin
              rw [hstat] at hfin
              exact GameStatus.noConfusion hfin
            · intro q' hfin
              rw [hstat] at hfin
              exact absurd hfin (by simp)
            · intro hlob
              rw [hstat] at hlob
              exact absurd hlob (by simp)
            · show e.game.status ≠ GameStatus.lobby
              rw [hstat]
              simp
            · intro hfin
              rw [hstat] at hfin
              exact absurd hfin (by simp)
          | nil =>
            simp only [bind_apply, modifyGame_apply, logM]
            have hq : q.bankrupt = false := by
              have hqmem : q ∈ (updateFirst (fun x => x.id == pid)
                  (fun q => { q with bankrupt := true, inJailTurns := 0 })
                  e.game.players).filter (fun p => !p.bankrupt) := by
                rw [hfl]
                exact List.mem_cons_self _ _
              have := List.of_mem_filter hqmem
              simpa using this
            refine ⟨⟨⟨hc.deckOK, hc.shufsOK, hnodup2, ?_, ?_, ?_, hc.mutex,
              hc.rolledFlags, ?_, hc.settingsOK, hrent2⟩, hB2⟩, hmono2, ⟨?_, ?_⟩, rfl⟩
            · intro hact
              exact absurd hact (by simp)
            · intro _
              show ((updateFirst (fun x => x.id == pid)
                (fun q => { q with bankrupt := true, inJailTurns := 0 })
                e.game.players).filter (fun p => !p.bankrupt)) ≠ []
              rw [hfl]
              simp
            · intro q' _ hsing
              have hq'q : q' = q := by
                have h2 : ((updateFirst (fun x => x.id == pid)
                  (fun q => { q with bankrupt := true, inJailTurns := 0 })
                  e.game.players).filter (fun p => !p.bankrupt)) = [q'] := hsing
                rw [hfl] at h2
                injection h2 with h3
                exact h3.symm
              show some q.id = some q'.id
              rw [hq'q]
            · intro hlob
              exact absurd hlob (by simp)
            · show GameStatus.finished ≠ GameStatus.lobby
              simp
            · intro _ p0 hp0
              have h2 : (updateFirst (fun x => x.id == pid)
                  (fun q => { q with bankrupt := true, inJailTurns := 0 })
                  e.game.players).find? (fun x => x.id == pid) = some p0 := hp0
              rw [hfindP2] at h2
              injection h2 with h3
              rw [← h3]

theorem core_players_update {pid target : String} {f : PlayerState → PlayerState}
    {e e' : Eng} (hc : InvCore e) (hfs : FinSafe pid e)
    (hid : ∀ q, (f q).id = q.id) (hb : ∀ q, (f q).bankrupt = q.bankrupt)
    (hpl : e'.game.players = updateFirst (fun x => x.id == target) f e.game.players)
    (hst : e'.game.status = e.game.status)
    (hwin : e'.game.winnerId = e.game.winnerId)
    (htr : e'.game.turn = e.game.turn)
    (hdk : e'.game.deck = e.game.deck)
    (hsh : e'.shufs = e.shufs)
    (hset : e'.game.settings = e.game.settings)
    (hrent : ∀ t ∈ e'.game.tiles, 0 ≤ t.baseRent) :
    InvCore e' ∧ FinSafe pid e' := by
  have hfa := forall₂_updateFirst
    (fun a b : PlayerState => a.id = b.id ∧ a.bankrupt = b.bankrupt)
    (fun x => x.id == target) f (fun q => ⟨(hid q).symm, (hb q).symm⟩)
    (fun q => ⟨rfl, rfl⟩) e.game.players
  have hff := forall₂_filter_bankrupt hfa
  have hlen := List.Forall₂.length_eq hff
  refine ⟨⟨?_, ?_, ?_, ?_, ?_, ?_, ?_, ?_, ?_, ?_, ?_⟩, ?_, ?_⟩
  · rw [hdk]; exact hc.deckOK
  · rw [hsh]; exact hc.shufsOK
  · rw [hpl, map_id_updateFirst _ f hid]; exact hc.idsNodup
  · intro hs'
    rw [hst] at hs'
    rw [hpl, ← hlen]
    exact hc.activeTwo hs'
  · intro hs' heq
    rw [hst] at hs'
    rw [hpl] at heq
    have h0 : (e.game.players.filter (fun p => !p.bankrupt)).length = 0 := by
      rw [hlen, heq]
      rfl
    exact hc.finishedAlive hs' (List.length_eq_zero.mp h0)
  · intro q hs' hsing
    rw [hst] at hs'
    rw [hpl] at hsing
    have hffq := hff
    rw [hsing] at hffq
    obtain ⟨p0, hp0, hrel⟩ := forall₂_singleton_right hffq
    rw [hwin, hc.finishedWinner p0 hs' hp0, hrel.1]
  · rw [htr]; exact hc.mutex
  · rw [htr]; exact hc.rolledFlags
  · intro hlob a hmem
    rw [hst] at hlob
    rw [hpl] at hmem
    rcases mem_updateFirst_cases _ f _ a hmem with hin | ⟨b, hbf, rfl⟩
    · exact hc.lobbyClean hlob a hin
    · rw [hb b]
      exact hc.lobbyClean hlob b (List.mem_of_find?_eq_some hbf)
  · rw [hset]; exact hc.settingsOK
  · exact hrent
  · rw [hst]; exact hfs.1
  · intro hfin p0 hp0
    rw [hst] at hfin
    have hmap := find?_bankrupt_updateFirst (fun x => x.id == target) f pid hid hb
      e.game.players
    unfold GameState.getPlayer at hp0
    rw [hpl] at hp0
    rw [hp0] at hmap
    cases hfp : e.game.players.find? (fun x => x.id == pid) with
    | none =>
      rw [hfp] at hmap
      simp at hmap
    | some p1 =>
      rw [hfp] at hmap
      have h2 : p0.bankrupt = p1.bankrupt := by simpa using hmap
      rw [h2]
      exact hfs.2 hfin p1 hfp

theorem chainOut_chargeBank (pid : String) (amt : Int) (reason : String) (e : Eng)
    (h : Inv e) (hfs : FinSafe pid e) :
    ChainOut pid e (Res.state (chargeBank pid amt reason e)) := by
  unfold chargeBank
  simp only [updatePlayerM, bind_apply, modifyGame_apply, logM]
  have hmid := @core_players_update pid pid
    (fun q => { q with money := q.money - amt })
    e
    ⟨{ { e.game with
        players := updateFirst (fun x => x.id == pid)
          (fun q => { q with money := q.money - amt }) e.game.players } with
        log := pushLog reason ({ e.game with
          players := updateFirst (fun x => x.id == pid)
            (fun q => { q with money := q.money - amt }) e.game.players } : GameState).log },
      e.shufs⟩
    h.1 hfs (fun q => rfl) (fun q => rfl) rfl rfl rfl rfl rfl rfl rfl h.1.rentOK
  have hB2 : ∀ q ∈ updateFirst (fun x => x.id == pid)
      (fun q => { q with money := q.money - amt }) e.game.players,
      q.money < 0 → q.bankrupt = true ∨
      (updateFirst (fun x => x.id == pid)
        (fun q => { q with money := q.money - amt }) e.game.players).find?
        (fun x => x.id == pid) = some q := by
    intro q hq hneg
    rcases mem_updateFirst_cases _ _ e.game.players q hq with hin | ⟨b, hbf, rfl⟩
    · exact Or.inl (h.2 q hin hneg)
    · right
      rw [find?_updateFirst_eq (fun x : PlayerState => x.id == pid)
        (fun q : PlayerState => { q with money := q.money - amt }) (fun a => rfl), hbf]
      rfl
  have hcb := chainOut_checkBankruptcy pid _ hmid.1 hmid.2 hB2
  refine ⟨hcb.1, playersMono_trans ?_ hcb.2.1, hcb.2.2.1, hcb.2.2.2⟩
  exact playersMono_updateFirst (fun x => x.id == pid)
    (fun q => { q with money := q.money - amt }) (fun q => rfl) (fun q hq => hq) _

theorem chainOut_set_turn {pid : String} {e e' : Eng} (h : Inv e) (hfs : FinSafe pid e)
    (hpl : e'.game.players = e.game.players)
    (hst : e'.game.status = e.game.status)
    (hwin : e'.game.winnerId = e.game.winnerId)
    (hdk : e'.game.deck = e.game.deck)
    (hsh : e'.shufs = e.shufs)
    (hset : e'.game.settings = e.game.settings)
    (hrent : ∀ t ∈ e'.game.tiles, 0 ≤ t.baseRent)
    (hmutex : ¬(truthyS e'.game.turn.awaitingPurchase = true ∧
      truthyS e'.game.turn.awaitingUpgrade = true))
    (hflags : e'.game.turn.rolled = false →
      e'.game.turn.awaitingPurchase = none ∧ e'.game.turn.awaitingUpgrade = none)
    (hrolled : e'.game.turn.rolled = e.game.turn.rolled) :
    ChainOut pid e e' := by
  obtain ⟨hc, hB⟩ := h
  refine ⟨⟨⟨?_, ?_, ?_, ?_, ?_, ?_, hmutex, hflags, ?_, ?_, hrent⟩, ?_⟩, ?_,
    finSafe_frame hfs hpl hst, hrolled⟩
  · rw [hdk]; exact hc.deckOK
  · rw [hsh]; exact hc.shufsOK
  · rw [hpl]; exact hc.idsNodup
  · rw [hst, hpl]; exact hc.activeTwo
  · rw [hst, hpl]; exact hc.finishedAlive
  · intro q; rw [hst, hpl, hwin]; exact hc.finishedWinner q
  · rw [hst, hpl]; exact hc.lobbyClean
  · rw [hset]; exact hc.settingsOK
  · intro p hp
    rw [hpl] at hp
    exact hB p hp
  · rw [hpl]
    exact playersMono_refl _

theorem chainOut_movePlayer (pid : String) (steps : Int) (e : Eng)
    (h : Inv e) (hfs : FinSafe pid e) :
    ChainOut pid e (Res.state (movePlayer pid steps e)) := by
  unfold movePlayer
  refine chainOut_bind_getGame ?_
  cases hp : e.game.getPlayer pid with
  | none => exact chainOut_refl h hfs
  | some p =>
    simp only []
    refine chainOut_bind
      (chainOut_updatePlayerM pid pid _ e h hfs (fun q => rfl) (fun q => rfl)
        (fun b _ hneg => hneg)) ?_
    intro a e1 he1 hco1
    split
    · split
      · refine chainOut_bind
          (chainOut_updatePlayerM pid pid _ e1 hco1.1 hco1.2.2.1 (fun q => rfl)
            (fun q => rfl) ?_) ?_
        · intro b _ hneg
          have hneg2 : b.money + e.game.settings.passStartBonus < 0 := hneg
          have hbonus := h.1.settingsOK.2
          omega
        · intro b e2 he2 hco2
          exact chainOut_logM pid _ e2 hco2.1 hco2.2.2.1
      · exact chainOut_refl hco1.1 hco1.2.2.1
    · split
      · refine chainOut_bind
          (chainOut_updatePlayerM pid pid _ e1 hco1.1 hco1.2.2.1 (fun q => rfl)
            (fun q => rfl) ?_) ?_
        · intro b _ hneg
          have hneg2 : b.money + e.game.settings.passStartBonus < 0 := hneg
          have hbonus := h.1.settingsOK.2
          omega
        · intro b e2 he2 hco2
          exact chainOut_logM pid _ e2 hco2.1 hco2.2.2.1
      · exact chainOut_refl hco1.1 hco1.2.2.1

theorem chainOut_sendToJail (pid : String) (e : Eng)
    (h : Inv e) (hfs : FinSafe pid e) :
    ChainOut pid e (Res.state (sendToJail pid e)) := by
  unfold sendToJail
  refine chainOut_bind_getGame ?_
  cases hp : e.game.getPlayer pid with
  | none => exact chainOut_refl h hfs
  | some p =>
    simp only []
    refine chainOut_bind
      (chainOut_updatePlayerM pid pid _ e h hfs (fun q => rfl) (fun q => rfl)
        (fun b _ hneg => hneg)) ?_
    intro a e1 he1 hco1
    exact chainOut_logM pid _ e1 hco1.1 hco1.2.2.1

theorem chainOut_handleProperty (pid : String) (idx : Nat) (e : Eng)
    (h : Inv e) (hfs : FinSafe pid e)
    (hrolled : e.game.turn.rolled = true)
    (hpur : truthyS e.game.turn.awaitingPurchase = false) :
    ChainOut pid e (Res.state (handleProperty pid idx e)) := by
  unfold handleProperty
  refine chainOut_bind ?_ ?_
  · refine chainOut_set_turn h hfs rfl rfl rfl rfl rfl rfl h.1.rentOK ?_ ?_ rfl
    · intro hcon
      exact Bool.noConfusion hcon.2
    · intro hr
      exact ⟨(h.1.rolledFlags hr).1, rfl⟩
  · intro a e1 he1 hco1
    have he1' : e1 = ⟨{ e.game with
        turn := { e.game.turn with awaitingUpgrade := none } }, e.shufs⟩ := by
      simp only [modifyGame_apply] at he1
      injection he1 with h1 h2
      exact h2.symm
    have hrolled1 : e1.game.turn.rolled = true := by rw [he1']; exact hrolled
    have hpur1 : truthyS e1.game.turn.awaitingPurchase = false := by rw [he1']; exact hpur
    have hupg1 : e1.game.turn.awaitingUpgrade = none := by rw [he1']
    refine chainOut_bind_getGame ?_
    cases ht : e1.game.tiles.get? idx with
    | none => exact chainOut_refl hco1.1 hco1.2.2.1
    | some tile =>
      simp only []
      cases hp : e1.game.getPlayer pid with
      | none => exact chainOut_refl hco1.1 hco1.2.2.1
      | some player =>
        simp only []
        split
        · refine chainOut_bind ?_ ?_
          · refine chainOut_set_turn hco1.1 hco1.2.2.1 rfl rfl rfl rfl rfl rfl
              hco1.1.1.rentOK ?_ ?_ rfl
            · intro hcon
              have hu : truthyS e1.game.turn.awaitingUpgrade = true := hcon.2
              rw [hupg1] at hu
              exact Bool.noConfusion hu
            · intro hr
              have hr2 : e1.game.turn.rolled = false := hr
              rw [hrolled1] at hr2
              exact Bool.noConfusion hr2
          · intro b e2 he2 hco2
            exact chainOut_logM pid _ e2 hco2.1 hco2.2.2.1
        · split
          · refine chainOut_bind
              (chainOut_updateTileAtM pid idx _ e1 hco1.1 hco1.2.2.1 (fun t => rfl)) ?_
            intro b e2 he2 hco2
            have he2' : e2 = ⟨{ e1.game with
                tiles := e1.game.tiles.modify
                  (fun t => { t with level := some (tileLevel t) }) idx }, e1.shufs⟩ := by
              simp only [updateTileAtM, modifyGame_apply] at he2
              injection he2 with h1 h2
              exact h2.symm
            have hrolled2 : e2.game.turn.rolled = true := by rw [he2']; exact hrolled1
            have hpur2 : truthyS e2.game.turn.awaitingPurchase = false := by
              rw [he2']; exact hpur1
            split
            · refine chainOut_bind ?_ ?_
              · refine chainOut_set_turn hco2.1 hco2.2.2.1 rfl rfl rfl rfl rfl rfl
                  hco2.1.1.rentOK ?_ ?_ rfl
                · intro hcon
                  have hu : truthyS e2.game.turn.awaitingPurchase = true := hcon.1
                  rw [hpur2] at hu
                  exact Bool.noConfusion hu
                · intro hr
                  have hr2 : e2.game.turn.rolled = false := hr
                  rw [hrolled2] at hr2
                  exact Bool.noConfusion hr2
              · intro c e3 he3 hco3
                exact chainOut_logM pid _ e3 hco3.1 hco3.2.2.1
            · exact chainOut_logM pid _ e2 hco2.1 hco2.2.2.1
          · cases ho : e1.game.getPlayer (tile.ownerId.getD "") with
            | none => exact chainOut_refl hco1.1 hco1.2.2.1
            | some owner =>
              simp only []
              split
              · exact chainOut_refl hco1.1 hco1.2.2.1
              · rename_i hnotruthy hnotown hownerb
                have howner : owner.bankrupt = false := by
                  by_contra hx
                  exact hownerb (by simpa using hx)
                have htruthy : truthyS tile.ownerId = true := by
                  by_contra hx
                  exact hnotruthy (by simpa using hx)
                obtain ⟨hsome, hne⟩ := truthyS_eq_true.mp htruthy
                obtain ⟨okey, hokey⟩ := Option.isSome_iff_exists.mp hsome
                have hokpid : okey ≠ pid := by
                  intro hcon
                  rw [hcon] at hokey
                  exact hnotown hokey
                have hgetd : tile.ownerId.getD "" = okey := by rw [hokey]; rfl
                rw [hgetd] at ho
                refine chainOut_bind
                  (chainOut_updateTileAtM pid idx _ e1 hco1.1 hco1.2.2.1 (fun t => rfl)) ?_
                intro b e2 he2 hco2
                have he2' : e2 = ⟨{ e1.game with
                    tiles := e1.game.tiles.modify
                      (fun t => { t with level := some (tileLevel t) }) idx }, e1.shufs⟩ := by
                  simp only [updateTileAtM, modifyGame_apply] at he2
                  injection he2 with h1 h2
                  exact h2.symm
                have hpl2 : e2.game.players = e1.game.players := by rw [he2']
                rw [hgetd]
                simp only [updatePlayerM, bind_apply, modifyGame_apply, logM]
                -- the rent block: debit pid, credit okey, log, checkBankruptcy pid
                have hneq1 : ∀ a : PlayerState, (a.id == okey) = true →
                    (a.id == pid) = false := by
                  intro a ha
                  have : a.id = okey := by simpa using ha
                  simp [this, hokpid]
                have hneq2 : ∀ a : PlayerState, (a.id == pid) = true →
                    (a.id == okey) = false := by
                  intro a ha
                  have : a.id = pid := by simpa using ha
                  simp [this]
                  intro hcon
                  exact hokpid hcon.symm
                have hrentpos : 0 ≤ propertyRent { tile with level := some (tileLevel tile) } := by
                  have htmem : tile ∈ e1.game.tiles := List.get?_mem ht
                  have hbase := hco1.1.1.rentOK tile htmem
                  have h0 : (0 : Int) ≤
                      (tileLevel { tile with level := some (tileLevel tile) } : Int) :=
                    Int.natCast_nonneg _
                  exact mul_nonneg hbase h0
                have ho' : e1.game.players.find? (fun x => x.id == okey) = some owner := ho
                have hom : 0 ≤ owner.money := by
                  by_contra hx
                  have hneg : owner.money < 0 := by omega
                  have hbk := hco1.1.2 owner (List.mem_of_find?_eq_some ho') hneg
                  rw [hbk] at howner
                  exact Bool.noConfusion howner
                have hmidcore := @core_players_update pid pid
                  (fun q => { q with money := q.money - propertyRent { tile with level := some (tileLevel tile) } })
                  e2
                  ⟨{ e2.game with
                      players := updateFirst (fun x => x.id == pid)
                          (fun q => { q with money := q.money - propertyRent { tile with level := some (tileLevel tile) } })
                          e2.game.players },
                    e2.shufs⟩
                  hco2.1.1 hco2.2.2.1 (fun q => rfl) (fun q => rfl) rfl rfl rfl rfl rfl rfl
                  rfl hco2.1.1.rentOK
                have hcore5 := @core_players_update pid okey
                  (fun q => { q with money := q.money + propertyRent { tile with level := some (tileLevel tile) } })
                  ⟨{ e2.game with
                      players := updateFirst (fun x => x.id == pid)
                          (fun q => { q with money := q.money - propertyRent { tile with level := some (tileLevel tile) } })
                          e2.game.players },
                    e2.shufs⟩
                  ⟨{ e2.game with
                      players := updateFirst (fun x => x.id == okey)
                          (fun q => { q with money := q.money + propertyRent { tile with level := some (tileLevel tile) } })
                          (updateFirst (fun x => x.id == pid)
                            (fun q => { q with money := q.money - propertyRent { tile with level := some (tileLevel tile) } })
                            e2.game.players),
                      log := pushLog (player.name ++ " pagou " ++
                          toString (propertyRent { tile with level := some (tileLevel tile) }) ++
                          " de aluguel para " ++ owner.name ++ " (" ++ tile.name ++ ").")
                          e2.game.log },
                    e2.shufs⟩
                  hmidcore.1 hmidcore.2 (fun q => rfl) (fun q => rfl) rfl rfl rfl rfl rfl rfl
                  rfl hco2.1.1.rentOK
                have hB5 : ∀ q ∈ updateFirst (fun x => x.id == okey)
                    (fun q => { q with money := q.money + propertyRent { tile with level := some (tileLevel tile) } })
                    (updateFirst (fun x => x.id == pid)
                      (fun q => { q with money := q.money - propertyRent { tile with level := some (tileLevel tile) } })
                      e2.game.players),
                    q.money < 0 → q.bankrupt = true ∨
                    (updateFirst (fun x => x.id == okey)
                      (fun q => { q with money := q.money + propertyRent { tile with level := some (tileLevel tile) } })
                      (updateFirst (fun x => x.id == pid)
                        (fun q => { q with money := q.money - propertyRent { tile with level := some (tileLevel tile) } })
                        e2.game.players)).find?
                      (fun x => x.id == pid) = some q := by
                  intro q hq hneg
                  rcases mem_updateFirst_cases _ _ _ q hq with hq1 | ⟨b, hbf, rfl⟩
                  · rcases mem_updateFirst_cases _ _ _ q hq1 with hq0 | ⟨b0, hb0f, rfl⟩
                    · exact Or.inl (hco2.1.2 q hq0 hneg)
                    · right
                      rw [find?_updateFirst_of_ne (fun x : PlayerState => x.id == okey)
                        (fun x : PlayerState => x.id == pid)
                        (fun q => { q with money := q.money + propertyRent { tile with level := some (tileLevel tile) } })
                        (fun a => rfl) hneq1 _]
                      rw [find?_updateFirst_eq (fun x : PlayerState => x.id == pid)
                        (fun q => { q with money := q.money - propertyRent { tile with level := some (tileLevel tile) } })
                        (fun a => rfl), hb0f]
                      rfl
                  · exfalso
                    have hfo : (updateFirst (fun x => x.id == pid)
                        (fun q => { q with money := q.money - propertyRent { tile with level := some (tileLevel tile) } })
                        e2.game.players).find? (fun x => x.id == okey) =
                        e2.game.players.find? (fun x => x.id == okey) :=
                      find?_updateFirst_of_ne (fun x : PlayerState => x.id == pid)
                        (fun x : PlayerState => x.id == okey)
                        (fun q => { q with money := q.money - propertyRent { tile with level := some (tileLevel tile) } })
                        (fun a => rfl) hneq2 _
                    rw [hfo] at hbf
                    have hfo2 : e2.game.players.find? (fun x => x.id == okey) = some owner := by
                      rw [hpl2]
                      exact ho'
                    rw [hfo2] at hbf
                    injection hbf with hbo
                    subst hbo
                    have hqm : owner.money +
                        propertyRent { tile with level := some (tileLevel tile) } < 0 := hneg
                    omega
                have hcb := chainOut_checkBankruptcy pid _ hcore5.1 hcore5.2 hB5
                refine ⟨hcb.1, ?_, hcb.2.2.1, hcb.2.2.2⟩
                refine @playersMono_trans _ (updateFirst (fun x => x.id == pid)
                    (fun q => { q with money := q.money - propertyRent { tile with level := some (tileLevel tile) } })
                    e2.game.players) _ ?_ (playersMono_trans ?_ hcb.2.1)
                · exact playersMono_updateFirst (fun x => x.id == pid)
                    (fun q => { q with money := q.money - propertyRent { tile with level := some (tileLevel tile) } })
                    (fun q => rfl) (fun q hq => hq) _
                · exact playersMono_updateFirst (fun x => x.id == okey)
                    (fun q => { q with money := q.money + propertyRent { tile with level := some (tileLevel tile) } })
                    (fun q => rfl) (fun q hq => hq) _

theorem movePlayer_turn (pid : String) (steps : Int) (e : Eng) :
    (Res.state (movePlayer pid steps e)).game.turn = e.game.turn := by
  unfold movePlayer
  simp only [bind_apply, getGame_apply]
  cases hp : e.game.getPlayer pid with
  | none => rfl
  | some p =>
    simp only [updatePlayerM, modifyGame_apply, bind_apply, logM]
    split
    · split
      · rfl
      · rfl
    · split
      · rfl
      · rfl

theorem chainOut_set_deck {pid : String} {e e' : Eng} (h : Inv e) (hfs : FinSafe pid e)
    (hpl : e'.game.players = e.game.players)
    (hst : e'.game.status = e.game.status)
    (hwin : e'.game.winnerId = e.game.winnerId)
    (htr : e'.game.turn = e.game.turn)
    (hset : e'.game.settings = e.game.settings)
    (hrent : ∀ t ∈ e'.game.tiles, 0 ≤ t.baseRent)
    (hdeckOK : ∀ c ∈ e'.game.deck, c ∈ EVENT_CARDS)
    (hshufsOK : ∀ l ∈ e'.shufs, ∀ c ∈ l, c ∈ EVENT_CARDS) : ChainOut pid e e' := by
  obtain ⟨hc, hB⟩ := h
  refine ⟨⟨⟨hdeckOK, hshufsOK, ?_, ?_, ?_, ?_, ?_, ?_, ?_, ?_, hrent⟩, ?_⟩, ?_,
    finSafe_frame hfs hpl hst, ?_⟩
  · rw [hpl]; exact hc.idsNodup
  · rw [hst, hpl]; exact hc.activeTwo
  · rw [hst, hpl]; exact hc.finishedAlive
  · intro q; rw [hst, hpl, hwin]; exact hc.finishedWinner q
  · rw [htr]; exact hc.mutex
  · rw [htr]; exact hc.rolledFlags
  · rw [hst, hpl]; exact hc.lobbyClean
  · rw [hset]; exact hc.settingsOK
  · intro p hp
    rw [hpl] at hp
    exact hB p hp
  · rw [hpl]
    exact playersMono_refl _
  · rw [htr]

theorem chainOut_updMoneyLogCB_then {β : Type} (pid : String)
    (f : PlayerState → PlayerState) (msg : String) (k : Unit → M β) (e : Eng)
    (h : Inv e) (hfs : FinSafe pid e)
    (hid : ∀ q, (f q).id = q.id) (hb : ∀ q, (f q).bankrupt = q.bankrupt)
    (hk : ∀ e', ChainOut pid e e' → ChainOut pid e' (Res.state (k () e'))) :
    ChainOut pid e (Res.state ((updatePlayerM pid f >>= fun a =>
      logM msg >>= fun b => checkBankruptcy pid >>= fun c => k c) e)) := by
  simp only [updatePlayerM, bind_apply, modifyGame_apply, logM]
  have hmid := @core_players_update pid pid f e
    ⟨{ { e.game with players := updateFirst (fun x => x.id == pid) f e.game.players } with
        log := pushLog msg ({ e.game with
          players := updateFirst (fun x => x.id == pid) f e.game.players } : GameState).log },
      e.shufs⟩
    h.1 hfs hid hb rfl rfl rfl rfl rfl rfl rfl h.1.rentOK
  have hB2 : ∀ q ∈ updateFirst (fun x => x.id == pid) f e.game.players,
      q.money < 0 → q.bankrupt = true ∨
      (updateFirst (fun x => x.id == pid) f e.game.players).find?
        (fun x => x.id == pid) = some q := by
    intro q hq hneg
    rcases mem_updateFirst_cases _ f e.game.players q hq with hin | ⟨b, hbf, rfl⟩
    · exact Or.inl (h.2 q hin hneg)
    · right
      rw [find?_updateFirst_eq (fun x : PlayerState => x.id == pid) f
        (fun a => by show ((f a).id == pid) = (a.id == pid); rw [hid a]), hbf]
      rfl
  have hcb := chainOut_checkBankruptcy pid
    ⟨{ { e.game with players := updateFirst (fun x => x.id == pid) f e.game.players } with
        log := pushLog msg ({ e.game with
          players := updateFirst (fun x => x.id == pid) f e.game.players } : GameState).log },
      e.shufs⟩
    hmid.1 hmid.2 hB2
  have hpre : PlayersMono e.game.players
      (updateFirst (fun x => x.id == pid) f e.game.players) :=
    playersMono_updateFirst _ f hid (fun q hq => by rw [hb q]; exact hq) _
  cases hcbe : checkBankruptcy pid
    ⟨{ { e.game with players := updateFirst (fun x => x.id == pid) f e.game.players } with
        log := pushLog msg ({ e.game with
          players := updateFirst (fun x => x.id == pid) f e.game.players } : GameState).log },
      e.shufs⟩ with
  | ok a3 e3 =>
    rw [hcbe] at hcb
    have hco3 : ChainOut pid e e3 :=
      ⟨hcb.1, playersMono_trans hpre hcb.2.1, hcb.2.2.1, hcb.2.2.2⟩
    cases a3
    exact chainOut_trans hco3 (hk e3 hco3)
  | err m3 e3 =>
    rw [hcbe] at hcb
    exact ⟨hcb.1, playersMono_trans hpre hcb.2.1, hcb.2.2.1, hcb.2.2.2⟩

theorem movePlayer_ok_turn (pid : String) (steps : Int) (e : Eng) (a : Unit)
    (e1 : Eng) (h : movePlayer pid steps e = Res.ok a e1) :
    e1.game.turn = e.game.turn := by
  have ht := movePlayer_turn pid steps e
  rw [h] at ht
  exact ht

theorem chain_resolve (fuel : Nat) :
    (∀ pid idx cfe e, Inv e → FinSafe pid e → e.game.turn.rolled = true →
      truthyS e.game.turn.awaitingPurchase = false →
      ChainOut pid e (Res.state (resolveTile fuel pid idx cfe e))) ∧
    (∀ pid cfe e, Inv e → FinSafe pid e → e.game.turn.rolled = true →
      truthyS e.game.turn.awaitingPurchase = false →
      ChainOut pid e (Res.state (resolveAtCurrent fuel pid cfe e))) ∧
    (∀ pid card pn e, card ∈ EVENT_CARDS → Inv e → FinSafe pid e →
      e.game.turn.rolled = true → truthyS e.game.turn.awaitingPurchase = false →
      ChainOut pid e (Res.state (applyCardEffect fuel pid card pn e))) ∧
    (∀ pid e, Inv e → FinSafe pid e → e.game.turn.rolled = true →
      truthyS e.game.turn.awaitingPurchase = false →
      ChainOut pid e (Res.state (handleEvent fuel pid e))) := by
  induction fuel with
  | zero =>
    have h1 : ∀ pid idx cfe e, Inv e → FinSafe pid e → e.game.turn.rolled = true →
        truthyS e.game.turn.awaitingPurchase = false →
        ChainOut pid e (Res.state (resolveTile 0 pid idx cfe e)) := by
      intro pid idx cfe e h hfs hroll hpur
      unfold resolveTile
      exact chainOut_refl h hfs
    have h2 : ∀ pid cfe e, Inv e → FinSafe pid e → e.game.turn.rolled = true →
        truthyS e.game.turn.awaitingPurchase = false →
        ChainOut pid e (Res.state (resolveAtCurrent 0 pid cfe e)) := by
      intro pid cfe e h hfs hroll hpur
      unfold resolveAtCurrent
      refine chainOut_bind_getGame ?_
      cases hp : e.game.getPlayer pid with
      | none => exact chainOut_refl h hfs
      | some p =>
        simp only []
        exact h1 pid p.position cfe e h hfs hroll hpur
    have h3 : ∀ pid card pn e, card ∈ EVENT_CARDS → Inv e → FinSafe pid e →
        e.game.turn.rolled = true → truthyS e.game.turn.awaitingPurchase = false →
        ChainOut pid e (Res.state (applyCardEffect 0 pid card pn e)) := by
      intro pid card pn e hcard h hfs hroll hpur
      rw [EVENT_CARDS] at hcard
      fin_cases hcard
      · unfold applyCardEffect
        simp only []
        split
        · split
          · refine chainOut_updMoneyLogCB_then pid _ _ _ e h hfs (fun q => rfl)
              (fun q => rfl) ?_
            intro e' hco
            split
            · rename_i hgj
              exact absurd hgj (by decide)
            · split
              · rename_i hmv
                exact absurd hmv (by decide)
              · exact chainOut_refl hco.1 hco.2.2.1
          · refine chainOut_updMoneyLogCB_then pid _ _ _ e h hfs (fun q => rfl)
              (fun q => rfl) ?_
            intro e' hco
            split
            · rename_i hgj
              exact absurd hgj (by decide)
            · split
              · rename_i hmv
                exact absurd hmv (by decide)
              · exact chainOut_refl hco.1 hco.2.2.1
        · rename_i hmoney
          exact absurd (by decide) hmoney
      · unfold applyCardEffect
        simp only []
        split
        · split
          · refine chainOut_updMoneyLogCB_then pid _ _ _ e h hfs (fun q => rfl)
              (fun q => rfl) ?_
            intro e' hco
            split
            · rename_i hgj
              exact absurd hgj (by decide)
            · split
              · rename_i hmv
                exact absurd hmv (by decide)
              · exact chainOut_refl hco.1 hco.2.2.1
          · refine chainOut_updMoneyLogCB_then pid _ _ _ e h hfs (fun q => rfl)
              (fun q => rfl) ?_
            intro e' hco
            split
            · rename_i hgj
              exact absurd hgj (by decide)
            · split
              · rename_i hmv
                exact absurd hmv (by decide)
              · exact chainOut_refl hco.1 hco.2.2.1
        · rename_i hmoney
          exact absurd (by decide) hmoney
      · unfold applyCardEffect
        simp only []
        split
        · rename_i hmoney
          exact absurd hmoney (by decide)
        · simp only [bind_apply, pure_apply]
          split
          · rename_i hgj
            exact absurd hgj (by decide)
          · split
            · refine chainOut_bind (chainOut_movePlayer pid _ e h hfs) ?_
              intro a e1 he1 hco1
              have hturn1 : e1.game.turn = e.game.turn :=
                movePlayer_ok_turn _ _ _ _ _ he1
              have hroll1 : e1.game.turn.rolled = true := by rw [hturn1]; exact hroll
              have hpur1 : truthyS e1.game.turn.awaitingPurchase = false := by
                rw [hturn1]
                exact hpur
              refine chainOut_bind (h2 pid true e1 hco1.1 hco1.2.2.1 hroll1 hpur1) ?_
              intro b e2 he2 hco2
              exact chainOut_refl hco2.1 hco2.2.2.1
            · rename_i hmv
              exact absurd (by decide) hmv
      · unfold applyCardEffect
        simp only []
        split
        · rename_i hmoney
          exact absurd hmoney (by decide)
        · simp only [bind_apply, pure_apply]
          split
          · rename_i hgj
            exact absurd hgj (by decide)
          · split
            · refine chainOut_bind (chainOut_movePlayer pid _ e h hfs) ?_
              intro a e1 he1 hco1
              have hturn1 : e1.game.turn = e.game.turn :=
                movePlayer_ok_turn _ _ _ _ _ he1
              have hroll1 : e1.game.turn.rolled = true := by rw [hturn1]; exact hroll
              have hpur1 : truthyS e1.game.turn.awaitingPurchase = false := by
                rw [hturn1]
                exact hpur
              refine chainOut_bind (h2 pid true e1 hco1.1 hco1.2.2.1 hroll1 hpur1) ?_
              intro b e2 he2 hco2
              exact chainOut_refl hco2.1 hco2.2.2.1
            · rename_i hmv
              exact absurd (by decide) hmv
    refine ⟨h1, h2, h3, ?_⟩
    intro pid e h hfs hroll hpur
    unfold handleEvent
    exact chainOut_refl h hfs
  | succ f ih =>
    have h1 : ∀ pid idx cfe e, Inv e → FinSafe pid e → e.game.turn.rolled = true →
        truthyS e.game.turn.awaitingPurchase = false →
        ChainOut pid e (Res.state (resolveTile (f + 1) pid idx cfe e)) := by
      intro pid idx cfe e h hfs hroll hpur
      unfold resolveTile
      refine chainOut_bind_getGame ?_
      cases ht : e.game.tiles.get? idx with
      | none => exact chainOut_refl h hfs
      | some tile =>
        simp only []
        cases hp : e.game.getPlayer pid with
        | none => exact chainOut_refl h hfs
        | some player =>
          simp only []
          cases htt : tile.type
          · exact chainOut_refl h hfs
          · exact chainOut_handleProperty pid idx e h hfs hroll hpur
          · exact chainOut_chargeBank pid _ _ e h hfs
          · exact ih.2.2.2 pid e h hfs hroll hpur
          · exact chainOut_refl h hfs
          · exact chainOut_sendToJail pid e h hfs
          · split
            · exact chainOut_logM pid _ e h hfs
            · exact chainOut_refl h hfs
    have h2 : ∀ pid cfe e, Inv e → FinSafe pid e → e.game.turn.rolled = true →
        truthyS e.game.turn.awaitingPurchase = false →
        ChainOut pid e (Res.state (resolveAtCurrent (f + 1) pid cfe e)) := by
      intro pid cfe e h hfs hroll hpur
      unfold resolveAtCurrent
      refine chainOut_bind_getGame ?_
      cases hp : e.game.getPlayer pid with
      | none => exact chainOut_refl h hfs
      | some p =>
        simp only []
        exact h1 pid p.position cfe e h hfs hroll hpur
    have h3 : ∀ pid card pn e, card ∈ EVENT_CARDS → Inv e → FinSafe pid e →
        e.game.turn.rolled = true → truthyS e.game.turn.awaitingPurchase = false →
        ChainOut pid e (Res.state (applyCardEffect (f + 1) pid card pn e)) := by
      intro pid card pn e hcard h hfs hroll hpur
      rw [EVENT_CARDS] at hcard
      fin_cases hcard
      · unfold applyCardEffect
        simp only []
        split
        · split
          · refine chainOut_updMoneyLogCB_then pid _ _ _ e h hfs (fun q => rfl)
              (fun q => rfl) ?_
            intro e' hco
            split
            · rename_i hgj
              exact absurd hgj (by decide)
            · split
              · rename_i hmv
                exact absurd hmv (by decide)
              · exact chainOut_refl hco.1 hco.2.2.1
          · refine chainOut_updMoneyLogCB_then pid _ _ _ e h hfs (fun q => rfl)
              (fun q => rfl) ?_
            intro e' hco
            split
            · rename_i hgj
              exact absurd hgj (by decide)
            · split
              · rename_i hmv
                exact absurd hmv (by decide)
              · exact chainOut_refl hco.1 hco.2.2.1
        · rename_i hmoney
          exact absurd (by decide) hmoney
      · unfold applyCardEffect
        simp only []
        split
        · split
          · refine chainOut_updMoneyLogCB_then pid _ _ _ e h hfs (fun q => rfl)
              (fun q => rfl) ?_
            intro e' hco
            split
            · rename_i hgj
              exact absurd hgj (by decide)
            · split
              · rename_i hmv
                exact absurd hmv (by decide)
              · exact chainOut_refl hco.1 hco.2.2.1
          · refine chainOut_updMoneyLogCB_then pid _ _ _ e h hfs (fun q => rfl)
              (fun q => rfl) ?_
            intro e' hco
            split
            · rename_i hgj
              exact absurd hgj (by decide)
            · split
              · rename_i hmv
                exact absurd hmv (by decide)
              · exact chainOut_refl hco.1 hco.2.2.1
        · rename_i hmoney
          exact absurd (by decide) hmoney
      · unfold applyCardEffect
        simp only []
        split
        · rename_i hmoney
          exact absurd hmoney (by decide)
        · simp only [bind_apply, pure_apply]
          split
          · rename_i hgj
            exact absurd hgj (by decide)
          · split
            · refine chainOut_bind (chainOut_movePlayer pid _ e h hfs) ?_
              intro a e1 he1 hco1
              have hturn1 : e1.game.turn = e.game.turn :=
                movePlayer_ok_turn _ _ _ _ _ he1
              have hroll1 : e1.game.turn.rolled = true := by rw [hturn1]; exact hroll
              have hpur1 : truthyS e1.game.turn.awaitingPurchase = false := by
                rw [hturn1]
                exact hpur
              refine chainOut_bind (h2 pid true e1 hco1.1 hco1.2.2.1 hroll1 hpur1) ?_
              intro b e2 he2 hco2
              exact chainOut_refl hco2.1 hco2.2.2.1
            · rename_i hmv
              exact absurd (by decide) hmv
      · unfold applyCardEffect
        simp only []
        split
        · rename_i hmoney
          exact absurd hmoney (by decide)
        · simp only [bind_apply, pure_apply]
          split
          · rename_i hgj
            exact absurd hgj (by decide)
          · split
            · refine chainOut_bind (chainOut_movePlayer pid _ e h hfs) ?_
              intro a e1 he1 hco1
              have hturn1 : e1.game.turn = e.game.turn :=
                movePlayer_ok_turn _ _ _ _ _ he1
              have hroll1 : e1.game.turn.rolled = true := by rw [hturn1]; exact hroll
              have hpur1 : truthyS e1.game.turn.awaitingPurchase = false := by
                rw [hturn1]
                exact hpur
              refine chainOut_bind (h2 pid true e1 hco1.1 hco1.2.2.1 hroll1 hpur1) ?_
              intro b e2 he2 hco2
              exact chainOut_refl hco2.1 hco2.2.2.1
            · rename_i hmv
              exact absurd (by decide) hmv
    refine ⟨h1, h2, h3, ?_⟩
    intro pid e h hfs hroll hpur
    have hdraw : ∀ e1 : Eng, Inv e1 → FinSafe pid e1 → e1.game.turn.rolled = true →
        truthyS e1.game.turn.awaitingPurchase = false →
        ChainOut pid e1 (Res.state ((do
          let g ← getGame
          match g.deck with
          | [] => pure ()
          | card :: rest =>
          match g.getPlayer pid with
          | none => pure ()
          | some player => do
            modifyGame (fun g => { g with deck := rest })
            logM (player.name ++ " puxou carta: " ++ card.title)
            applyCardEffect f pid card player.name) e1)) := by
      intro e1 h1e hfs1 hroll1 hpur1
      refine chainOut_bind_getGame ?_
      cases hd : e1.game.deck with
      | nil => exact chainOut_refl h1e hfs1
      | cons card rest =>
        simp only []
        cases hp : e1.game.getPlayer pid with
        | none => exact chainOut_refl h1e hfs1
        | some player =>
          simp only []
          have hcard : card ∈ EVENT_CARDS :=
            h1e.1.deckOK card (by rw [hd]; exact List.mem_cons_self _ _)
          refine chainOut_bind ?_ ?_
          · refine chainOut_set_deck h1e hfs1 rfl rfl rfl rfl rfl h1e.1.rentOK ?_
              h1e.1.shufsOK
            intro c hc
            exact h1e.1.deckOK c (by rw [hd]; exact List.mem_cons_of_mem _ hc)
          · intro a e2 he2 hco2
            have he2x : e2 = ⟨{ e1.game with deck := rest }, e1.shufs⟩ := by
              simp only [modifyGame_apply] at he2
              injection he2 with hx hy
              exact hy.symm
            have hroll2 : e2.game.turn.rolled = true := hco2.2.2.2.trans hroll1
            have hpur2 : truthyS e2.game.turn.awaitingPurchase = false := by
              rw [he2x]
              exact hpur1
            refine chainOut_bind (chainOut_logM pid _ e2 hco2.1 hco2.2.2.1) ?_
            intro b e3 he3 hco3
            have he3x : e3 = ⟨{ e2.game with
                log := pushLog (player.name ++ " puxou carta: " ++ card.title)
                  e2.game.log }, e2.shufs⟩ := by
              simp only [logM, modifyGame_apply] at he3
              injection he3 with hx hy
              exact hy.symm
            have hroll3 : e3.game.turn.rolled = true := hco3.2.2.2.trans hroll2
            have hpur3 : truthyS e3.game.turn.awaitingPurchase = false := by
              rw [he3x]
              exact hpur2
            exact ih.2.2.1 pid card player.name e3 hcard hco3.1 hco3.2.2.1 hroll3 hpur3
    unfold handleEvent
    refine chainOut_bind_getGame ?_
    split
    · refine chainOut_bind ?_ ?_
      · rcases popShuf_cases EVENT_CARDS e with ⟨hs, heq⟩ | ⟨l, rest, hs, heq⟩ <;> rw [heq]
        · exact chainOut_refl h hfs
        · refine chainOut_set_deck h hfs rfl rfl rfl rfl rfl h.1.rentOK h.1.deckOK ?_
          intro l2 hl2
          exact h.1.shufsOK l2 (by rw [hs]; exact List.mem_cons_of_mem _ hl2)
      · intro fresh e1 he1 hco1
        have hfresh : ∀ c ∈ fresh, c ∈ EVENT_CARDS := by
          rcases popShuf_cases EVENT_CARDS e with ⟨hs, heq⟩ | ⟨l, rest, hs, heq⟩ <;>
            rw [heq] at he1
          · injection he1 with hfe hee
            subst hfe
            intro c hc
            exact hc
          · injection he1 with hfe hee
            subst hfe
            exact h.1.shufsOK _ (by rw [hs]; exact List.mem_cons_self _ _)
        have hpur1 : truthyS e1.game.turn.awaitingPurchase = false := by
          rcases popShuf_cases EVENT_CARDS e with ⟨hs, heq⟩ | ⟨l, rest, hs, heq⟩ <;>
            rw [heq] at he1 <;> (injection he1 with hfe hee; rw [← hee]; exact hpur)
        have hroll1 : e1.game.turn.rolled = true := hco1.2.2.2.trans hroll
        refine chainOut_bind ?_ ?_
        · exact chainOut_set_deck hco1.1 hco1.2.2.1 rfl rfl rfl rfl rfl
            hco1.1.1.rentOK hfresh hco1.1.1.shufsOK
        · intro a e2 he2 hco2
          have he2x : e2 = ⟨{ e1.game with deck := fresh }, e1.shufs⟩ := by
            simp only [modifyGame_apply] at he2
            injection he2 with hx hy
            exact hy.symm
          have hroll2 : e2.game.turn.rolled = true := hco2.2.2.2.trans hroll1
          have hpur2 : truthyS e2.game.turn.awaitingPurchase = false := by
            rw [he2x]
            exact hpur1
          exact hdraw e2 hco2.1 hco2.2.2.1 hroll2 hpur2
    · exact hdraw e h hfs hroll hpur


theorem logM_ok_turn (msg : String) (e : Eng) (a : Unit) (e1 : Eng)
    (h : logM msg e = Res.ok a e1) : e1.game.turn = e.game.turn := by
  simp only [logM, modifyGame_apply] at h
  injection h with hx hy
  rw [← hy]

theorem chainOut_landAndResolve (pid rolledMsg : String) (total : Int) (e : Eng)
    (h : Inv e) (hfs : FinSafe pid e) (hroll : e.game.turn.rolled = true)
    (hpur : truthyS e.game.turn.awaitingPurchase = false) :
    ChainOut pid e (Res.state (landAndResolve pid rolledMsg total e)) := by
  unfold landAndResolve
  refine chainOut_bind (chainOut_movePlayer pid total e h hfs) ?_
  intro a e1 he1 hco1
  have hturn1 : e1.game.turn = e.game.turn := movePlayer_ok_turn _ _ _ _ _ he1
  refine chainOut_bind (chainOut_logM pid _ e1 hco1.1 hco1.2.2.1) ?_
  intro b e2 he2 hco2
  have hturn2 : e2.game.turn = e.game.turn :=
    (logM_ok_turn _ _ _ _ he2).trans hturn1
  refine chainOut_bind
    ((chain_resolve RESOLVE_FUEL).2.1 pid false e2 hco2.1 hco2.2.2.1
      (by rw [hturn2]; exact hroll) (by rw [hturn2]; exact hpur)) ?_
  intro c e3 he3 hco3
  rw [checkVictory_noop e3 hco3.1 hco3.2.2.1.1]
  exact chainOut_refl hco3.1 hco3.2.2.1


/-! ## Per-operation invariant preservation (claims C2, C3, C9) -/

theorem checkVictory_turn (e : Eng) :
    (Res.state (checkVictory e)).game.turn = e.game.turn := by
  unfold checkVictory
  simp only [bind_apply, getGame_apply]
  split
  · rfl
  · cases hfl : List.filter (fun p => !p.bankrupt) e.game.players with
    | nil => rfl
    | cons x xs =>
      cases xs with
      | nil => rfl
      | cons y ys => rfl

theorem checkBankruptcy_turn (pid : String) (e : Eng) :
    (Res.state (checkBankruptcy pid e)).game.turn = e.game.turn := by
  unfold checkBankruptcy
  simp only [bind_apply, getGame_apply]
  cases hp : e.game.getPlayer pid with
  | none => rfl
  | some p =>
    simp only []
    split
    · rfl
    · simp only [updatePlayerM, logM, modifyGame_apply, bind_apply]
      rw [checkVictory_turn]

theorem chargeBank_turn (pid : String) (amt : Int) (reason : String) (e : Eng) :
    (Res.state (chargeBank pid amt reason e)).game.turn = e.game.turn := by
  unfold chargeBank
  simp only [updatePlayerM, logM, modifyGame_apply, bind_apply]
  rw [checkBankruptcy_turn]

theorem ensureActivePlayer_state (pid : String) (e : Eng) :
    Res.state (ensureActivePlayer pid e) = e := by
  unfold ensureActivePlayer
  simp only [bind_apply, getGame_apply]
  split
  · rfl
  · split
    · rfl
    · rfl

theorem ensureActivePlayer_inv (pid : String) (e : Eng) (a : Unit) (e1 : Eng)
    (h : ensureActivePlayer pid e = Res.ok a e1) :
    e1 = e ∧ e.game.status = .active ∧ e.game.turn.currentPlayerId = pid := by
  unfold ensureActivePlayer at h
  simp only [bind_apply, getGame_apply] at h
  split at h
  · simp only [throwM_apply] at h
    exact Res.noConfusion h
  · rename_i h1
    split at h
    · simp only [throwM_apply] at h
      exact Res.noConfusion h
    · rename_i h4
      simp only [pure_apply] at h
      injection h with h2 h3
      exact ⟨h3.symm, not_not.mp h1, not_not.mp h4⟩

theorem finSafe_active (pid : String) {e : Eng} (h : e.game.status = .active) :
    FinSafe pid e := by
  constructor
  · rw [h]
    intro hx
    exact GameStatus.noConfusion hx
  · intro hf
    rw [h] at hf
    exact absurd hf (by intro hx; exact GameStatus.noConfusion hx)

/-- What one public operation guarantees: the master invariant again and
monotone bankruptcy on a stable prefix of the player list. -/
def StepOK (e e' : Eng) : Prop :=
  Inv e' ∧ PlayersMono e.game.players e'.game.players

theorem stepOK_refl (e : Eng) (h : Inv e) : StepOK e e := ⟨h, playersMono_refl _⟩

theorem stepOK_trans {e1 e2 e3 : Eng} (h1 : StepOK e1 e2) (h2 : StepOK e2 e3) :
    StepOK e1 e3 := ⟨h2.1, playersMono_trans h1.2 h2.2⟩

theorem stepOK_of_chainOut (pid : String) {e e' : Eng} (h : ChainOut pid e e') :
    StepOK e e' := ⟨h.1, h.2.1⟩

theorem stepOK_bind {α β : Type} {m : M α} {k : α → M β} {e : Eng}
    (hm : StepOK e (Res.state (m e)))
    (hk : ∀ a e', m e = .ok a e' → StepOK e e' → StepOK e' (Res.state (k a e'))) :
    StepOK e (Res.state ((m >>= k) e)) := by
  rw [bind_apply]
  cases h : m e with
  | ok a e' =>
    rw [h] at hm
    exact stepOK_trans hm (hk a e' h hm)
  | err msg e' =>
    rw [h] at hm
    exact hm

theorem stepOK_bind_getGame {β : Type} {k : GameState → M β} {e : Eng}
    (hk : StepOK e (Res.state (k e.game e))) :
    StepOK e (Res.state ((getGame >>= k) e)) := by
  rw [bind_apply, getGame_apply]
  exact hk

theorem stepOK_logM (msg : String) (e : Eng) (h : Inv e) :
    StepOK e (Res.state (logM msg e)) :=
  ⟨inv_frame h rfl rfl rfl rfl rfl rfl rfl h.1.rentOK, playersMono_refl _⟩

/-- Establish the invariant at a state with the same players, deck and
settings, supplying the status- and turn-dependent clauses directly. -/
theorem inv_restate {e e' : Eng} (h : Inv e)
    (hpl : e'.game.players = e.game.players)
    (hdk : e'.game.deck = e.game.deck)
    (hsh : e'.shufs = e.shufs)
    (hset : e'.game.settings = e.game.settings)
    (hrent : ∀ t ∈ e'.game.tiles, 0 ≤ t.baseRent)
    (h4 : e'.game.status = .active →
      2 ≤ (e'.game.players.filter (fun p => !p.bankrupt)).length)
    (h5 : e'.game.status = .finished →
      e'.game.players.filter (fun p => !p.bankrupt) ≠ [])
    (h6 : ∀ q, e'.game.status = .finished →
      e'.game.players.filter (fun p => !p.bankrupt) = [q] →
      e'.game.winnerId = some q.id)
    (h7 : ¬(truthyS e'.game.turn.awaitingPurchase = true ∧
      truthyS e'.game.turn.awaitingUpgrade = true))
    (h8 : e'.game.turn.rolled = false →
      e'.game.turn.awaitingPurchase = none ∧ e'.game.turn.awaitingUpgrade = none)
    (h9 : e'.game.status = .lobby → ∀ p ∈ e'.game.players, p.bankrupt = false) :
    Inv e' := by
  refine ⟨⟨?_, ?_, ?_, h4, h5, h6, h7, h8, h9, ?_, hrent⟩, ?_⟩
  · rw [hdk]; exact h.1.deckOK
  · rw [hsh]; exact h.1.shufsOK
  · rw [hpl]; exact h.1.idsNodup
  · rw [hset]; exact h.1.settingsOK
  · intro p hp
    rw [hpl] at hp
    exact h.2 p hp

/-- Appending a fresh, solvent, non-bankrupt player preserves the invariant. -/
theorem inv_append (e : Eng) (h : Inv e) (P : PlayerState)
    (hfresh : ∀ p ∈ e.game.players, p.id ≠ P.id) (hbk : P.bankrupt = false)
    (hmoney : 0 ≤ P.money) :
    Inv ⟨{ e.game with players := e.game.players ++ [P] }, e.shufs⟩ := by
  refine ⟨⟨h.1.deckOK, h.1.shufsOK, ?_, ?_, ?_, ?_, h.1.mutex, h.1.rolledFlags,
    ?_, h.1.settingsOK, h.1.rentOK⟩, ?_⟩
  · show ((e.game.players ++ [P]).map PlayerState.id).Nodup
    rw [List.map_append, List.nodup_append]
    refine ⟨h.1.idsNodup, by simp, ?_⟩
    intro a ha hb
    obtain ⟨p, hp, rfl⟩ := List.mem_map.mp ha
    have hbP : p.id = P.id := by simpa using hb
    exact hfresh p hp hbP
  · intro hs
    show 2 ≤ ((e.game.players ++ [P]).filter (fun p => !p.bankrupt)).length
    rw [List.filter_append, List.length_append]
    have := h.1.activeTwo hs
    omega
  · intro hs hx
    show False
    rw [show ((⟨{ e.game with players := e.game.players ++ [P] }, e.shufs⟩ :
      Eng).game.players) = e.game.players ++ [P] from rfl, List.filter_append] at hx
    exact h.1.finishedAlive hs (List.append_eq_nil.mp hx).1
  · intro q hs hq
    exfalso
    rw [show ((⟨{ e.game with players := e.game.players ++ [P] }, e.shufs⟩ :
      Eng).game.players) = e.game.players ++ [P] from rfl, List.filter_append] at hq
    have hne := h.1.finishedAlive hs
    cases hfl : e.game.players.filter (fun p => !p.bankrupt) with
    | nil => exact absurd hfl hne
    | cons x xs =>
      rw [hfl] at hq
      have hfp : List.filter (fun p => !p.bankrupt) [P] = [P] := by
        simp [hbk]
      rw [hfp, List.cons_append] at hq
      injection hq with h1 h2
      exact absurd h2 (by simp)
  · intro hs p hp
    rcases List.mem_append.mp hp with hin | hsing
    · exact h.1.lobbyClean hs p hin
    · rw [List.mem_singleton.mp hsing]
      exact hbk
  · intro p hp hm
    rcases List.mem_append.mp hp with hin | hsing
    · exact h.2 p hin hm
    · rw [List.mem_singleton.mp hsing] at hm
      exact absurd hm (not_lt.mpr hmoney)

theorem stepOK_updatePlayerM (target : String) (f : PlayerState → PlayerState)
    (e : Eng) (h : Inv e)
    (hid : ∀ q, (f q).id = q.id)
    (hb : ∀ q, (f q).bankrupt = q.bankrupt)
    (hB : ∀ b, e.game.players.find? (fun x => x.id == target) = some b →
      (f b).money < 0 → b.money < 0) :
    StepOK e (Res.state (updatePlayerM target f e)) := by
  have hfa : List.Forall₂ (fun a b => a.id = b.id ∧ a.bankrupt = b.bankrupt)
      e.game.players (updateFirst (fun x => x.id == target) f e.game.players) :=
    forall₂_updateFirst _ _ f (fun q => ⟨(hid q).symm, (hb q).symm⟩)
      (fun q => ⟨rfl, rfl⟩) e.game.players
  have hff := forall₂_filter_bankrupt hfa
  have hlen := List.Forall₂.length_eq hff
  refine ⟨⟨?_, ?_⟩, ?_⟩
  · constructor
    · exact h.1.deckOK
    · exact h.1.shufsOK
    · show ((updateFirst (fun x => x.id == target) f e.game.players).map
        PlayerState.id).Nodup
      rw [map_id_updateFirst _ f hid]
      exact h.1.idsNodup
    · intro hs'
      show 2 ≤ ((updateFirst (fun x => x.id == target) f e.game.players).filter
        (fun p => !p.bankrupt)).length
      rw [← hlen]
      exact h.1.activeTwo hs'
    · intro hs' heq
      have : (e.game.players.filter (fun p => !p.bankrupt)).length = 0 := by
        rw [hlen]
        rw [show ((updateFirst (fun x => x.id == target) f e.game.players).filter
          (fun p => !p.bankrupt)) = [] from heq]
        rfl
      exact h.1.finishedAlive hs' (List.length_eq_zero.mp this)
    · intro q hs' hsing
      have hsing2 : List.Forall₂ (fun a b => a.id = b.id ∧ a.bankrupt = b.bankrupt)
          (e.game.players.filter (fun p => !p.bankrupt)) [q] := by
        rw [← show ((updateFirst (fun x => x.id == target) f e.game.players).filter
          (fun p => !p.bankrupt)) = [q] from hsing]
        exact hff
      obtain ⟨p0, hp0, hrel⟩ := forall₂_singleton_right hsing2
      have hw := h.1.finishedWinner p0 hs' hp0
      show e.game.winnerId = some q.id
      rw [hw, hrel.1]
    · exact h.1.mutex
    · exact h.1.rolledFlags
    · intro hlob a hmem
      rcases mem_updateFirst_cases _ f e.game.players a hmem with hin | ⟨b, hbfind, rfl⟩
      · exact h.1.lobbyClean hlob a hin
      · rw [hb b]
        exact h.1.lobbyClean hlob b (List.mem_of_find?_eq_some hbfind)
    · exact h.1.settingsOK
    · exact h.1.rentOK
  · intro a hmem hneg
    rcases mem_updateFirst_cases _ f e.game.players a hmem with hin | ⟨b, hbfind, rfl⟩
    · exact h.2 a hin hneg
    · rw [hb b]
      exact h.2 b (List.mem_of_find?_eq_some hbfind) (hB b hbfind hneg)
  · exact playersMono_updateFirst _ f hid (fun q hq => by rw [hb q]; exact hq) _

theorem clamp_nonneg (v lo hi : Int) (h : 0 ≤ lo) : 0 ≤ clamp v lo hi :=
  le_trans h (le_max_left lo (min hi v))


theorem chargeBank_ok_turn (pid : String) (amt : Int) (reason : String) (e : Eng)
    (a : Unit) (e1 : Eng) (h : chargeBank pid amt reason e = Res.ok a e1) :
    e1.game.turn = e.game.turn := by
  have hx := chargeBank_turn pid amt reason e
  rw [h] at hx
  exact hx

theorem nextAlivePlayerM_state (cid : String) (e : Eng) :
    Res.state (nextAlivePlayerM cid e) = e := by
  unfold nextAlivePlayerM
  simp only [bind_apply, getGame_apply]
  split
  · rfl
  · rfl

theorem stepOK_guard {β : Type} (pid : String) (k : Unit → M β) (e : Eng) (h : Inv e)
    (hk : e.game.status = .active → e.game.turn.currentPlayerId = pid →
      StepOK e (Res.state (k () e))) :
    StepOK e (Res.state ((ensureActivePlayer pid >>= k) e)) := by
  rw [bind_apply]
  cases hg : ensureActivePlayer pid e with
  | ok a e1 =>
    obtain ⟨rfl, hact, hcur⟩ := ensureActivePlayer_inv pid e a e1 hg
    cases a
    exact hk hact hcur
  | err msg e1 =>
    have hst : e1 = e := by
      have h2 := ensureActivePlayer_state pid e
      rw [hg] at h2
      exact h2
    rw [hst]
    exact stepOK_refl e h

theorem stepOK_addPlayer (name id : String) (e : Eng) (h : Inv e)
    (hfresh : ∀ p ∈ e.game.players, p.id ≠ id) :
    StepOK e (Res.state (addPlayer name id e)) := by
  unfold addPlayer
  refine stepOK_bind_getGame ?_
  split
  · exact stepOK_refl e h
  · simp only []
    refine stepOK_bind ?_ ?_
    · exact ⟨inv_append e h _ (fun p hp => hfresh p hp) rfl h.1.settingsOK.1,
        playersMono_append _ _⟩
    · intro a e1 he1 hso1
      refine stepOK_bind (stepOK_logM _ e1 hso1.1) ?_
      intro b e2 he2 hso2
      exact stepOK_refl e2 hso2.1

theorem stepOK_reconnect (pid : String) (e : Eng) (h : Inv e) :
    StepOK e (Res.state (reconnect pid e)) := by
  unfold reconnect
  refine stepOK_bind_getGame ?_
  cases hp : e.game.getPlayer pid with
  | none => exact stepOK_refl e h
  | some p =>
    simp only []
    refine stepOK_bind (stepOK_updatePlayerM pid _ e h (fun q => rfl) (fun q => rfl)
      (fun b _ hm => hm)) ?_
    intro a e1 he1 hso1
    exact stepOK_refl e1 hso1.1

theorem stepOK_passPurchase (pid : String) (e : Eng) (h : Inv e) :
    StepOK e (Res.state (passPurchase pid e)) := by
  unfold passPurchase
  refine stepOK_guard pid _ e h ?_
  intro hact hcur
  refine stepOK_bind_getGame ?_
  split
  · exact stepOK_refl e h
  · refine stepOK_bind ?_ ?_
    · refine ⟨inv_restate h rfl rfl rfl rfl h.1.rentOK h.1.activeTwo
        h.1.finishedAlive h.1.finishedWinner ?_ ?_ h.1.lobbyClean,
        playersMono_refl _⟩
      · intro hx
        exact Bool.noConfusion hx.1
      · intro hr
        exact ⟨rfl, (h.1.rolledFlags hr).2⟩
    · intro a e1 he1 hso1
      exact stepOK_logM _ e1 hso1.1

theorem stepOK_finishByNetWorth (e : Eng) (h : Inv e) :
    StepOK e (Res.state (finishByNetWorth e)) := by
  unfold finishByNetWorth
  refine stepOK_bind_getGame ?_
  split
  · exact stepOK_refl e h
  · cases hfl : e.game.players.filter (fun p => !p.bankrupt) with
    | nil => exact stepOK_refl e h
    | cons a l =>
      simp only []
      cases hsort : sortByDesc (fun p => netWorth e.game p.id) (a :: l) with
      | nil => exact stepOK_refl e h
      | cons richest rest =>
        simp only []
        refine stepOK_bind ?_ ?_
        · refine ⟨inv_restate h rfl rfl rfl rfl h.1.rentOK ?_ ?_ ?_
            h.1.mutex h.1.rolledFlags ?_, playersMono_refl _⟩
          · intro hx
            exact absurd hx (by intro hy; exact GameStatus.noConfusion hy)
          · intro hx
            show List.filter (fun p => !p.bankrupt) e.game.players ≠ []
            rw [hfl]
            simp
          · intro q hx hq
            show some richest.id = some q.id
            have hfl2 : a :: l = [q] := by
              rw [← hfl]
              exact hq
            injection hfl2 with hA hl
            subst hl
            rw [show sortByDesc (fun p => netWorth e.game p.id) [a] = [a] from rfl]
              at hsort
            injection hsort with h1 h2
            rw [← h1, hA]
          · intro hx
            exact absurd hx (by intro hy; exact GameStatus.noConfusion hy)
        · intro x e1 he1 hso1
          exact stepOK_logM _ e1 hso1.1

theorem stepOK_startGame (e : Eng) (h : Inv e) :
    StepOK e (Res.state (startGame e)) := by
  unfold startGame
  refine stepOK_bind_getGame ?_
  split
  · exact stepOK_refl e h
  · rename_i hlob
    split
    · exact stepOK_refl e h
    · rename_i hlen
      have hlobby : e.game.status = .lobby := not_not.mp hlob
      simp only []
      refine stepOK_bind ?_ ?_
      · have hclean := h.1.lobbyClean hlobby
        have hfeq : e.game.players.filter (fun p => !p.bankrupt) = e.game.players := by
          apply List.filter_eq_self.mpr
          intro p hp
          simp [hclean p hp]
        refine ⟨inv_restate h rfl rfl rfl rfl h.1.rentOK ?_ ?_ ?_
          h.1.mutex h.1.rolledFlags ?_, playersMono_refl _⟩
        · intro hx
          show 2 ≤ (e.game.players.filter (fun p => !p.bankrupt)).length
          rw [hfeq]
          omega
        · intro hx
          exact absurd hx (by intro hy; exact GameStatus.noConfusion hy)
        · intro q hx
          exact absurd hx (by intro hy; exact GameStatus.noConfusion hy)
        · intro hx
          exact absurd hx (by intro hy; exact GameStatus.noConfusion hy)
      · intro a e1 he1 hso1
        refine stepOK_bind_getGame ?_
        split
        · refine stepOK_bind ?_ ?_
          · exact stepOK_refl e1 hso1.1
          · intro y e2 he2 hso2
            refine stepOK_bind ?_ ?_
            · refine ⟨inv_restate hso2.1 rfl rfl rfl rfl hso2.1.1.rentOK
                hso2.1.1.activeTwo hso2.1.1.finishedAlive hso2.1.1.finishedWinner
                ?_ ?_ hso2.1.1.lobbyClean, playersMono_refl _⟩
              · intro hx
                exact Bool.noConfusion hx.1
              · intro hx
                exact ⟨rfl, rfl⟩
            · intro b e3 he3 hso3
              exact stepOK_logM _ e3 hso3.1
        · refine stepOK_bind ?_ ?_
          · have h2 := nextAlivePlayerM_state e1.game.hostId e1
            rw [h2]
            exact stepOK_refl e1 hso1.1
          · intro starting e2 he2 hso2
            refine stepOK_bind ?_ ?_
            · refine ⟨inv_restate hso2.1 rfl rfl rfl rfl hso2.1.1.rentOK
                hso2.1.1.activeTwo hso2.1.1.finishedAlive hso2.1.1.finishedWinner
                ?_ ?_ hso2.1.1.lobbyClean, playersMono_refl _⟩
              · intro hx
                exact Bool.noConfusion hx.1
              · intro hx
                exact ⟨rfl, rfl⟩
            · intro b e3 he3 hso3
              exact stepOK_logM _ e3 hso3.1

theorem stepOK_endTurn (pid : String) (e : Eng) (h : Inv e) :
    StepOK e (Res.state (endTurn pid e)) := by
  unfold endTurn
  refine stepOK_guard pid _ e h ?_
  intro hact hcur
  refine stepOK_bind_getGame ?_
  split
  · exact stepOK_refl e h
  · cases hp : e.game.getPlayer pid with
    | none => exact stepOK_refl e h
    | some player =>
      simp only []
      split
      · split
        · exact stepOK_refl e h
        · exact stepOK_refl e h
      · unfold advanceTurn
        refine stepOK_bind_getGame ?_
        refine stepOK_bind ?_ ?_
        · have h2 := nextAlivePlayerM_state e.game.turn.currentPlayerId e
          rw [h2]
          exact stepOK_refl e h
        · intro next e1 he1 hso1
          have hs1 : e1 = e := by
            have h2 := nextAlivePlayerM_state e.game.turn.currentPlayerId e
            rw [he1] at h2
            exact h2
          subst hs1
          refine stepOK_bind ?_ ?_
          · refine ⟨inv_restate h rfl rfl rfl rfl h.1.rentOK
              h.1.activeTwo h.1.finishedAlive h.1.finishedWinner
              ?_ ?_ h.1.lobbyClean, playersMono_refl _⟩
            · intro hx
              exact Bool.noConfusion hx.1
            · intro hx
              exact ⟨rfl, rfl⟩
          · intro b e2 he2 hso2
            have hst2 : e2.game.status = .active := by
              simp only [modifyGame_apply] at he2
              injection he2 with h1 h2
              rw [← h2]
              exact hact
            rw [checkVictory_noop e2 hso2.1
              (by rw [hst2]; intro hy; exact GameStatus.noConfusion hy)]
            exact stepOK_refl e2 hso2.1

theorem stepOK_payBail (pid : String) (e : Eng) (h : Inv e) :
    StepOK e (Res.state (payBail pid e)) := by
  unfold payBail
  refine stepOK_guard pid _ e h ?_
  intro hact hcur
  refine stepOK_bind_getGame ?_
  cases hp : e.game.getPlayer pid with
  | none => exact stepOK_refl e h
  | some player =>
    simp only []
    split
    · exact stepOK_refl e h
    · split
      · exact stepOK_refl e h
      · split
        · exact stepOK_refl e h
        · rename_i hmon
          refine stepOK_of_chainOut pid ?_
          refine chainOut_bind (chainOut_updatePlayerM pid pid _ e h
            (finSafe_active pid hact) (fun q => rfl) (fun q => rfl) ?_) ?_
          · intro b hfind hneg
            exfalso
            have hbp : b = player := by
              have h2 : e.game.getPlayer pid = some b := hfind
              rw [hp] at h2
              injection h2 with h3
              exact h3.symm
            subst hbp
            have hneg2 : b.money - BAIL_COST < 0 := hneg
            have hmon2 : ¬(b.money < BAIL_COST) := hmon
            have h50 : BAIL_COST = (50 : Int) := rfl
            rw [h50] at hneg2 hmon2
            omega
          · intro a e1 he1 hco1
            refine chainOut_bind (chainOut_logM pid _ e1 hco1.1 hco1.2.2.1) ?_
            intro b e2 he2 hco2
            refine chainOut_checkBankruptcy pid e2 hco2.1.1 hco2.2.2.1 ?_
            intro p hp2 hm
            exact Or.inl (hco2.1.2 p hp2 hm)


theorem stepOK_buyProperty (pid prop : String) (e : Eng) (h : Inv e) :
    StepOK e (Res.state (buyProperty pid prop e)) := by
  unfold buyProperty
  refine stepOK_guard pid _ e h ?_
  intro hact hcur
  refine stepOK_bind_getGame ?_
  cases hp : e.game.getPlayer pid with
  | none => exact stepOK_refl e h
  | some player =>
    simp only []
    split
    · exact stepOK_refl e h
    · cases hpr : e.game.getProperty prop with
      | none => exact stepOK_refl e h
      | some tile =>
        simp only []
        split
        · exact stepOK_refl e h
        · split
          · exact stepOK_refl e h
          · rename_i hmon
            refine stepOK_of_chainOut pid ?_
            refine chainOut_bind (chainOut_updatePlayerM pid pid _ e h
              (finSafe_active pid hact) (fun q => rfl) (fun q => rfl) ?_) ?_
            · intro b hfind hneg
              exfalso
              have hbp : b = player := by
                have h2 : e.game.getPlayer pid = some b := hfind
                rw [hp] at h2
                injection h2 with h3
                exact h3.symm
              subst hbp
              have hneg2 : b.money - tile.price < 0 := hneg
              have hmon2 : ¬(b.money < tile.price) := hmon
              omega
            · intro a e1 he1 hco1
              refine chainOut_bind (chainOut_updateTileByIdM pid prop _ e1 hco1.1
                hco1.2.2.1 (fun t => rfl)) ?_
              intro b e2 he2 hco2
              refine chainOut_bind (chainOut_set_turn hco2.1 hco2.2.2.1
                rfl rfl rfl rfl rfl rfl hco2.1.1.rentOK ?_ ?_ rfl) ?_
              · intro hx
                exact Bool.noConfusion hx.1
              · intro hr
                exact ⟨rfl, (hco2.1.1.rolledFlags hr).2⟩
              · intro c e3 he3 hco3
                refine chainOut_bind (chainOut_logM pid _ e3 hco3.1 hco3.2.2.1) ?_
                intro d e4 he4 hco4
                rw [checkVictory_noop e4 hco4.1 hco4.2.2.1.1]
                exact chainOut_refl hco4.1 hco4.2.2.1

theorem stepOK_upgradeProperty (pid prop : String) (e : Eng) (h : Inv e) :
    StepOK e (Res.state (upgradeProperty pid prop e)) := by
  unfold upgradeProperty
  refine stepOK_guard pid _ e h ?_
  intro hact hcur
  refine stepOK_bind_getGame ?_
  cases hp : e.game.getPlayer pid with
  | none => exact stepOK_refl e h
  | some player =>
    simp only []
    cases hpr : e.game.getProperty prop with
    | none => exact stepOK_refl e h
    | some tile =>
      simp only []
      split
      · exact stepOK_refl e h
      · split
        · exact stepOK_refl e h
        · split
          · exact stepOK_refl e h
          · split
            · exact stepOK_refl e h
            · cases hcost : propertyUpgradeCost tile with
              | none => exact stepOK_refl e h
              | some cost =>
                simp only []
                split
                · exact stepOK_refl e h
                · rename_i hmon
                  refine stepOK_of_chainOut pid ?_
                  refine chainOut_bind (chainOut_updatePlayerM pid pid _ e h
                    (finSafe_active pid hact) (fun q => rfl) (fun q => rfl) ?_) ?_
                  · intro b hfind hneg
                    exfalso
                    have hbp : b = player := by
                      have h2 : e.game.getPlayer pid = some b := hfind
                      rw [hp] at h2
                      injection h2 with h3
                      exact h3.symm
                    subst hbp
                    have hneg2 : b.money - cost < 0 := hneg
                    have hmon2 : ¬(b.money < cost) := hmon
                    omega
                  · intro a e1 he1 hco1
                    refine chainOut_bind (chainOut_updateTileByIdM pid prop _ e1
                      hco1.1 hco1.2.2.1 (fun t => rfl)) ?_
                    intro b e2 he2 hco2
                    refine chainOut_bind (chainOut_set_turn hco2.1 hco2.2.2.1
                      rfl rfl rfl rfl rfl rfl hco2.1.1.rentOK ?_ ?_ rfl) ?_
                    · intro hx
                      exact Bool.noConfusion hx.2
                    · intro hr
                      exact ⟨(hco2.1.1.rolledFlags hr).1, rfl⟩
                    · intro c e3 he3 hco3
                      refine chainOut_bind (chainOut_logM pid _ e3 hco3.1
                        hco3.2.2.1) ?_
                      intro d e4 he4 hco4
                      refine chainOut_checkBankruptcy pid e4 hco4.1.1 hco4.2.2.1 ?_
                      intro p hp2 hm
                      exact Or.inl (hco4.1.2 p hp2 hm)

theorem stepOK_rollDice (pid : String) (d1 d2 : Nat) (e : Eng) (h : Inv e) :
    StepOK e (Res.state (rollDice pid d1 d2 e)) := by
  unfold rollDice
  refine stepOK_guard pid _ e h ?_
  intro hact hcur
  refine stepOK_bind_getGame ?_
  cases hp : e.game.getPlayer pid with
  | none => exact stepOK_refl e h
  | some player =>
    simp only []
    split
    · exact stepOK_refl e h
    · split
      · exact stepOK_refl e h
      · split
        · exact stepOK_refl e h
        · rename_i hnb hnr hnp
          have hpurf : truthyS e.game.turn.awaitingPurchase = false := by
            cases hv : truthyS e.game.turn.awaitingPurchase
            · rfl
            · exact absurd hv hnp
          refine stepOK_bind ?_ ?_
          · refine ⟨inv_restate h rfl rfl rfl rfl h.1.rentOK h.1.activeTwo
              h.1.finishedAlive h.1.finishedWinner h.1.mutex ?_
              h.1.lobbyClean, playersMono_refl _⟩
            intro hx
            exact Bool.noConfusion hx
          · intro a e1 he1 hso1
            simp only [modifyGame_apply] at he1
            injection he1 with h1 h2
            have hroll1 : e1.game.turn.rolled = true := by
              rw [← h2]
            have hpur1 : truthyS e1.game.turn.awaitingPurchase = false := by
              rw [← h2]
              exact hpurf
            have hst1 : e1.game.status = .active := by
              rw [← h2]
              exact hact
            have hfs1 : FinSafe pid e1 := finSafe_active pid hst1
            split
            · split
              · refine stepOK_of_chainOut pid ?_
                refine chainOut_bind (chainOut_updatePlayerM pid pid _ e1 hso1.1
                  hfs1 (fun q => rfl) (fun q => rfl) (fun b _ hm => hm)) ?_
                intro b e2 he2 hco2
                simp only [updatePlayerM, modifyGame_apply] at he2
                injection he2 with h3 h4
                have hroll2 : e2.game.turn.rolled = true := by
                  rw [← h4]
                  exact hroll1
                have hpur2 : truthyS e2.game.turn.awaitingPurchase = false := by
                  rw [← h4]
                  exact hpur1
                refine chainOut_bind (chainOut_logM pid _ e2 hco2.1 hco2.2.2.1) ?_
                intro c e3 he3 hco3
                have hturn3 : e3.game.turn = e2.game.turn := logM_ok_turn _ _ _ _ he3
                refine chainOut_bind (chainOut_landAndResolve pid _ _ e3 hco3.1
                  hco3.2.2.1 (by rw [hturn3]; exact hroll2)
                  (by rw [hturn3]; exact hpur2)) ?_
                intro d e4 he4 hco4
                exact chainOut_refl hco4.1 hco4.2.2.1
              · split
                · refine stepOK_of_chainOut pid ?_
                  refine chainOut_bind (chainOut_chargeBank pid _ _ e1 hso1.1 hfs1) ?_
                  intro b e2 he2 hco2
                  have hturn2 : e2.game.turn = e1.game.turn :=
                    chargeBank_ok_turn _ _ _ _ _ _ he2
                  have hroll2 : e2.game.turn.rolled = true := by
                    rw [hturn2]
                    exact hroll1
                  have hpur2 : truthyS e2.game.turn.awaitingPurchase = false := by
                    rw [hturn2]
                    exact hpur1
                  refine chainOut_bind_getGame ?_
                  split
                  · exact chainOut_refl hco2.1 hco2.2.2.1
                  · refine chainOut_bind (chainOut_updatePlayerM pid pid _ e2 hco2.1
                      hco2.2.2.1 (fun q => rfl) (fun q => rfl) (fun b _ hm => hm)) ?_
                    intro c e3 he3 hco3
                    simp only [updatePlayerM, modifyGame_apply] at he3
                    injection he3 with h5 h6
                    have hroll3 : e3.game.turn.rolled = true := by
                      rw [← h6]
                      exact hroll2
                    have hpur3 : truthyS e3.game.turn.awaitingPurchase = false := by
                      rw [← h6]
                      exact hpur2
                    refine chainOut_bind (chainOut_landAndResolve pid _ _ e3 hco3.1
                      hco3.2.2.1 hroll3 hpur3) ?_
                    intro d e4 he4 hco4
                    exact chainOut_refl hco4.1 hco4.2.2.1
                · refine stepOK_of_chainOut pid ?_
                  refine chainOut_bind (chainOut_updatePlayerM pid pid _ e1 hso1.1
                    hfs1 (fun q => rfl) (fun q => rfl) (fun b _ hm => hm)) ?_
                  intro b e2 he2 hco2
                  refine chainOut_bind (chainOut_logM pid _ e2 hco2.1 hco2.2.2.1) ?_
                  intro c e3 he3 hco3
                  exact chainOut_refl hco3.1 hco3.2.2.1
            · refine stepOK_of_chainOut pid ?_
              refine chainOut_bind (chainOut_landAndResolve pid _ _ e1 hso1.1 hfs1
                hroll1 hpur1) ?_
              intro b e2 he2 hco2
              exact chainOut_refl hco2.1 hco2.2.2.1


/-! ## Reachable states -/

theorem init_inv (roomId hostName hostId : String) (settings : GameSettings)
    (deck0 : List EventCard) (shufs0 : List (List EventCard))
    (hdeck : ∀ c ∈ deck0, c ∈ EVENT_CARDS)
    (hshufs : ∀ l ∈ shufs0, ∀ c ∈ l, c ∈ EVENT_CARDS) :
    Inv ⟨initGame roomId hostName hostId settings deck0, shufs0⟩ := by
  refine ⟨⟨hdeck, hshufs, ?_, ?_, ?_, ?_, ?_, ?_, ?_, ?_, ?_⟩, ?_⟩
  · simp [initGame]
  · intro hx
    exact GameStatus.noConfusion hx
  · intro hx
    exact GameStatus.noConfusion hx
  · intro q hx
    exact GameStatus.noConfusion hx
  · intro hx
    exact Bool.noConfusion hx.1
  · intro hx
    exact ⟨rfl, rfl⟩
  · intro hx p hp
    rw [List.mem_singleton.mp hp]
  · exact ⟨clamp_nonneg _ 500 4000 (by decide), clamp_nonneg _ 100 500 (by decide)⟩
  · show ∀ t ∈ cloneBoard DEFAULT_BOARD, 0 ≤ t.baseRent
    decide
  · intro p hp hm
    rw [List.mem_singleton.mp hp] at hm
    exact absurd hm (not_lt.mpr (clamp_nonneg _ 500 4000 (by decide)))

/-- The states reachable from a fresh room through the public engine
operations, including the states left behind by failing calls.  `addPlayer`
carries the freshness of the generated `nanoid`, and the initial reshuffle
stream holds only default event cards. -/
inductive Reach : Eng → Prop where
  | init (roomId hostName hostId : String) (settings : GameSettings)
      (deck0 : List EventCard) (shufs0 : List (List EventCard))
      (hdeck : ∀ c ∈ deck0, c ∈ EVENT_CARDS)
      (hshufs : ∀ l ∈ shufs0, ∀ c ∈ l, c ∈ EVENT_CARDS) :
      Reach ⟨initGame roomId hostName hostId settings deck0, shufs0⟩
  | add (name id : String) (e : Eng) (h : Reach e)
      (hfresh : ∀ p ∈ e.game.players, p.id ≠ id) :
      Reach (Res.state (addPlayer name id e))
  | start (e : Eng) (h : Reach e) : Reach (Res.state (startGame e))
  | recon (pid : String) (e : Eng) (h : Reach e) :
      Reach (Res.state (reconnect pid e))
  | roll (pid : String) (d1 d2 : Nat) (e : Eng) (h : Reach e) :
      Reach (Res.state (rollDice pid d1 d2 e))
  | buy (pid prop : String) (e : Eng) (h : Reach e) :
      Reach (Res.state (buyProperty pid prop e))
  | pass (pid : String) (e : Eng) (h : Reach e) :
      Reach (Res.state (passPurchase pid e))
  | upgrade (pid prop : String) (e : Eng) (h : Reach e) :
      Reach (Res.state (upgradeProperty pid prop e))
  | bail (pid : String) (e : Eng) (h : Reach e) :
      Reach (Res.state (payBail pid e))
  | endT (pid : String) (e : Eng) (h : Reach e) :
      Reach (Res.state (endTurn pid e))
  | finishNW (e : Eng) (h : Reach e) :
      Reach (Res.state (finishByNetWorth e))

/-- Every reachable state satisfies the master invariant. -/
theorem reach_inv {e : Eng} (h : Reach e) : Inv e := by
  induction h with
  | init roomId hostName hostId settings deck0 shufs0 hdeck hshufs =>
    exact init_inv roomId hostName hostId settings deck0 shufs0 hdeck hshufs
  | add name id e h hfresh ih => exact (stepOK_addPlayer name id e ih hfresh).1
  | start e h ih => exact (stepOK_startGame e ih).1
  | recon pid e h ih => exact (stepOK_reconnect pid e ih).1
  | roll pid d1 d2 e h ih => exact (stepOK_rollDice pid d1 d2 e ih).1
  | buy pid prop e h ih => exact (stepOK_buyProperty pid prop e ih).1
  | pass pid e h ih => exact (stepOK_passPurchase pid e ih).1
  | upgrade pid prop e h ih => exact (stepOK_upgradeProperty pid prop e ih).1
  | bail pid e h ih => exact (stepOK_payBail pid e ih).1
  | endT pid e h ih => exact (stepOK_endTurn pid e ih).1
  | finishNW e h ih => exact (stepOK_finishByNetWorth e ih).1


/-! ## Direct consequences for bankruptcy and turn advancement (claims C3, C9) -/

theorem checkVictory_players (e : Eng) :
    (Res.state (checkVictory e)).game.players = e.game.players := by
  unfold checkVictory
  simp only [bind_apply, getGame_apply]
  split
  · rfl
  · cases hfl : List.filter (fun p => !p.bankrupt) e.game.players with
    | nil => rfl
    | cons x xs =>
      cases xs with
      | nil => rfl
      | cons y ys => rfl

theorem checkVictory_tiles (e : Eng) :
    (Res.state (checkVictory e)).game.tiles = e.game.tiles := by
  unfold checkVictory
  simp only [bind_apply, getGame_apply]
  split
  · rfl
  · cases hfl : List.filter (fun p => !p.bankrupt) e.game.players with
    | nil => rfl
    | cons x xs =>
      cases xs with
      | nil => rfl
      | cons y ys => rfl

theorem checkBankruptcy_noop_bankrupt (pid : String) (e : Eng) (p : PlayerState)
    (hp : e.game.getPlayer pid = some p) (hb : p.bankrupt = true) :
    checkBankruptcy pid e = .ok () e := by
  unfold checkBankruptcy
  simp only [bind_apply, getGame_apply]
  rw [hp]
  simp only []
  rw [if_pos (Or.inr hb)]
  rfl

theorem checkBankruptcy_flip (pid : String) (e : Eng) (p : PlayerState)
    (hp : e.game.getPlayer pid = some p) (hm : p.money < 0) (hb : p.bankrupt = false) :
    ((Res.state (checkBankruptcy pid e)).game.getPlayer pid =
      some { p with bankrupt := true, inJailTurns := 0 }) ∧
    (∀ t ∈ (Res.state (checkBankruptcy pid e)).game.tiles,
      ¬(t.type = .property ∧ t.ownerId = some pid)) := by
  have hcond : ¬(0 ≤ p.money ∨ p.bankrupt = true) := by
    intro hor
    rcases hor with h1 | h1
    · omega
    · rw [hb] at h1
      exact Bool.noConfusion h1
  unfold checkBankruptcy
  simp only [bind_apply, getGame_apply]
  rw [hp]
  simp only []
  rw [if_neg hcond]
  simp only [updatePlayerM, modifyGame_apply, logM, bind_apply]
  constructor
  · rw [show ∀ e2 : Eng, e2.game.getPlayer pid =
      e2.game.players.find? (fun x => x.id == pid) from fun e2 => rfl]
    rw [checkVictory_players]
    show List.find? (fun x => x.id == pid)
      (updateFirst (fun x => x.id == pid)
        (fun q => { q with bankrupt := true, inJailTurns := 0 })
        e.game.players) = _
    rw [find?_updateFirst_eq (fun x : PlayerState => x.id == pid)
      (fun q : PlayerState => { q with bankrupt := true, inJailTurns := 0 })
      (fun a => rfl)]
    rw [show e.game.players.find? (fun x => x.id == pid) = some p from hp]
    rfl
  · rw [checkVictory_tiles]
    show ∀ t ∈ e.game.tiles.map (fun t =>
      if t.type == TileType.property && t.ownerId == some pid then
        { t with ownerId := none } else t),
      ¬(t.type = .property ∧ t.ownerId = some pid)
    intro t ht
    obtain ⟨t0, ht0, rfl⟩ := List.mem_map.mp ht
    by_cases hc : (t0.type == TileType.property && t0.ownerId == some pid) = true
    · rw [if_pos hc]
      intro hx
      exact Option.noConfusion hx.2
    · rw [if_neg hc]
      intro hx
      apply hc
      rw [Bool.and_eq_true]
      refine ⟨?_, ?_⟩
      · rw [hx.1]
        exact beq_self_eq_true _
      · rw [hx.2]
        exact beq_self_eq_true _

theorem mod_cover (a j n : Nat) (hn : 0 < n) (hj : j < n) :
    (a + (j + n - a % n) % n) % n = j := by
  rw [Nat.add_mod_mod]
  have hle : a % n ≤ a := Nat.mod_le a n
  have hlt : a % n < n := Nat.mod_lt a hn
  have hdm : n * (a / n) + a % n = a := Nat.div_add_mod a n
  have h2 : a + (j + n - a % n) = j + n * (a / n + 1) := by
    rw [Nat.mul_add, Nat.mul_one]
    generalize hq : a / n = q at hdm
    generalize hr : a % n = r at hle hlt hdm ⊢
    generalize hnq : n * q = m at hdm ⊢
    omega
  rw [h2, Nat.add_mul_mod_self_left]
  exact Nat.mod_eq_of_lt hj

theorem nextAliveLoop_finds (order : List PlayerState) (idx : Nat) (cur : String) :
    ∀ rem i, (∃ k, k < rem ∧ ∃ p, order.get? ((idx + i + k) % order.length) = some p ∧
      p.bankrupt = false) →
    ∃ p, p ∈ order ∧ p.bankrupt = false ∧ nextAliveLoop order idx cur i rem = p.id := by
  intro rem
  induction rem with
  | zero =>
    intro i h
    obtain ⟨k, hk, _⟩ := h
    exact absurd hk (Nat.not_lt_zero k)
  | succ rem ih =>
    intro i h
    obtain ⟨k, hk, p, hp, hal⟩ := h
    rw [show nextAliveLoop order idx cur i (rem + 1) =
      (match order.get? ((idx + i) % order.length) with
       | some c => if c.bankrupt then nextAliveLoop order idx cur (i + 1) rem
          else c.id
       | none => nextAliveLoop order idx cur (i + 1) rem) from rfl]
    cases hg : order.get? ((idx + i) % order.length) with
    | none =>
      cases k with
      | zero =>
        rw [Nat.add_zero] at hp
        rw [hg] at hp
        exact Option.noConfusion hp
      | succ k2 =>
        refine ih (i + 1) ⟨k2, by omega, p, ?_, hal⟩
        rw [show idx + (i + 1) + k2 = idx + i + (k2 + 1) from by omega]
        exact hp
    | some c =>
      simp only []
      by_cases hcb : c.bankrupt = true
      · rw [if_pos hcb]
        cases k with
        | zero =>
          rw [Nat.add_zero] at hp
          rw [hg] at hp
          injection hp with hpc
          rw [hpc, hal] at hcb
          exact Bool.noConfusion hcb
        | succ k2 =>
          refine ih (i + 1) ⟨k2, by omega, p, ?_, hal⟩
          rw [show idx + (i + 1) + k2 = idx + i + (k2 + 1) from by omega]
          exact hp
      · rw [if_neg hcb]
        have hcb2 : c.bankrupt = false := by
          cases hv : c.bankrupt
          · rfl
          · exact absurd hv hcb
        exact ⟨c, List.get?_mem hg, hcb2, rfl⟩

/-- With at least one non-bankrupt player present, `nextAlivePlayer` returns
the id of a non-bankrupt player. -/
theorem nextAlive_alive (g : GameState) (cur : String)
    (hex : ∃ p ∈ g.players, p.bankrupt = false) :
    ∃ p, p ∈ g.players ∧ p.bankrupt = false ∧ nextAlive g cur = p.id := by
  obtain ⟨p, hpmem, hal⟩ := hex
  have hlen : 0 < g.players.length := List.length_pos.mpr (List.ne_nil_of_mem hpmem)
  obtain ⟨j, hpj⟩ := List.get?_of_mem hpmem
  have hj : j < g.players.length := by
    by_contra hc
    rw [List.get?_eq_none.mpr (by omega)] at hpj
    exact Option.noConfusion hpj
  unfold nextAlive
  apply nextAliveLoop_finds
  refine ⟨(j + g.players.length -
    (((g.players.findIdx? (fun q => q.id == cur)).getD 0) + 1) %
      g.players.length) % g.players.length, Nat.mod_lt _ hlen, p, ?_, hal⟩
  rw [show ∀ x : Nat, x + 1 +
    (j + g.players.length - (x + 1) % g.players.length) % g.players.length =
    (x + 1) + (j + g.players.length - (x + 1) % g.players.length) %
      g.players.length from fun x => rfl]
  rw [mod_cover _ j _ hlen hj]
  exact hpj

theorem advanceTurn_ok (e : Eng) (a : Unit) (e' : Eng)
    (h : advanceTurn e = Res.ok a e') :
    e'.game.turn.awaitingPurchase = none ∧ e'.game.turn.awaitingUpgrade = none ∧
    e'.game.turn.rolled = false ∧
    e'.game.turn.currentPlayerId = nextAlive e.game e.game.turn.currentPlayerId := by
  unfold advanceTurn nextAlivePlayerM at h
  simp only [bind_apply, getGame_apply] at h
  split at h
  · rename_i y E heq
    split at heq
    · exact Res.noConfusion heq
    · injection heq with hy hE
      subst hy
      subst hE
      simp only [modifyGame_apply] at h
      have h2 := congrArg Res.state h
      simp only [state_ok] at h2
      rw [← h2, checkVictory_turn]
      exact ⟨rfl, rfl, rfl, rfl⟩
  · exact Res.noConfusion h


/-- C2 (claim): no reachable state is `active` with at most one non-bankrupt
player; in any reachable non-lobby state with exactly one non-bankrupt player
the status is `finished` and `winnerId` is that player's id (the moment one
survivor remains after a money- or turn-affecting operation the game is
already finalized); and `checkVictory` is a no-op once status is
`finished`. -/
theorem claim_C2_victoryInvariant :
    (∀ e, Reach e → e.game.status = .active →
      ¬((e.game.players.filter (fun p => !p.bankrupt)).length ≤ 1)) ∧
    (∀ e q, Reach e → e.game.status ≠ .lobby →
      e.game.players.filter (fun p => !p.bankrupt) = [q] →
      e.game.status = .finished ∧ e.game.winnerId = some q.id) ∧
    (∀ e, e.game.status = .finished → checkVictory e = .ok () e) := by
  refine ⟨?_, ?_, ?_⟩
  · intro e hr hact hle
    have h2 := (reach_inv hr).1.activeTwo hact
    omega
  · intro e q hr hnl hq
    have hi := reach_inv hr
    have hfin : e.game.status = .finished := by
      cases hs : e.game.status
      · exact absurd hs hnl
      · exfalso
        have h2 := hi.1.activeTwo hs
        rw [hq] at h2
        have h3 : ([q] : List PlayerState).length = 1 := rfl
        rw [h3] at h2
        omega
      · rfl
    exact ⟨hfin, hi.1.finishedWinner q hfin hq⟩
  · intro e hf
    exact checkVictory_finished_noop e hf

theorem claim_C2_victoryInvariant_witness :
    ¬(((Res.state (startGame (Res.state (addPlayer "Ana" "A"
      (⟨sampleLobby, []⟩ : Eng))))).game.players.filter
        (fun p => !p.bankrupt)).length ≤ 1) :=
  claim_C2_victoryInvariant.1 _
    (Reach.start _ (Reach.add "Ana" "A" _
      (Reach.init "r" "Host" "H" DEFAULT_SETTINGS EVENT_CARDS []
        (fun c hc => hc) (fun l hl => absurd hl (List.not_mem_nil l)))
      (by decide)))
    (by decide)

/-- C9 (claim): in every reachable state at most one of
`turn.awaitingPurchase` and `turn.awaitingUpgrade` is truthy, and a
completing `advanceTurn` clears both flags (and resets `rolled`). -/
theorem claim_C9_flagMutex :
    (∀ e, Reach e → ¬(truthyS e.game.turn.awaitingPurchase = true ∧
      truthyS e.game.turn.awaitingUpgrade = true)) ∧
    (∀ e a e', advanceTurn e = Res.ok a e' →
      e'.game.turn.awaitingPurchase = none ∧
      e'.game.turn.awaitingUpgrade = none ∧ e'.game.turn.rolled = false) := by
  refine ⟨?_, ?_⟩
  · intro e hr
    exact (reach_inv hr).1.mutex
  · intro e a e' h
    have h2 := advanceTurn_ok e a e' h
    exact ⟨h2.1, h2.2.1, h2.2.2.1⟩

theorem claim_C9_flagMutex_witness :
    ¬(truthyS (Res.state (startGame (Res.state (addPlayer "Ana" "A"
        (⟨sampleLobby, []⟩ : Eng))))).game.turn.awaitingPurchase = true ∧
      truthyS (Res.state (startGame (Res.state (addPlayer "Ana" "A"
        (⟨sampleLobby, []⟩ : Eng))))).game.turn.awaitingUpgrade = true) :=
  claim_C9_flagMutex.1 _
    (Reach.start _ (Reach.add "Ana" "A" _
      (Reach.init "r" "Host" "H" DEFAULT_SETTINGS EVENT_CARDS []
        (fun c hc => hc) (fun l hl => absurd hl (List.not_mem_nil l)))
      (by decide)))

/-- C3 (claim): in every reachable state a player with negative money is
bankrupt (the flag is set within the call that made the money negative);
`checkBankruptcy` on a non-bankrupt player with negative money sets the
bankrupt flag, zeroes the jail counter, and releases every tile owned by the
player; it is a no-op when the player is already bankrupt; every public
operation only ever sets the bankrupt flag, never clears it (the surviving
prefix of the player list keeps its ids, bankruptcy is monotone, and players
are only appended); and a completing `advanceTurn` from a reachable state
with a surviving player never selects a bankrupt player as current. -/
theorem claim_C3_bankruptcy :
    (∀ e, Reach e → ∀ p ∈ e.game.players, p.money < 0 → p.bankrupt = true) ∧
    (∀ e pid p, e.game.getPlayer pid = some p → p.money < 0 →
      p.bankrupt = false →
      ((Res.state (checkBankruptcy pid e)).game.getPlayer pid =
        some { p with bankrupt := true, inJailTurns := 0 }) ∧
      (∀ t ∈ (Res.state (checkBankruptcy pid e)).game.tiles,
        ¬(t.type = .property ∧ t.ownerId = some pid))) ∧
    (∀ e pid p, e.game.getPlayer pid = some p → p.bankrupt = true →
      checkBankruptcy pid e = .ok () e) ∧
    (∀ name id e, Reach e → (∀ p ∈ e.game.players, p.id ≠ id) →
      PlayersMono e.game.players
        (Res.state (addPlayer name id e)).game.players) ∧
    (∀ e, Reach e → PlayersMono e.game.players
      (Res.state (startGame e)).game.players) ∧
    (∀ pid e, Reach e → PlayersMono e.game.players
      (Res.state (reconnect pid e)).game.players) ∧
    (∀ pid d1 d2 e, Reach e → PlayersMono e.game.players
      (Res.state (rollDice pid d1 d2 e)).game.players) ∧
    (∀ pid prop e, Reach e → PlayersMono e.game.players
      (Res.state (buyProperty pid prop e)).game.players) ∧
    (∀ pid e, Reach e → PlayersMono e.game.players
      (Res.state (passPurchase pid e)).game.players) ∧
    (∀ pid prop e, Reach e → PlayersMono e.game.players
      (Res.state (upgradeProperty pid prop e)).game.players) ∧
    (∀ pid e, Reach e → PlayersMono e.game.players
      (Res.state (payBail pid e)).game.players) ∧
    (∀ pid e, Reach e → PlayersMono e.game.players
      (Res.state (endTurn pid e)).game.players) ∧
    (∀ e, Reach e → PlayersMono e.game.players
      (Res.state (finishByNetWorth e)).game.players) ∧
    (∀ e a e', Reach e → (∃ p ∈ e.game.players, p.bankrupt = false) →
      advanceTurn e = Res.ok a e' → ∀ q ∈ e.game.players, q.bankrupt = true →
      e'.game.turn.currentPlayerId ≠ q.id) := by
  refine ⟨?_, ?_, ?_, ?_, ?_, ?_, ?_, ?_, ?_, ?_, ?_, ?_, ?_, ?_⟩
  · intro e hr
    exact (reach_inv hr).2
  · intro e pid p hp hm hb
    exact checkBankruptcy_flip pid e p hp hm hb
  · intro e pid p hp hb
    exact checkBankruptcy_noop_bankrupt pid e p hp hb
  · intro name id e hr hfresh
    exact (stepOK_addPlayer name id e (reach_inv hr) hfresh).2
  · intro e hr
    exact (stepOK_startGame e (reach_inv hr)).2
  · intro pid e hr
    exact (stepOK_reconnect pid e (reach_inv hr)).2
  · intro pid d1 d2 e hr
    exact (stepOK_rollDice pid d1 d2 e (reach_inv hr)).2
  · intro pid prop e hr
    exact (stepOK_buyProperty pid prop e (reach_inv hr)).2
  · intro pid e hr
    exact (stepOK_passPurchase pid e (reach_inv hr)).2
  · intro pid prop e hr
    exact (stepOK_upgradeProperty pid prop e (reach_inv hr)).2
  · intro pid e hr
    exact (stepOK_payBail pid e (reach_inv hr)).2
  · intro pid e hr
    exact (stepOK_endTurn pid e (reach_inv hr)).2
  · intro e hr
    exact (stepOK_finishByNetWorth e (reach_inv hr)).2
  · intro e a e' hr hex hadv q hq hqb
    have h4 := (advanceTurn_ok e a e' hadv).2.2.2
    obtain ⟨p2, hp2mem, hp2al, hp2id⟩ :=
      nextAlive_alive e.game e.game.turn.currentPlayerId hex
    intro hcontra
    rw [h4, hp2id] at hcontra
    have hpq : p2 = q :=
      List.inj_on_of_nodup_map (reach_inv hr).1.idsNodup hp2mem hq hcontra
    rw [hpq, hqb] at hp2al
    exact Bool.noConfusion hp2al

theorem claim_C3_bankruptcy_witness :
    ((Res.state (checkBankruptcy "H" (⟨{ sampleLobby with players :=
        [{ id := "H", name := "Host", position := 3, money := -5,
           inJailTurns := 2, bankrupt := false }] }, []⟩ : Eng))).game.getPlayer
      "H" = some { id := "H", name := "Host", position := 3, money := -5,
                   inJailTurns := 0, bankrupt := true }) ∧
    (∀ t ∈ (Res.state (checkBankruptcy "H" (⟨{ sampleLobby with players :=
        [{ id := "H", name := "Host", position := 3, money := -5,
           inJailTurns := 2, bankrupt := false }] }, []⟩ : Eng))).game.tiles,
      ¬(t.type = .property ∧ t.ownerId = some "H")) :=
  claim_C3_bankruptcy.2.1 _ "H"
    { id := "H", name := "Host", position := 3, money := -5,
      inJailTurns := 2, bankrupt := false }
    rfl (by decide) rfl


end Banco
